import Mathlib

/-!
# ldbl: the dispatch layer (DispatchedStorage), its item cache and relations

A shallow embedding of `dispatched-storage.go`, `cache.go`, `relations.go`,
`model.go` and the selecting part of `storage-sql.go`.  Go pointers to entities are modelled by passing the entity state
in and out of every operation; the persistence backend (the `Storage`
interface) is a record of functions over an abstract backend state.
-/

namespace Ldbl

/-! ## Values, errors -/

/-- Dynamic values held in a field map (`interface{}`), by dynamic type. -/
inductive Value where
  | nil
  | uint64 (n : Nat)
  | uint (n : Nat)
  | int (i : Int)
  | str (s : String)
  | other (tag : String)
  deriving DecidableEq, Repr

/-- Go `error` values.  Each `fmt.Errorf` site of the sources is one constructor;
`custom` stands for errors made outside the library (handlers, database driver). -/
inductive Error where
  | custom (msg : String)
  | relatedMissing (toCollection : String) (id : Nat) (collection : String) (fk : String)
  | fkNotUint64 (collection : String) (fk : String) (raw : Value)
  | cantCheckRelated (collection : String) (toCollection : String)
  | noRelation (typ : Nat) (fromCollection : String) (toCollection : String)
  | entryNotExists (collection : String) (id : Nat)
  | cantRollback (rollbackErr : Error) (cause : Error)
  deriving DecidableEq, Repr

/-! ## Finite maps as association lists (Go `map`) -/

/-- Read `m[k]`; `none` when the key is absent. -/
def mapGet {κ α : Type} [DecidableEq κ] : List (κ × α) → κ → Option α
  | [], _ => none
  | (k', v) :: m, k => if k' = k then some v else mapGet m k

/-- Assign `m[k] = v`, overwriting an existing entry. -/
def mapSet {κ α : Type} [DecidableEq κ] : List (κ × α) → κ → α → List (κ × α)
  | [], k, v => [(k, v)]
  | (k', v') :: m, k, v => if k' = k then (k, v) :: m else (k', v') :: mapSet m k v

/-! ## model.go -/

/-- The `Model` struct: `id` and the `fields` map (`none` is the nil map). -/
structure Model where
  id : Nat
  fields : Option (List (String × Value))
  deriving DecidableEq, Repr

/-- The method `Model.PKName`. -/
def Model.PKName (_m : Model) : String := "id"

/-- The method `Model.Fill`: set the id, replace the map unless `fields` is nil. -/
def Model.Fill (m : Model) (id : Nat) (fields : Option (List (String × Value))) : Model :=
  match fields with
  | none => { m with id := id }
  | some f => { id := id, fields := some f }

/-- The method `Model.Id`. -/
def Model.Id (m : Model) : Nat := m.id

/-- The method `Model.Fields`. -/
def Model.Fields (m : Model) : Option (List (String × Value)) := m.fields

/-- The method `Model.Field`: nil for a nil map or a missing key. -/
def Model.Field (m : Model) (name : String) : Value :=
  match m.fields with
  | none => Value.nil
  | some f => (mapGet f name).getD Value.nil

/-- The method `Model.SetField`. -/
def Model.SetField (m : Model) (name : String) (value : Value) : Model :=
  match m.fields with
  | none => { m with fields := some (mapSet [] name value) }
  | some f => { m with fields := some (mapSet f name value) }

/-- The method `Model.Clone`: `Model{fields: m.fields}`. -/
def Model.Clone (m : Model) : Model := { id := 0, fields := m.fields }

/-! ## Entities (interfaces.go)

An entity is a value of a concrete type embedding `Model`.  The type fixes
the collection name, the primary key name and which optional interfaces
(`Storable`, `FieldGetter`) the value satisfies; only the embedded `Model`
is mutable. -/

/-- An entity behind a `Loadable` pointer. -/
structure Item extends Model where
  CollectionName : String
  PKName : String
  storable : Bool
  fieldGetter : Bool
  deriving DecidableEq, Repr

/-- The entity with its embedded `Model` replaced: the effect on the pointee of
calls that mutate it (`Fill`, handlers, backend writes). -/
def Item.withModel (x : Item) (m : Model) : Item := { x with toModel := m }

/-- The method `Fill` of an entity embedding `Model`. -/
def Item.Fill (x : Item) (id : Nat) (fields : Option (List (String × Value))) : Item :=
  x.withModel (x.toModel.Fill id fields)

/-- The method `Clone` of an entity embedding `Model` (as `Image.Clone` of the tests). -/
def Item.Clone (x : Item) : Item := x.withModel x.toModel.Clone

/-! ## relations.go -/

/-- The constants `HAS_ONE`, `HAS_MANY`, `BELONGS_TO`. -/
inductive RelationType where
  | HAS_ONE
  | HAS_MANY
  | BELONGS_TO
  deriving DecidableEq, Repr

/-- The `Relation` struct.  `GetForeignKeyFunc` is a nullary function, given by
the value it returns; `none` is the nil function. -/
structure Relation where
  From : Item
  To : Item
  ForeignKey : String
  Typ : RelationType
  GetForeignKeyFunc : Option Nat
  deriving DecidableEq, Repr

/-- The function `foreignKeyFor`. -/
def foreignKeyFor (item : Item) : String := item.CollectionName ++ "_" ++ item.PKName

/-- The constructor `NewHasOneRelation`. -/
def NewHasOneRelation (frm dst : Item) : Relation :=
  { From := frm, To := dst, Typ := .HAS_ONE, ForeignKey := foreignKeyFor frm, GetForeignKeyFunc := none }

/-- The constructor `NewHasManyRelation`. -/
def NewHasManyRelation (frm dst : Item) : Relation :=
  { From := frm, To := dst, Typ := .HAS_MANY, ForeignKey := foreignKeyFor frm, GetForeignKeyFunc := none }

/-- The constructor `NewBelongsToRelation`. -/
def NewBelongsToRelation (frm dst : Item) : Relation :=
  { From := frm, To := dst, Typ := .BELONGS_TO, ForeignKey := foreignKeyFor dst, GetForeignKeyFunc := none }

/-- The method `Relation.WithFK`. -/
def Relation.WithFK (r : Relation) (fk : String) : Relation := { r with ForeignKey := fk }

/-- The method `Relation.Reversed`; every type has a reverse, so the result is never nil. -/
def Relation.Reversed (r : Relation) : Option Relation :=
  match r.Typ with
  | .HAS_ONE | .HAS_MANY =>
    some { From := r.To, To := r.From, ForeignKey := r.ForeignKey, Typ := .BELONGS_TO,
           GetForeignKeyFunc := none }
  | .BELONGS_TO =>
    some { From := r.To, To := r.From, ForeignKey := r.ForeignKey, Typ := .HAS_MANY,
           GetForeignKeyFunc := none }

/-! ## cache.go -/

/-- The `ItemsCache` struct.  A stored `none` is the nil tombstone written by `Remove`. -/
structure ItemsCache where
  data : List (String × List (Nat × Option Item))
  itemsCount : Nat
  maxSize : Int
  deriving DecidableEq, Repr

/-- The constructor `NewItemsCache`. -/
def NewItemsCache (maxSize : Int) : ItemsCache := { data := [], itemsCount := 0, maxSize := maxSize }

/-- The method `ItemsCache.init`. -/
def ItemsCache.init (c : ItemsCache) : ItemsCache := { c with data := [], itemsCount := 0 }

/-- The method `ItemsCache.Add`. -/
def ItemsCache.Add (c : ItemsCache) (item : Item) : ItemsCache :=
  if c.maxSize = 0 then c
  else
    let cname := item.CollectionName
    let c1 := if (c.itemsCount : Int) = c.maxSize then c.init else c
    let inner := (mapGet c1.data cname).getD []
    { c1 with data := mapSet c1.data cname (mapSet inner item.id (some item)),
              itemsCount := c1.itemsCount + 1 }

/-- The method `ItemsCache.Lookup`: the hit flag and the target after the call. -/
def ItemsCache.Lookup (c : ItemsCache) (forItem : Item) (id : Nat) : Bool × Item :=
  if c.maxSize = 0 then (false, forItem)
  else
    match mapGet c.data forItem.CollectionName with
    | none => (false, forItem)
    | some inner =>
      match mapGet inner id with
      | some (some result) =>
        if result.storable then (true, forItem.Fill id result.Fields) else (false, forItem)
      | _ => (false, forItem)

/-- The method `ItemsCache.Remove`. -/
def ItemsCache.Remove (c : ItemsCache) (item : Item) : ItemsCache :=
  if c.maxSize = 0 then c
  else
    match mapGet c.data item.CollectionName with
    | none => c
    | some inner =>
      match mapGet inner item.id with
      | none => c
      | some _ => { c with data := mapSet c.data item.CollectionName (mapSet inner item.id none) }

/-- The method `ItemsCache.Clear`. -/
def ItemsCache.Clear (c : ItemsCache) : ItemsCache := c.init

/-! ## interfaces.go: the persistence backend -/

/-- Which `Storage` value a backend call is made on: the root storage held by
the dispatcher (`s.storage`) or the transaction handed to the unit of work. -/
inductive Handle where
  | root
  | tx
  deriving DecidableEq, Repr

/-- The interfaces `Storage` and `TransactionalStorage` over a backend state `β`.
A method returns its error (`none` is nil) and the state of the entity it was
given a pointer to; `Load` and `Select` are reads and leave the backend state
alone.  `Select` takes the contents and the capacity of `*results` and returns
the new contents.  `Begin`, `Commit` and `Rollback` are the database primitives
under `SqlStorage.Transaction`; `transactional` tells whether the value
satisfies `TransactionalStorage`. -/
structure Storage (β : Type) where
  Save : Handle → Item → β → Option Error × Model × β
  Load : Handle → Item → Nat → β → Option Error × Model
  Delete : Handle → Item → β → Option Error × Model × β
  Select : Handle → Item → List Item → Nat → Option String → Int → String → List Value → β →
    Option Error × List Item
  transactional : Bool
  Begin : β → Option Error × β
  Commit : β → Option Error × β
  Rollback : β → Option Error × β

/-! ## dispatched-storage.go -/

/-- The trigger name constant `DELETE`. -/
def DELETE : String := "delete"
/-- The trigger name constant `DELETED`. -/
def DELETED : String := "deleted"
/-- The trigger name constant `SAVE`. -/
def SAVE : String := "save"
/-- The trigger name constant `SAVED`. -/
def SAVED : String := "saved"
/-- The trigger name constant `UPDATE`. -/
def UPDATE : String := "update"
/-- The trigger name constant `UPDATED`. -/
def UPDATED : String := "updated"
/-- The trigger name constant `CREATE`. -/
def CREATE : String := "create"
/-- The trigger name constant `CREATED`. -/
def CREATED : String := "created"

/-- What a handler does with the transaction it is handed, as a tree of calls:
it returns (`ret`, with its error and the state it leaves the entity in), or
calls `Save`, `Delete`, `Load` or `Select` of the `TransactionWrapper` and
goes on with the result. -/
inductive HProg where
  | ret (err : Option Error) (m : Model)
  | save (x : Item) (k : Option Error → Model → HProg)
  | delete (x : Item) (k : Option Error → Model → HProg)
  | load (dst : Item) (id : Nat) (k : Option Error → Model → HProg)
  | select (proto : Item) (results : List Item) (cap : Nat) (order : Option String) (skip : Int)
      (condition : String) (args : List Value) (k : Option Error → List Item → HProg)

/-- The type `Handler`: `func(item Loadable, t Transaction) error`. -/
abbrev Handler := Item → HProg

/-- Calls observed while the dispatcher runs, in order (instrumentation; the
sources log the first of them through `s.Log`). -/
inductive Event where
  | pulled (fullName : String) (id : Nat)
  | fired (fullName : String) (k : Nat)
  | storageSave (h : Handle) (collection : String) (id : Nat)
  | storageLoad (h : Handle) (collection : String) (id : Nat)
  | storageDelete (h : Handle) (collection : String) (id : Nat)
  | storageSelect (h : Handle) (collection : String) (condition : String) (args : List Value)
  | cacheAdd (collection : String) (id : Nat)
  | cacheRemove (collection : String) (id : Nat)
  | cacheClear
  | txBegin
  | txCommit
  | txRollback
  deriving DecidableEq, Repr

/-- The `DispatchedStorage` struct, with the backend state `db` behind `storage`
and the event record `log`.  `relations cname t` is `s.relations[cname][t]` and
`triggers fullName` is `s.triggers[fullName]`; a key is present exactly when its
list is not empty, since `registerRelation` and `RegisterHandler` append right
after creating a key. -/
structure DispatchedStorage (β : Type) where
  storage : Storage β
  db : β
  relations : String → RelationType → List Relation
  cache : ItemsCache
  triggers : String → List Handler
  transactSupport : Bool
  log : List Event

/-- The constructor `NewDispatchedStorage`, on a backend in state `db`. -/
def NewDispatchedStorage {β : Type} (s : Storage β) (db : β) : DispatchedStorage β :=
  { storage := s, db := db, relations := fun _ _ => [], cache := NewItemsCache 100,
    triggers := fun _ => [], transactSupport := s.transactional, log := [] }

/-- Append an event to the record. -/
def DispatchedStorage.emit {β : Type} (s : DispatchedStorage β) (e : Event) : DispatchedStorage β :=
  { s with log := s.log ++ [e] }

/-- The method `SetCacheMaxSize`. -/
def DispatchedStorage.SetCacheMaxSize {β : Type} (s : DispatchedStorage β) (maxItemsCount : Int) :
    DispatchedStorage β :=
  { s with cache := NewItemsCache maxItemsCount }

/-- The method `registerRelation`. -/
def DispatchedStorage.registerRelation {β : Type} (s : DispatchedStorage β) (r : Relation) :
    DispatchedStorage β :=
  { s with relations := fun cname t =>
      if cname = r.From.CollectionName ∧ t = r.Typ then s.relations cname t ++ [r]
      else s.relations cname t }

/-- The method `RegisterRelation`. -/
def DispatchedStorage.RegisterRelation {β : Type} (s : DispatchedStorage β) (r : Relation) :
    DispatchedStorage β :=
  match r.Reversed with
  | some reversed => (s.registerRelation r).registerRelation reversed
  | none => s.registerRelation r

/-- The method `RegisterHandler`. -/
def DispatchedStorage.RegisterHandler {β : Type} (s : DispatchedStorage β) (forItem : Item)
    (triggerName : String) (h : Handler) : DispatchedStorage β :=
  let fullName := forItem.CollectionName ++ "." ++ triggerName
  { s with triggers := fun k => if k = fullName then s.triggers k ++ [h] else s.triggers k }

/-- The method `getRelationsOfType`. -/
def DispatchedStorage.getRelationsOfType {β : Type} (s : DispatchedStorage β) (forItem : Item)
    (t : RelationType) : List Relation :=
  s.relations forItem.CollectionName t

/-- The method `lookupRelationBetween`. -/
def DispatchedStorage.lookupRelationBetween {β : Type} (s : DispatchedStorage β) (frm dst : Item)
    (t : RelationType) : Option Relation :=
  (s.relations frm.CollectionName t).find? (fun rel => rel.To.CollectionName = dst.CollectionName)

/-- The function `uint64Value`; conversions to `uint64` wrap modulo `2^64`. -/
def uint64Value (v : Value) : Nat × Bool :=
  match v with
  | .uint64 n => (n % 2 ^ 64, true)
  | .uint n => (n % 2 ^ 64, true)
  | .int i => ((i % 2 ^ 64).toNat, true)
  | _ => (0, false)

/-- The function `loadFkValue`. -/
def loadFkValue (forItem : Item) (rel : Relation) : Except Error Nat :=
  match rel.GetForeignKeyFunc with
  | some id => .ok id
  | none =>
    if forItem.fieldGetter then
      let rawId := forItem.toModel.Field rel.ForeignKey
      match uint64Value rawId with
      | (id, true) => .ok id
      | (_, false) => .error (.fkNotUint64 forItem.CollectionName rel.ForeignKey rawId)
    else
      .error (.cantCheckRelated forItem.CollectionName rel.To.CollectionName)

/-- The loop of `checkRelated` over the `BELONGS_TO` relations. -/
def checkRelatedLoop {β : Type} (forItem : Item) :
    List Relation → DispatchedStorage β → Option Error × DispatchedStorage β
  | [], s => (none, s)
  | rel :: rels, s =>
    match loadFkValue forItem rel with
    | .error err => (some err, s)
    | .ok id =>
      let s1 := s.emit (.storageLoad .root rel.To.CollectionName id)
      match (s.storage.Load .root rel.To id s.db).1 with
      | some _ =>
        (some (.relatedMissing rel.To.CollectionName id forItem.CollectionName rel.ForeignKey), s1)
      | none => checkRelatedLoop forItem rels s1

/-- The method `checkRelated`.  The parent is loaded into the prototype `rel.To`,
whose contents nothing reads afterwards. -/
def DispatchedStorage.checkRelated {β : Type} (s : DispatchedStorage β) (forItem : Item) :
    Option Error × DispatchedStorage β :=
  checkRelatedLoop forItem (s.getRelationsOfType forItem .BELONGS_TO) s

/-- A call into the dispatcher that may recurse: `s.save`, `s.delete`, or the
rest of a running handler. -/
inductive Call where
  | save (item : Item)
  | delete (item : Item)
  | prog (p : HProg)

/-- Result of a call: `none` when the recursion budget ran out, else the error
returned, the state of the entity passed in, and the dispatcher afterwards. -/
abbrev Res (β : Type) := Option (Option Error × Model × DispatchedStorage β)

/-- The `for ... range` loop of `pullTrigger`; `k` counts the handlers already run. -/
def pullLoop {β : Type} (rec : Call → DispatchedStorage β → Res β) (forItem : Item)
    (fullName : String) : Nat → List Handler → Model → DispatchedStorage β → Res β
  | _, [], m, s => some (none, m, s)
  | k, handler :: rest, m, s =>
    match rec (.prog (handler (forItem.withModel m))) (s.emit (.fired fullName k)) with
    | none => none
    | some (some err, m1, s1) => some (some err, m1, s1)
    | some (none, m1, s1) => pullLoop rec forItem fullName (k + 1) rest m1 s1

/-- The method `pullTrigger`, called with a transaction wrapper (not nil). -/
def pullTrigger {β : Type} (rec : Call → DispatchedStorage β → Res β) (forItem : Item)
    (triggerName : String) (s : DispatchedStorage β) : Res β :=
  let fullName := forItem.CollectionName ++ "." ++ triggerName
  let s1 := s.emit (.pulled fullName forItem.id)
  match s1.triggers fullName with
  | [] => some (none, forItem.toModel, s1)
  | hs => pullLoop rec forItem fullName 0 hs forItem.toModel s1

/-- Steps of a handler: `TransactionWrapper.Save` and `Delete` enter `s.save` and
`s.delete` with the same wrapper, `Load` and `Select` go to the wrapped `t`. -/
def progBody {β : Type} (rec : Call → DispatchedStorage β → Res β) (t : Handle) :
    HProg → DispatchedStorage β → Res β
  | .ret err m, s => some (err, m, s)
  | .save x k, s =>
    match rec (.save x) s with
    | none => none
    | some (err, m, s1) => rec (.prog (k err m)) s1
  | .delete x k, s =>
    match rec (.delete x) s with
    | none => none
    | some (err, m, s1) => rec (.prog (k err m)) s1
  | .load dst id k, s =>
    let r := s.storage.Load t dst id s.db
    rec (.prog (k r.1 r.2)) (s.emit (.storageLoad t dst.CollectionName id))
  | .select proto results cap order skip condition args k, s =>
    let r := s.storage.Select t proto results cap order skip condition args s.db
    rec (.prog (k r.1 r.2)) (s.emit (.storageSelect t proto.CollectionName condition args))

/-- The method `save`, with `t.t = t`. -/
def saveBody {β : Type} (rec : Call → DispatchedStorage β → Res β) (t : Handle) (item : Item)
    (s : DispatchedStorage β) : Res β :=
  let preTrigger := if item.id > 0 then UPDATE else CREATE
  let postTrigger := if item.id > 0 then UPDATED else CREATED
  match s.checkRelated item with
  | (some err, s1) => some (some err, item.toModel, s1)
  | (none, s1) =>
    match pullTrigger rec item SAVE s1 with
    | none => none
    | some (some err, m2, s2) => some (some err, m2, s2)
    | some (none, m2, s2) =>
      match pullTrigger rec (item.withModel m2) preTrigger s2 with
      | none => none
      | some (some err, m3, s3) => some (some err, m3, s3)
      | some (none, m3, s3) =>
        match s3.storage.Save t (item.withModel m3) s3.db with
        | (some _, m4, db4) =>
          some (none, m4, { s3.emit (.storageSave t item.CollectionName m3.id) with db := db4 })
        | (none, m4, db4) =>
          let s4 := { s3.emit (.storageSave t item.CollectionName m3.id) with db := db4 }
          match pullTrigger rec (item.withModel m4) postTrigger s4 with
          | none => none
          | some (some err, m5, s5) => some (some err, m5, s5)
          | some (none, m5, s5) =>
            match pullTrigger rec (item.withModel m5) SAVED s5 with
            | none => none
            | some (some err, m6, s6) => some (some err, m6, s6)
            | some (none, m6, s6) =>
              some (none, m6,
                { s6.emit (.cacheAdd item.CollectionName m6.id) with
                  cache := s6.cache.Add (item.withModel m6) })

/-- The inner loop of `deleteRelated`: `s.delete` on every selected child. -/
def deleteEach {β : Type} (rec : Call → DispatchedStorage β → Res β) :
    List Item → DispatchedStorage β → Option (Option Error × DispatchedStorage β)
  | [], s => some (none, s)
  | subitem :: rest, s =>
    match rec (.delete subitem) s with
    | none => none
    | some (some err, _, s1) => some (some err, s1)
    | some (none, _, s1) => deleteEach rec rest s1

/-- The condition string built by `deleteRelated` and `LoadSubitems`. -/
def fkCondition (rel : Relation) : String :=
  "`" ++ rel.To.CollectionName ++ "`.`" ++ rel.ForeignKey ++ "`=?"

/-- The outer loop of `deleteRelated` over the `HAS_MANY` relations. -/
def deleteRelatedLoop {β : Type} (rec : Call → DispatchedStorage β → Res β) (forItem : Item) :
    List Relation → DispatchedStorage β → Option (Option Error × DispatchedStorage β)
  | [], s => some (none, s)
  | rel :: rels, s =>
    let args := [Value.uint64 forItem.id]
    let s1 := s.emit (.storageSelect .root rel.To.CollectionName (fkCondition rel) args)
    match s.storage.Select .root rel.To [] 0 none 0 (fkCondition rel) args s.db with
    | (some err, _) => some (some err, s1)
    | (none, results) =>
      match deleteEach rec results s1 with
      | none => none
      | some (some err, s2) => some (some err, s2)
      | some (none, s2) => deleteRelatedLoop rec forItem rels s2

/-- The method `deleteRelated`. -/
def deleteRelated {β : Type} (rec : Call → DispatchedStorage β → Res β) (forItem : Item)
    (s : DispatchedStorage β) : Option (Option Error × DispatchedStorage β) :=
  deleteRelatedLoop rec forItem (s.getRelationsOfType forItem .HAS_MANY) s

/-- The method `delete`, with `t.t = t`. -/
def deleteBody {β : Type} (rec : Call → DispatchedStorage β → Res β) (t : Handle) (item : Item)
    (s : DispatchedStorage β) : Res β :=
  match pullTrigger rec item DELETE s with
  | none => none
  | some (some err, m1, s1) => some (some err, m1, s1)
  | some (none, m1, s1) =>
    match deleteRelated rec (item.withModel m1) s1 with
    | none => none
    | some (some err, s2) => some (some err, m1, s2)
    | some (none, s2) =>
      let s3 := { s2.emit (.cacheRemove item.CollectionName m1.id) with
                  cache := s2.cache.Remove (item.withModel m1) }
      match s3.storage.Delete t (item.withModel m1) s3.db with
      | (some err, m4, db4) =>
        some (some err, m4, { s3.emit (.storageDelete t item.CollectionName m1.id) with db := db4 })
      | (none, m4, db4) =>
        pullTrigger rec (item.withModel m4) DELETED
          { s3.emit (.storageDelete t item.CollectionName m1.id) with db := db4 }

/-- The mutually recursive `save`, `delete` and handler execution under one
transaction wrapper `t`, unfolded at most `fuel` calls deep. -/
def run {β : Type} (t : Handle) : Nat → Call → DispatchedStorage β → Res β
  | 0, _, _ => none
  | fuel + 1, .save item, s => saveBody (run t fuel) t item s
  | fuel + 1, .delete item, s => deleteBody (run t fuel) t item s
  | fuel + 1, .prog p, s => progBody (run t fuel) t p s

/-- The method `save` (lower case), at recursion budget `fuel`. -/
def DispatchedStorage.save {β : Type} (s : DispatchedStorage β) (fuel : Nat) (item : Item)
    (t : Handle) : Res β :=
  run t fuel (.save item) s

/-- The method `delete` (lower case), at recursion budget `fuel`. -/
def DispatchedStorage.delete {β : Type} (s : DispatchedStorage β) (fuel : Nat) (item : Item)
    (t : Handle) : Res β :=
  run t fuel (.delete item) s

/-- The method `pullTrigger` under the transaction wrapper `t`, at recursion
budget `fuel` for the handlers. -/
def DispatchedStorage.pullTrigger {β : Type} (s : DispatchedStorage β) (fuel : Nat) (forItem : Item)
    (triggerName : String) (t : Handle) : Res β :=
  Ldbl.pullTrigger (run t fuel) forItem triggerName s

/-- How a public call ends: it returns its error, or it panics. -/
inductive Outcome where
  | returned (err : Option Error)
  | panicked (err : Error)
  deriving DecidableEq, Repr

/-- The method `performWithTransaction`, with `SqlStorage.Transaction` as the
transactional case; `m0` is the state of the entity should `f` never run. -/
def DispatchedStorage.performWithTransaction {β : Type} (s : DispatchedStorage β) (m0 : Model)
    (f : Handle → DispatchedStorage β → Res β) :
    Option (Outcome × Model × DispatchedStorage β) :=
  if s.transactSupport then
    match s.storage.Begin s.db with
    | (some _, db1) => some (.returned none, m0, { s.emit .txBegin with db := db1 })
    | (none, db1) =>
      match f .tx { s.emit .txBegin with db := db1 } with
      | none => none
      | some (some err, m, s2) =>
        match s2.storage.Rollback s2.db with
        | (some rollbackErr, db3) =>
          some (.panicked (.cantRollback rollbackErr err), m, { s2.emit .txRollback with db := db3 })
        | (none, db3) => some (.returned (some err), m, { s2.emit .txRollback with db := db3 })
      | some (none, m, s2) =>
        match s2.storage.Commit s2.db with
        | (err, db3) => some (.returned err, m, { s2.emit .txCommit with db := db3 })
  else
    match f .root s with
    | none => none
    | some (err, m, s2) => some (.returned err, m, s2)

/-- The unit of work of `Save` and `Delete`: clear the cache when the call failed. -/
def clearOnError {β : Type} (r : Res β) : Res β :=
  match r with
  | none => none
  | some (some err, m, s1) => some (some err, m, { s1.emit .cacheClear with cache := s1.cache.Clear })
  | some (none, m, s1) => some (none, m, s1)

/-- The method `Save` (public), at recursion budget `fuel`. -/
def DispatchedStorage.Save {β : Type} (s : DispatchedStorage β) (fuel : Nat) (item : Item) :
    Option (Outcome × Model × DispatchedStorage β) :=
  s.performWithTransaction item.toModel (fun t s1 => clearOnError (s1.save fuel item t))

/-- The method `Delete` (public), at recursion budget `fuel`. -/
def DispatchedStorage.Delete {β : Type} (s : DispatchedStorage β) (fuel : Nat) (item : Item) :
    Option (Outcome × Model × DispatchedStorage β) :=
  s.performWithTransaction item.toModel (fun t s1 => clearOnError (s1.delete fuel item t))

/-- The method `Load` (public): the error and the target afterwards. -/
def DispatchedStorage.Load {β : Type} (s : DispatchedStorage β) (dst : Item) (id : Nat) :
    Option Error × Item × DispatchedStorage β :=
  match s.cache.Lookup dst id with
  | (true, filled) => (none, filled, s)
  | (false, dst1) =>
    match s.storage.Load .root dst1 id s.db with
    | (some err, m) =>
      (some err, dst1.withModel m, s.emit (.storageLoad .root dst.CollectionName id))
    | (none, m) =>
      (none, dst1.withModel m,
        { (s.emit (.storageLoad .root dst.CollectionName id)).emit
            (.cacheAdd dst.CollectionName m.id) with
          cache := s.cache.Add (dst1.withModel m) })

/-- The method `Select` (public): the error, the new contents of `*results`, and
the dispatcher afterwards. -/
def DispatchedStorage.Select {β : Type} (s : DispatchedStorage β) (proto : Item)
    (results : List Item) (cap : Nat) (order : Option String) (skip : Int) (condition : String)
    (args : List Value) : Option Error × List Item × DispatchedStorage β :=
  match s.storage.Select .root proto results cap order skip condition args s.db with
  | (err, results1) =>
    (err, results1, s.emit (.storageSelect .root proto.CollectionName condition args))

/-- The method `LoadSubitems`; the error of a missing relation carries the type
constant (`HAS_MANY` is 1). -/
def DispatchedStorage.LoadSubitems {β : Type} (s : DispatchedStorage β)
    (forItem subitemProto : Item) (results : List Item) (cap : Nat) :
    Option Error × List Item × DispatchedStorage β :=
  match s.lookupRelationBetween forItem subitemProto .HAS_MANY with
  | none =>
    (some (.noRelation 1 forItem.CollectionName subitemProto.CollectionName), results, s)
  | some rel =>
    s.Select subitemProto results cap none 0 (fkCondition rel) [Value.uint64 forItem.id]

/-- The method `LoadParentItem` (`BELONGS_TO` is 2). -/
def DispatchedStorage.LoadParentItem {β : Type} (s : DispatchedStorage β)
    (forItem parentItem : Item) : Option Error × Item × DispatchedStorage β :=
  match s.lookupRelationBetween forItem parentItem .BELONGS_TO with
  | none =>
    (some (.noRelation 2 forItem.CollectionName parentItem.CollectionName), parentItem, s)
  | some rel =>
    match loadFkValue forItem rel with
    | .error err => (some err, parentItem, s)
    | .ok id => s.Load parentItem id

/-! ## An in-memory backend

A backend following the Persistence Backend contract (the behaviour of
`SqlStorage` over tables held in memory), with switches that make single
primitives fail.  The theorems below quantify over every backend; this one
supplies concrete instances. -/

/-- A stored row. -/
structure Row where
  collection : String
  id : Nat
  fields : List (String × Value)
  deriving DecidableEq, Repr

/-- State of the in-memory backend: committed rows, the rows as seen inside
the open transaction (if any), and the last id handed out. -/
structure MemDb where
  rows : List Row
  work : Option (List Row)
  lastId : Nat
  deriving DecidableEq, Repr

/-- Configuration of the in-memory backend: transaction support and which
primitives fail. -/
structure MemCfg where
  transactional : Bool
  saveFails : Bool
  deleteFails : Bool
  beginFails : Bool
  commitFails : Bool
  rollbackFails : Bool
  deriving DecidableEq, Repr

/-- Rows visible through a handle. -/
def MemDb.view (db : MemDb) (h : Handle) : List Row :=
  match h with
  | .root => db.rows
  | .tx => db.work.getD db.rows

/-- Replace the rows visible through a handle. -/
def MemDb.setView (db : MemDb) (h : Handle) (rows : List Row) : MemDb :=
  match h, db.work with
  | .tx, some _ => { db with work := some rows }
  | _, _ => { db with rows := rows }

/-- Numeric comparison of a stored value with a query argument. -/
def valueMatches (v a : Value) : Bool :=
  match uint64Value v, uint64Value a with
  | (n, true), (k, true) => n = k
  | _, _ => v = a

/-- Whether a row satisfies a condition: the empty condition, or equality of
one of its columns with the first argument. -/
def rowMatches (c : String) (condition : String) (args : List Value) (r : Row) : Bool :=
  r.collection = c &&
    (condition = "" ||
      r.fields.any (fun fv =>
        condition = "`" ++ c ++ "`.`" ++ fv.1 ++ "`=?" && valueMatches fv.2 (args.headD .nil)))

/-- The in-memory backend. -/
def memStorage (cfg : MemCfg) : Storage MemDb where
  Save h item db :=
    if cfg.saveFails then (some (.custom "save failed"), item.toModel, db)
    else if item.id = 0 then
      let id := db.lastId + 1
      (none, item.toModel.Fill id none,
        MemDb.setView { db with lastId := id } h
          (db.view h ++ [{ collection := item.CollectionName, id := id,
                           fields := item.fields.getD [] }]))
    else
      (none, item.toModel,
        db.setView h ((db.view h).map (fun r =>
          if r.collection = item.CollectionName ∧ r.id = item.id then
            { r with fields := item.fields.getD [] }
          else r)))
  Load h dst id db :=
    match (db.view h).find? (fun r => r.collection = dst.CollectionName ∧ r.id = id) with
    | some r => (none, dst.toModel.Fill r.id (some r.fields))
    | none => (some (.entryNotExists dst.CollectionName id), dst.toModel)
  Delete h item db :=
    if item.id = 0 then (none, item.toModel, db)
    else if cfg.deleteFails then (some (.custom "delete failed"), item.toModel.Fill 0 none, db)
    else
      (none, item.toModel.Fill 0 none,
        db.setView h ((db.view h).filter (fun r =>
          ¬ (r.collection = item.CollectionName ∧ r.id = item.id))))
  Select h proto results cap _order skip condition args db :=
    let found := ((db.view h).filter (rowMatches proto.CollectionName condition args)).drop skip.toNat
    let limited := if cap = 0 then found else found.take cap
    (none, results ++ limited.map (fun r => proto.Clone.Fill r.id (some r.fields)))
  transactional := cfg.transactional
  Begin db :=
    if cfg.beginFails then (some (.custom "begin failed"), db)
    else (none, { db with work := some db.rows })
  Commit db :=
    if cfg.commitFails then (some (.custom "commit failed"), { db with work := none })
    else (none, { db with rows := db.work.getD db.rows, work := none })
  Rollback db :=
    if cfg.rollbackFails then (some (.custom "rollback failed"), db)
    else (none, { db with work := none })

/-- The in-memory backend with no transaction support and no failing primitive. -/
def plainCfg : MemCfg :=
  { transactional := false, saveFails := false, deleteFails := false, beginFails := false,
    commitFails := false, rollbackFails := false }

/-- An entity type `users` (prototype value, id 0, nil field map). -/
def userProto : Item :=
  { id := 0, fields := none, CollectionName := "users", PKName := "id",
    storable := true, fieldGetter := true }

/-- An entity type `images` (prototype value, id 0, nil field map). -/
def imageProto : Item :=
  { id := 0, fields := none, CollectionName := "images", PKName := "id",
    storable := true, fieldGetter := true }

/-- A handler that succeeds and leaves the entity as it is. -/
def okHandler : Handler := fun item => .ret none item.toModel

/-- A handler that fails with the given message and leaves the entity as it is. -/
def failHandler (msg : String) : Handler := fun item => .ret (some (.custom msg)) item.toModel

/-! ## A concrete dispatcher -/

/-- Two users; user 1 owns images 1 and 2, user 2 owns image 3. -/
def exampleDb : MemDb :=
  { rows := [⟨"users", 1, [("email", .str "me@example.com")]⟩,
             ⟨"users", 2, [("email", .str "other@example.com")]⟩,
             ⟨"images", 1, [("users_id", .uint64 1), ("filename", .str "kitty1.jpg")]⟩,
             ⟨"images", 2, [("users_id", .uint64 1), ("filename", .str "kitty2.jpg")]⟩,
             ⟨"images", 3, [("users_id", .uint64 2), ("filename", .str "pig1.jpg")]⟩],
    work := none, lastId := 3 }

/-- The dispatcher of the tests: `users` HAS_MANY `images` over a backend with
the given configuration. -/
def exampleDispatcher (cfg : MemCfg) : DispatchedStorage MemDb :=
  (NewDispatchedStorage (memStorage cfg) exampleDb).RegisterRelation
    (NewHasManyRelation userProto imageProto)

/-- The example dispatcher with one succeeding handler on each of the eight
triggers of `users` and on `delete` and `deleted` of `images`. -/
def exampleWithHandlers (cfg : MemCfg) : DispatchedStorage MemDb :=
  ((((((((((exampleDispatcher cfg).RegisterHandler userProto SAVE okHandler).RegisterHandler
    userProto SAVED okHandler).RegisterHandler userProto UPDATE okHandler).RegisterHandler
    userProto UPDATED okHandler).RegisterHandler userProto CREATE okHandler).RegisterHandler
    userProto CREATED okHandler).RegisterHandler userProto DELETE okHandler).RegisterHandler
    userProto DELETED okHandler).RegisterHandler imageProto DELETE okHandler).RegisterHandler
    imageProto DELETED okHandler

/-- A user not yet stored (id 0). -/
def freshUser : Item := { userProto with fields := some [("email", .str "tester@test.com")] }

/-- The stored user 1, as loaded. -/
def storedUser : Item :=
  { userProto with id := 1, fields := some [("email", .str "me@example.com")] }

/-- An image not yet stored whose foreign key names a user that does not exist. -/
def orphanImage : Item :=
  { imageProto with fields := some [("filename", .str "test.jpg"), ("users_id", .uint64 100500)] }

/-- A backend with transactions whose commit fails. -/
def commitFailCfg : MemCfg := { plainCfg with transactional := true, commitFails := true }

/-- A backend without transactions whose write fails. -/
def saveFailCfg : MemCfg := { plainCfg with saveFails := true }

/-- The example dispatcher with two handlers on `users.save`: one that succeeds,
then one that fails. -/
def twoHandlers : DispatchedStorage MemDb :=
  ((exampleDispatcher plainCfg).RegisterHandler userProto SAVE okHandler).RegisterHandler
    userProto SAVE (failHandler "second")

/-- The example dispatcher with handlers, plus a failing handler registered on
`users.created` behind the succeeding one. -/
def createdFails : DispatchedStorage MemDb :=
  (exampleWithHandlers plainCfg).RegisterHandler userProto CREATED (failHandler "created failed")

/-- The example dispatcher with handlers, plus a failing handler registered on
`images.deleted` behind the succeeding one (as in `TestTransactions`). -/
def deletedFails : DispatchedStorage MemDb :=
  (exampleWithHandlers plainCfg).RegisterHandler imageProto DELETED (failHandler "test error")

/-- The stored image 1, as loaded. -/
def storedImage : Item :=
  { imageProto with
    id := 1, fields := some [("users_id", .uint64 1), ("filename", .str "kitty1.jpg")] }

/-- The example dispatcher after `delete` of the stored user 1 (root handle). -/
def afterDeleteUser : DispatchedStorage MemDb :=
  match (exampleWithHandlers plainCfg).delete 3 storedUser .root with
  | some (_, _, s') => s'
  | none => exampleWithHandlers plainCfg

/-- The example data plus an image whose `users_id` is 0. -/
def zeroFkDb : MemDb :=
  { exampleDb with
    rows := exampleDb.rows ++ [⟨"images", 4, [("users_id", .uint64 0), ("filename", .str "x.jpg")]⟩] }

/-- The example dispatcher with handlers over `zeroFkDb`. -/
def zeroFkDispatcher : DispatchedStorage MemDb :=
  { exampleWithHandlers plainCfg with db := zeroFkDb }

/-- A cache of capacity 100 holding the stored image 1. -/
def oneImageCache : ItemsCache := (NewItemsCache 100).Add storedImage

/-- A cache of capacity 1 holding the stored image 1: its item count equals its capacity. -/
def fullCache : ItemsCache := (NewItemsCache 1).Add storedImage

/-- An image not yet stored whose foreign key is the `int` value -1. -/
def negFkImage : Item :=
  { imageProto with fields := some [("filename", .str "test.jpg"), ("users_id", .int (-1))] }

/-- A fresh dispatcher over the example data, before any registration. -/
def bareDispatcher : DispatchedStorage MemDb := NewDispatchedStorage (memStorage plainCfg) exampleDb

/-- A backend with transactions and no failing primitive. -/
def txCfg : MemCfg := { plainCfg with transactional := true }

/-- A handler that saves, through the transaction it is handed, a first image
owned by the user it is called for, and returns the error of that save. -/
def welcomeImageHandler : Handler := fun u =>
  .save { imageProto with
          fields := some [("users_id", .uint64 u.id), ("filename", .str "welcome.jpg")] }
    (fun err _ => .ret err u.toModel)

/-- The example dispatcher with `welcomeImageHandler` on `users.created`. -/
def welcomeDispatcher (cfg : MemCfg) : DispatchedStorage MemDb :=
  (exampleDispatcher cfg).RegisterHandler userProto CREATED welcomeImageHandler

/-- The stored user 1 with its image counter set to 3. -/
def bumpedUser : Item :=
  { userProto with
    id := 1, fields := some [("email", .str "me@example.com"), ("images_cnt", .int 3)] }

/-- An image not yet stored, owned by user 1. -/
def newImage : Item :=
  { imageProto with fields := some [("users_id", .uint64 1), ("filename", .str "test.jpg")] }

/-- An entity type whose collection name contains a dot. -/
def dottedProto : Item := { userProto with CollectionName := "users.save" }

/-- Four registrations: two on `users.save`, one on `save` of the collection
`users.save`, one on `users.saved`. -/
def exampleRegistrations : List (Item × String × Handler) :=
  [(userProto, SAVE, okHandler), (dottedProto, SAVE, failHandler "dotted"),
   (userProto, SAVED, failHandler "saved"), (userProto, SAVE, failHandler "second")]

/-- A dispatcher with two `BELONGS_TO` relations from `images` to `users`: the one
with the default foreign key `users_id`, then one with the key `owner_id`. -/
def twoParents : DispatchedStorage MemDb :=
  (bareDispatcher.RegisterRelation (NewBelongsToRelation imageProto userProto)).RegisterRelation
    ((NewBelongsToRelation imageProto userProto).WithFK "owner_id")

/-- An image not yet stored whose `users_id` names the stored user 1 and whose
`owner_id` names a user that does not exist. -/
def twoKeyImage : Item :=
  { imageProto with
    fields := some [("filename", .str "test.jpg"), ("users_id", .uint64 1),
                    ("owner_id", .uint64 100500)] }

/-! ## storage-sql.go: selecting -/

/-- What `SqlStorage` sees of `database/sql`: `query` is `queryRows` (the rows of
a statement in the order the database yields them, or its error) and `scan`
is what `fillFromRow` decodes from one row for an entity before its final
call of `Fill`: the id and the field map, or the error of the scan. -/
structure SqlEnv (ρ : Type) where
  query : String → List Value → Except Error (List ρ)
  scan : Item → ρ → Except Error (Nat × List (String × Value))

/-- The method `fillFromRow`: the error and the entity afterwards. -/
def fillFromRow {ρ : Type} (env : SqlEnv ρ) (row : ρ) (dst : Item) : Option Error × Item :=
  match env.scan dst row with
  | .error err => (some err, dst)
  | .ok (id, fields) => (none, dst.Fill id (some fields))

/-- The `for` loop of `loadByQuery`: `i` is the loop counter and the list holds
the rows `rows.Next()` still yields. -/
def loadLoop {ρ : Type} (env : SqlEnv ρ) (proto : Item) (unlimited : Bool) (limit : Int) :
    Nat → List ρ → List Item → Option Error × List Item
  | _, [], results => (none, results)
  | i, row :: rest, results =>
    if unlimited || decide ((i : Int) < limit) then
      match fillFromRow env row proto.Clone with
      | (some err, _) => (some err, results)
      | (none, clone) => loadLoop env proto unlimited limit (i + 1) rest (results ++ [clone])
    else (none, results)

/-- The method `loadByQuery`: the error and the new contents of `*results`. -/
def SqlStorage.loadByQuery {ρ : Type} (env : SqlEnv ρ) (proto : Item) (sql : String)
    (args : List Value) (limit : Int) (results : List Item) : Option Error × List Item :=
  match env.query sql args with
  | .error err => (some err, results)
  | .ok rows => loadLoop env proto (decide (limit = -1)) limit 0 rows results

/-- The statement text built by `SqlStorage.Select`; `cap` is `cap(*results)` and
`order` the `OrderString()` of the orderer (`none` for nil). -/
def SqlStorage.selectSql (proto : Item) (cap : Nat) (order : Option String) (skip : Int)
    (condition : String) : String :=
  let conditionSql := if condition = "" then "1" else condition
  let orderSql := match order with
    | none => ""
    | some o => "ORDER BY " ++ o
  let limit : Int := if cap = 0 then -1 else (cap : Int)
  let limitSql :=
    if skip > 0 ∨ limit > 0 then "LIMIT " ++ toString skip ++ ", " ++ toString limit else ""
  "SELECT * FROM `" ++ proto.CollectionName ++ "` WHERE " ++ conditionSql ++ " " ++ orderSql ++
    " " ++ limitSql

/-- The method `SqlStorage.Select`: the error and the new contents of `*results`. -/
def SqlStorage.Select {ρ : Type} (env : SqlEnv ρ) (proto : Item) (results : List Item)
    (cap : Nat) (order : Option String) (skip : Int) (condition : String) (args : List Value) :
    Option Error × List Item :=
  let limit : Int := if cap = 0 then -1 else (cap : Int)
  SqlStorage.loadByQuery env proto (SqlStorage.selectSql proto cap order skip condition) args
    limit results

/-- A database that answers every statement with the given rows and decodes a
row into its id and fields. -/
def tableEnv (rows : List Row) : SqlEnv Row :=
  { query := fun _ _ => .ok rows, scan := fun _ r => .ok (r.id, r.fields) }

/-! ## Specification vocabulary -/

/-- A handler that returns nil at once on every entity, without calling the
transaction it was handed (it may still modify the entity). -/
def DirectOk (h : Handler) : Prop := ∀ x, ∃ m, h x = .ret none m

/-- A handler that returns the error `e` at once on every entity. -/
def DirectFail (h : Handler) (e : Error) : Prop := ∀ x, ∃ m, h x = .ret (some e) m

/-- The events of running handlers number `k`, `k + 1`, ..., `k + n - 1` of a trigger. -/
def firedRange (fullName : String) (k n : Nat) : List Event :=
  (List.range' k n).map (Event.fired fullName)

/-- The full trigger name `collection.trigger` used as the key of `s.triggers`. -/
def fullNameOf (item : Item) (triggerName : String) : String :=
  item.CollectionName ++ "." ++ triggerName

/-- The events of pulling a trigger for an entity with the given id when every
registered handler runs: the pull, then handler 0, 1, ... in registration order. -/
def triggerEvents {β : Type} (s : DispatchedStorage β) (item : Item) (triggerName : String)
    (id : Nat) : List Event :=
  .pulled (fullNameOf item triggerName) id ::
    firedRange (fullNameOf item triggerName) 0 (s.triggers (fullNameOf item triggerName)).length

/-- What no call of the dispatcher changes: between `s` and a later state `s'`
the backend interface, the relations, the triggers and the transaction flag
are the same and the event record only grows. -/
def Frame {β : Type} (s s' : DispatchedStorage β) : Prop :=
  s'.storage = s.storage ∧ s'.relations = s.relations ∧ s'.triggers = s.triggers ∧
    s'.transactSupport = s.transactSupport ∧ ∃ l, s'.log = s.log ++ l

/-- Every returning call of `rec` respects `Frame`. -/
def RecFrame {β : Type} (rec : Call → DispatchedStorage β → Res β) : Prop :=
  ∀ c s e m s', rec c s = some (e, m, s') → Frame s s'

/-- The four triggers of the save pipeline, in the order `save` pulls them for
an entity: stage 0 is `save`, stage 1 `create` or `update`, stage 2 `created`
or `updated`, stage 3 `saved`. -/
def saveStage (item : Item) : Nat → String
  | 0 => SAVE
  | 1 => if item.id = 0 then CREATE else UPDATE
  | 2 => if item.id = 0 then CREATED else UPDATED
  | _ => SAVED

/-- The backend write of `save`, which comes right before stage 2. -/
def writeBefore (item : Item) (t : Handle) (idW : Nat) (i : Nat) : List Event :=
  if i = 2 then [.storageSave t item.CollectionName idW] else []

/-- The events of the first `i` stages of the save pipeline when all their
handlers run, with the backend write in its place; `ids j` is the id of the
entity when stage `j` is pulled and `idW` its id at the write. -/
def savePrefix {β : Type} (s : DispatchedStorage β) (item : Item) (t : Handle) (idW : Nat)
    (ids : Nat → Nat) : Nat → List Event
  | 0 => []
  | i + 1 => savePrefix s item t idW ids i ++ writeBefore item t idW i ++
      triggerEvents s item (saveStage item i) (ids i)

/-- A handler that, whenever it returns at once, leaves the id of the entity as it was. -/
def KeepsId (h : Handler) : Prop := ∀ x err m, h x = .ret err m → m.id = x.id

/-- The two triggers of the delete pipeline: stage 0 is `delete`, stage 1 `deleted`. -/
def deleteStage : Nat → String
  | 0 => DELETE
  | _ => DELETED

/-- Row `c` is a child of the entity `(collection, id)`: it satisfies the
condition `deleteRelated` selects by, for one of the `HAS_MANY` relations
registered for `collection`. -/
def IsChild (relations : String → RelationType → List Relation) (collection : String) (id : Nat)
    (c : Row) : Prop :=
  ∃ rel ∈ relations collection .HAS_MANY,
    rowMatches rel.To.CollectionName (fkCondition rel) [Value.uint64 id] c = true

/-- The stored rows reachable from the entity `(collection, id)` through
`HAS_MANY` relations: its children, their children, and so on. -/
inductive Descendant (relations : String → RelationType → List Relation) (rows : List Row)
    (collection : String) (id : Nat) : Row → Prop where
  | child (c : Row) : c ∈ rows → IsChild relations collection id c →
      Descendant relations rows collection id c
  | step (r c : Row) : Descendant relations rows collection id r → c ∈ rows →
      IsChild relations r.collection r.id c → Descendant relations rows collection id c

/-- The record `l` shows the delete pipeline run for the row `r` under the
transaction wrapper `t`: its `delete` trigger pulled under its id, its cache
entry removed, the backend delete issued for it, and its `deleted` trigger
pulled. -/
def DeletePipelineEvents (t : Handle) (r : Row) (l : List Event) : Prop :=
  Event.pulled (r.collection ++ "." ++ DELETE) r.id ∈ l ∧
  Event.cacheRemove r.collection r.id ∈ l ∧
  Event.storageDelete t r.collection r.id ∈ l ∧
  ∃ id, Event.pulled (r.collection ++ "." ++ DELETED) id ∈ l

/-- Assumptions of the cascade theorem on a dispatcher over the in-memory
backend: handlers return at once and keep the id of the entity, every stored
row has a nonzero id, and the rows seen through the handle `t` are among the
committed rows (the ones the root storage selects from). -/
structure CascadeInv (cfg : MemCfg) (t : Handle) (s : DispatchedStorage MemDb) : Prop where
  storage : s.storage = memStorage cfg
  direct : ∀ key, ∀ h ∈ s.triggers key, ∀ x, ∃ e m, h x = .ret e m
  keeps : ∀ key, ∀ h ∈ s.triggers key, KeepsId h
  ids : ∀ r ∈ s.db.rows, r.id ≠ 0
  visible : ∀ r ∈ s.db.view t, r ∈ s.db.rows

/-- What a cascade under the wrapper `t` does between `s` and `s'`: rows are only
removed, a removed row leaves no child behind, no cache miss turns into a hit,
and every removed row went through the delete pipeline and is a cache miss
afterwards. -/
structure CascadeStep (t : Handle) (s s' : DispatchedStorage MemDb) : Prop where
  frame : Frame s s'
  sub : ∀ r ∈ s'.db.view t, r ∈ s.db.view t
  rowsSub : ∀ r ∈ s'.db.rows, r ∈ s.db.rows
  visible : (∀ r ∈ s.db.view t, r ∈ s.db.rows) → ∀ r ∈ s'.db.view t, r ∈ s'.db.rows
  closed : ∀ r ∈ s.db.view t, r ∉ s'.db.view t →
    ∀ c ∈ s'.db.view t, ¬ IsChild s.relations r.collection r.id c
  cacheMono : ∀ p id, (s.cache.Lookup p id).1 = false → (s'.cache.Lookup p id).1 = false
  events : ∃ l, s'.log = s.log ++ l ∧ ∀ r ∈ s.db.view t, r ∉ s'.db.view t →
    DeletePipelineEvents t r l ∧
      ∀ p : Item, p.CollectionName = r.collection → (s'.cache.Lookup p r.id).1 = false

/-- What a returning `delete` of `item` under the wrapper `t` achieves between `s`
and `s'`: a cascade step after which no row of the entity itself (when its id
is not 0) and no child row of it is visible through `t`. -/
def DeleteOutcome (t : Handle) (s s' : DispatchedStorage MemDb) (item : Item) : Prop :=
  CascadeStep t s s' ∧
  (item.id ≠ 0 →
    ∀ r ∈ s'.db.view t, ¬ (r.collection = item.CollectionName ∧ r.id = item.id)) ∧
  (∀ c ∈ s'.db.view t, ¬ IsChild s.relations item.CollectionName item.id c)

/-- The entry stored under a key, `c.data[cname][id]`: `none` when the key is
absent, `some none` for a tombstone, `some (some x)` for a cached entity. -/
def ItemsCache.entry (c : ItemsCache) (cname : String) (id : Nat) : Option (Option Item) :=
  (mapGet c.data cname).bind (fun inner => mapGet inner id)

/-- The number of `(collection, id)` keys held across all collections,
tombstones included. -/
def ItemsCache.entryCount (c : ItemsCache) : Nat :=
  (c.data.map (fun kv => kv.2.length)).sum

/-- A call on the cache. -/
inductive CacheOp where
  | add (item : Item)
  | remove (item : Item)
  | clear
  | lookup (forItem : Item) (id : Nat)
  deriving DecidableEq, Repr

/-- The cache after one call (`Lookup` does not change it). -/
def ItemsCache.apply (c : ItemsCache) : CacheOp → ItemsCache
  | .add item => c.Add item
  | .remove item => c.Remove item
  | .clear => c.Clear
  | .lookup _ _ => c

/-- The cache after a sequence of calls. -/
def ItemsCache.applyAll (c : ItemsCache) (ops : List CacheOp) : ItemsCache :=
  ops.foldl ItemsCache.apply c

/-- The child selections of `deleteRelated` for an entity: one `Select` on the
root storage for each of its `HAS_MANY` relations, with the id of the entity
as the argument. -/
def childSelects {β : Type} (s : DispatchedStorage β) (item : Item) : List Event :=
  (s.getRelationsOfType item .HAS_MANY).map (fun rel =>
    Event.storageSelect .root rel.To.CollectionName (fkCondition rel) [Value.uint64 item.id])

/-- The dispatcher after a sequence of `RegisterRelation` calls. -/
def registerAll {β : Type} (s : DispatchedStorage β) (rs : List Relation) : DispatchedStorage β :=
  rs.foldl DispatchedStorage.RegisterRelation s

/-- The type of the reverse of a relation of the given type. -/
def reversedType : RelationType → RelationType
  | .HAS_ONE => .BELONGS_TO
  | .HAS_MANY => .BELONGS_TO
  | .BELONGS_TO => .HAS_MANY

/-- The relation `Reversed` builds (it is never nil). -/
def reverseOf (r : Relation) : Relation :=
  { From := r.To, To := r.From, ForeignKey := r.ForeignKey, Typ := reversedType r.Typ,
    GetForeignKeyFunc := none }

/-- The row holds `id` under the foreign key `fk`: its field of that name, read
the way `loadFkValue` reads a field, gives `id`. -/
def Row.fkIs (r : Row) (fk : String) (id : Nat) : Bool :=
  match mapGet r.fields fk with
  | some v => decide (uint64Value v = (id, true))
  | none => false

/-- The entity a select makes of a stored row: a clone of the prototype filled
with the id and the fields of the row. -/
def rowItem (proto : Item) (r : Row) : Item := proto.Clone.Fill r.id (some r.fields)

/-- The committed rows of collection `c` whose foreign key `fk` is `id`, in
storage order. -/
def childRows (db : MemDb) (c fk : String) (id : Nat) : List Row :=
  db.rows.filter (fun r => decide (r.collection = c) && r.fkIs fk id)

/-- The record of `save` under the wrapper `t` for an entity `x` without parents
to check and without handlers, when the backend write succeeds and leaves
the entity with the id `idW`: its four triggers pulled around the backend
write on `t`, then the cache insertion. -/
def plainSaveEvents (t : Handle) (x : Item) (idW : Nat) : List Event :=
  [.pulled (fullNameOf x SAVE) x.id,
   .pulled (fullNameOf x (if x.id = 0 then CREATE else UPDATE)) x.id,
   .storageSave t x.CollectionName x.id,
   .pulled (fullNameOf x (if x.id = 0 then CREATED else UPDATED)) idW,
   .pulled (fullNameOf x SAVED) idW,
   .cacheAdd x.CollectionName idW]

/-- A handler that saves the entity `mk i` through the transaction it is handed,
`i` being the entity it is called for, and returns the error of that save. -/
def savingHandler (mk : Item → Item) : Handler :=
  fun i => .save (mk i) (fun err _ => .ret err i.toModel)

/-- The handle of the unit of work of a public `Save` or `Delete`. -/
def workHandle {β : Type} (s : DispatchedStorage β) : Handle :=
  if s.transactSupport then .tx else .root

/-- The dispatcher as the unit of work of a public `Save` or `Delete` finds it:
after the begin of the transaction when the backend has transactions. -/
def DispatchedStorage.begun {β : Type} (s : DispatchedStorage β) : DispatchedStorage β :=
  if s.transactSupport then { s.emit .txBegin with db := (s.storage.Begin s.db).2 } else s

/-- The example dispatcher with a handler on `images.created` that saves user 1
with the counter set, through the transaction it is handed. -/
def counterDispatcher (cfg : MemCfg) : DispatchedStorage MemDb :=
  (exampleDispatcher cfg).RegisterHandler imageProto CREATED (savingHandler (fun _ => bumpedUser))

/-- The dispatcher after a sequence of `RegisterHandler` calls, each given by the
entity, the trigger name and the handler. -/
def registerHandlers {β : Type} (s : DispatchedStorage β)
    (regs : List (Item × String × Handler)) : DispatchedStorage β :=
  regs.foldl (fun acc r => acc.RegisterHandler r.1 r.2.1 r.2.2) s

/-- The handlers registered for the pair `(collection, event)` by a sequence of
registrations, in registration order. -/
def handlersFor (regs : List (Item × String × Handler)) (collection event : String) :
    List Handler :=
  (regs.filter (fun r => decide (r.1.CollectionName = collection ∧ r.2.1 = event))).map
    (fun r => r.2.2)

/-- The integrity check of one relation for an entity: the error of the foreign
key extraction, or of the load of the parent on the root storage, or nil. -/
def relationCheck {β : Type} (st : Storage β) (db : β) (item : Item) (rel : Relation) :
    Option Error :=
  match loadFkValue item rel with
  | .error err => some err
  | .ok id =>
    match (st.Load .root rel.To id db).1 with
    | some _ => some (.relatedMissing rel.To.CollectionName id item.CollectionName rel.ForeignKey)
    | none => none

/-- The entity `x` is a clone of the prototype filled from the row `row`. -/
def FilledFrom {ρ : Type} (env : SqlEnv ρ) (proto : Item) (row : ρ) (x : Item) : Prop :=
  ∃ id fields, env.scan proto.Clone row = .ok (id, fields) ∧ x = proto.Clone.Fill id (some fields)

/-- A height function on a part `P` of the child graph that is closed under
children: every child row of an entity of `P` is in `P` and has a smaller
height than that entity.  Such a function exists exactly when that part of
the graph, which is finite, has no cycle. -/
def Ranked (P : String → Nat → Prop) (rank : String → Nat → Nat)
    (relations : String → RelationType → List Relation) (rows : List Row) : Prop :=
  ∀ (collection : String) (id : Nat), P collection id → ∀ c ∈ rows,
    IsChild relations collection id c →
      P c.collection c.id ∧ rank c.collection c.id < rank collection id

/-- The height function of the example data: users above images. -/
def exampleRank (collection : String) (_id : Nat) : Nat :=
  if collection = "users" then 1 else 0

/-! ## Theorems -/

section Lemmas

variable {β : Type}

theorem emit_log (s : DispatchedStorage β) (e : Event) : (s.emit e).log = s.log ++ [e] := rfl

theorem pullTrigger_eq (rec : Call → DispatchedStorage β → Res β) (item : Item) (name : String)
    (s : DispatchedStorage β) :
    pullTrigger rec item name s =
      pullLoop rec item (fullNameOf item name) 0 (s.triggers (fullNameOf item name)) item.toModel
        (s.emit (.pulled (fullNameOf item name) item.id)) := by
  unfold pullTrigger fullNameOf
  simp only [DispatchedStorage.emit]
  cases h : s.triggers (item.CollectionName ++ "." ++ name) with
  | nil => simp [pullLoop]
  | cons a l => simp

theorem firedRange_succ (key : String) (k n : Nat) :
    firedRange key k (n + 1) = Event.fired key k :: firedRange key (k + 1) n := by
  simp [firedRange, List.range'_succ]

theorem pullLoop_directOk (t : Handle) (fuel : Nat) (item : Item) (key : String) :
    ∀ (hs : List Handler) (k : Nat) (m : Model) (s : DispatchedStorage β),
      (∀ h ∈ hs, DirectOk h) →
      ∃ m', pullLoop (run t (fuel + 1)) item key k hs m s =
        some (none, m', { s with log := s.log ++ firedRange key k hs.length }) := by
  intro hs
  induction hs with
  | nil => intro k m s _; exact ⟨m, by simp [pullLoop, firedRange]⟩
  | cons h rest ih =>
    intro k m s hd
    obtain ⟨m1, hm1⟩ := hd h (List.mem_cons_self _ _) (item.withModel m)
    obtain ⟨m2, hm2⟩ := ih (k + 1) m1 (s.emit (.fired key k))
      (fun h' hh => hd h' (List.mem_cons_of_mem _ hh))
    refine ⟨m2, ?_⟩
    simp only [pullLoop, run, progBody, hm1, hm2, List.length_cons, firedRange_succ]
    simp [DispatchedStorage.emit]

theorem pullTrigger_directOk (t : Handle) (fuel : Nat) (item : Item) (name : String)
    (s : DispatchedStorage β) (hd : ∀ h ∈ s.triggers (fullNameOf item name), DirectOk h) :
    ∃ m', pullTrigger (run t (fuel + 1)) item name s =
      some (none, m', { s with log := s.log ++ (Event.pulled (fullNameOf item name) item.id ::
        firedRange (fullNameOf item name) 0 (s.triggers (fullNameOf item name)).length) }) := by
  obtain ⟨m', hm'⟩ := pullLoop_directOk t fuel item (fullNameOf item name)
    (s.triggers (fullNameOf item name)) 0 item.toModel
    (s.emit (.pulled (fullNameOf item name) item.id)) hd
  refine ⟨m', ?_⟩
  rw [pullTrigger_eq, hm']
  simp [DispatchedStorage.emit]

theorem checkRelatedLoop_frame (forItem : Item) :
    ∀ (rels : List Relation) (s : DispatchedStorage β),
      (checkRelatedLoop forItem rels s).2 =
        { s with log := (checkRelatedLoop forItem rels s).2.log } := by
  intro rels
  induction rels with
  | nil => intro s; rfl
  | cons rel rels ih =>
    intro s
    unfold checkRelatedLoop
    cases loadFkValue forItem rel with
    | error err => rfl
    | ok id =>
      simp only
      cases (s.storage.Load .root rel.To id s.db).1 with
      | some e => rfl
      | none =>
        simp only
        rw [ih]
        rfl

theorem checkRelated_frame (s : DispatchedStorage β) (item : Item) :
    (s.checkRelated item).2 = { s with log := (s.checkRelated item).2.log } :=
  checkRelatedLoop_frame item _ s

theorem okHandler_directOk : DirectOk okHandler := fun x => ⟨x.toModel, rfl⟩

theorem registerHandler_forall (P : Handler → Prop) (s : DispatchedStorage β) (item : Item)
    (name : String) (h0 : Handler) (hs : ∀ key, ∀ h ∈ s.triggers key, P h) (h0P : P h0) :
    ∀ key, ∀ h ∈ (s.RegisterHandler item name h0).triggers key, P h := by
  intro key h hh
  simp only [DispatchedStorage.RegisterHandler] at hh
  split at hh
  · rcases List.mem_append.mp hh with hh | hh
    · exact hs _ _ hh
    · rw [List.mem_singleton.mp hh]; exact h0P
  · exact hs _ _ hh

theorem exampleWithHandlers_directOk (cfg : MemCfg) :
    ∀ key, ∀ h ∈ (exampleWithHandlers cfg).triggers key, DirectOk h := by
  unfold exampleWithHandlers
  repeat (refine registerHandler_forall _ _ _ _ _ ?_ okHandler_directOk)
  intro key h hh
  simp [exampleDispatcher, DispatchedStorage.RegisterRelation, Relation.Reversed,
    NewHasManyRelation, DispatchedStorage.registerRelation, NewDispatchedStorage] at hh

theorem memStorage_save_ok (cfg : MemCfg) (hcfg : cfg.saveFails = false) (h : Handle) (x : Item)
    (db : MemDb) : ((memStorage cfg).Save h x db).1 = none := by
  simp only [memStorage, hcfg]
  by_cases h0 : x.id = 0 <;> simp [h0]

theorem checkRelatedLoop_log (forItem : Item) :
    ∀ (rels : List Relation) (s : DispatchedStorage β),
      ∃ loads, (checkRelatedLoop forItem rels s).2.log = s.log ++ loads ∧
        ∀ e ∈ loads, ∃ c i, e = Event.storageLoad .root c i := by
  intro rels
  induction rels with
  | nil => intro s; exact ⟨[], by simp [checkRelatedLoop]⟩
  | cons rel rels ih =>
    intro s
    unfold checkRelatedLoop
    cases loadFkValue forItem rel with
    | error err => exact ⟨[], by simp⟩
    | ok id =>
      simp only
      cases (s.storage.Load .root rel.To id s.db).1 with
      | some e =>
        exact ⟨[.storageLoad .root rel.To.CollectionName id], rfl, by simp⟩
      | none =>
        obtain ⟨loads, hl, hall⟩ := ih (s.emit (.storageLoad .root rel.To.CollectionName id))
        refine ⟨.storageLoad .root rel.To.CollectionName id :: loads, ?_, ?_⟩
        · simp only [hl, emit_log, List.append_assoc, List.singleton_append]
        · intro e he
          rcases List.mem_cons.mp he with rfl | he
          · exact ⟨_, _, rfl⟩
          · exact hall e he

theorem checkRelatedLoop_fails (forItem : Item) (rel : Relation) (id : Nat)
    (hfk : loadFkValue forItem rel = .ok id) :
    ∀ (rels : List Relation) (s : DispatchedStorage β), rel ∈ rels →
      (s.storage.Load .root rel.To id s.db).1 ≠ none →
      (checkRelatedLoop forItem rels s).1 ≠ none := by
  intro rels
  induction rels with
  | nil => intro s hmem; cases hmem
  | cons r rels ih =>
    intro s hmem hmiss
    unfold checkRelatedLoop
    cases hr : loadFkValue forItem r with
    | error err => simp
    | ok id' =>
      simp only
      cases hl : (s.storage.Load .root r.To id' s.db).1 with
      | some e => simp
      | none =>
        simp only
        rcases List.mem_cons.mp hmem with rfl | hmem
        · rw [hfk] at hr
          cases hr
          exact absurd hl hmiss
        · exact ih (s.emit (.storageLoad .root r.To.CollectionName id')) hmem hmiss

theorem pullLoop_directFail (t : Handle) (fuel : Nat) (item : Item) (key : String) (e : Error)
    (h : Handler) (post : List Handler) (hf : DirectFail h e) :
    ∀ (pre : List Handler) (k : Nat) (m : Model) (s : DispatchedStorage β),
      (∀ h' ∈ pre, DirectOk h') →
      ∃ m', pullLoop (run t (fuel + 1)) item key k (pre ++ h :: post) m s =
        some (some e, m', { s with log := s.log ++ firedRange key k (pre.length + 1) }) := by
  intro pre
  induction pre with
  | nil =>
    intro k m s _
    obtain ⟨m1, hm1⟩ := hf (item.withModel m)
    refine ⟨m1, ?_⟩
    simp [pullLoop, run, progBody, hm1, firedRange, DispatchedStorage.emit]
  | cons h0 rest ih =>
    intro k m s hd
    obtain ⟨m1, hm1⟩ := hd h0 (List.mem_cons_self _ _) (item.withModel m)
    obtain ⟨m2, hm2⟩ := ih (k + 1) m1 (s.emit (.fired key k))
      (fun h' hh => hd h' (List.mem_cons_of_mem _ hh))
    refine ⟨m2, ?_⟩
    simp only [List.cons_append, pullLoop, run, progBody, hm1]
    refine hm2.trans ?_
    simp [DispatchedStorage.emit, firedRange_succ]

theorem Frame.refl (s : DispatchedStorage β) : Frame s s :=
  ⟨rfl, rfl, rfl, rfl, [], by simp⟩

theorem Frame.trans {s1 s2 s3 : DispatchedStorage β} (h12 : Frame s1 s2) (h23 : Frame s2 s3) :
    Frame s1 s3 := by
  obtain ⟨a1, a2, a3, a4, l1, a5⟩ := h12
  obtain ⟨b1, b2, b3, b4, l2, b5⟩ := h23
  exact ⟨b1.trans a1, b2.trans a2, b3.trans a3, b4.trans a4, l1 ++ l2,
    by rw [b5, a5, List.append_assoc]⟩

theorem Frame.emit (s : DispatchedStorage β) (e : Event) : Frame s (s.emit e) :=
  ⟨rfl, rfl, rfl, rfl, [e], rfl⟩

theorem Frame.of_fields (s : DispatchedStorage β) (db : β) (c : ItemsCache) (l : List Event) :
    Frame s { s with db := db, cache := c, log := s.log ++ l } :=
  ⟨rfl, rfl, rfl, rfl, l, rfl⟩

theorem checkRelated_Frame (s : DispatchedStorage β) (item : Item) :
    Frame s (s.checkRelated item).2 := by
  obtain ⟨loads, hl, _⟩ := checkRelatedLoop_log item (s.getRelationsOfType item .BELONGS_TO) s
  have hf := checkRelated_frame s item
  rw [hf]
  exact ⟨rfl, rfl, rfl, rfl, loads, hl⟩

theorem pullLoop_Frame (rec : Call → DispatchedStorage β → Res β) (hrec : RecFrame rec)
    (item : Item) (key : String) :
    ∀ (hs : List Handler) (k : Nat) (m : Model) (s : DispatchedStorage β) e m' s',
      pullLoop rec item key k hs m s = some (e, m', s') → Frame s s' := by
  intro hs
  induction hs with
  | nil =>
    intro k m s e m' s' h
    simp only [pullLoop, Option.some.injEq, Prod.mk.injEq] at h
    obtain ⟨_, _, rfl⟩ := h
    exact Frame.refl s
  | cons hd rest ih =>
    intro k m s e m' s' h
    unfold pullLoop at h
    split at h
    · cases h
    · rename_i err m1 s1 heq
      simp only [Option.some.injEq, Prod.mk.injEq] at h
      obtain ⟨_, _, rfl⟩ := h
      exact (Frame.emit s _).trans (hrec _ _ _ _ _ heq)
    · rename_i m1 s1 heq
      exact ((Frame.emit s _).trans (hrec _ _ _ _ _ heq)).trans (ih _ _ _ _ _ _ h)

theorem pullTrigger_Frame (rec : Call → DispatchedStorage β → Res β) (hrec : RecFrame rec)
    (item : Item) (name : String) (s : DispatchedStorage β) e m' s'
    (h : pullTrigger rec item name s = some (e, m', s')) : Frame s s' := by
  rw [pullTrigger_eq] at h
  exact (Frame.emit s _).trans (pullLoop_Frame rec hrec item _ _ _ _ _ _ _ _ h)

theorem saveBody_Frame (rec : Call → DispatchedStorage β → Res β) (hrec : RecFrame rec)
    (t : Handle) (item : Item) (s : DispatchedStorage β) e m' s'
    (h : saveBody rec t item s = some (e, m', s')) : Frame s s' := by
  unfold saveBody at h
  have hc := checkRelated_Frame s item
  simp only at h
  split at h
  · rename_i err s1 heq
    simp only [Option.some.injEq, Prod.mk.injEq] at h
    obtain ⟨_, _, rfl⟩ := h
    rw [heq] at hc; exact hc
  · rename_i s1 heq
    rw [heq] at hc
    split at h
    · cases h
    · rename_i err m2 s2 h2
      simp only [Option.some.injEq, Prod.mk.injEq] at h
      obtain ⟨_, _, rfl⟩ := h
      exact hc.trans (pullTrigger_Frame rec hrec _ _ _ _ _ _ h2)
    · rename_i m2 s2 h2
      have f2 := hc.trans (pullTrigger_Frame rec hrec _ _ _ _ _ _ h2)
      split at h
      · cases h
      · rename_i err m3 s3 h3
        simp only [Option.some.injEq, Prod.mk.injEq] at h
        obtain ⟨_, _, rfl⟩ := h
        exact f2.trans (pullTrigger_Frame rec hrec _ _ _ _ _ _ h3)
      · rename_i m3 s3 h3
        have f3 := f2.trans (pullTrigger_Frame rec hrec _ _ _ _ _ _ h3)
        split at h
        · rename_i err m4 db4 h4
          simp only [Option.some.injEq, Prod.mk.injEq] at h
          obtain ⟨_, _, rfl⟩ := h
          exact f3.trans ⟨rfl, rfl, rfl, rfl, _, rfl⟩
        · rename_i m4 db4 h4
          have f4 : Frame s
              { s3.emit (.storageSave t item.CollectionName m3.id) with db := db4 } :=
            f3.trans ⟨rfl, rfl, rfl, rfl, _, rfl⟩
          split at h
          · cases h
          · rename_i err m5 s5 h5
            simp only [Option.some.injEq, Prod.mk.injEq] at h
            obtain ⟨_, _, rfl⟩ := h
            exact f4.trans (pullTrigger_Frame rec hrec _ _ _ _ _ _ h5)
          · rename_i m5 s5 h5
            have f5 := f4.trans (pullTrigger_Frame rec hrec _ _ _ _ _ _ h5)
            split at h
            · cases h
            · rename_i err m6 s6 h6
              simp only [Option.some.injEq, Prod.mk.injEq] at h
              obtain ⟨_, _, rfl⟩ := h
              exact f5.trans (pullTrigger_Frame rec hrec _ _ _ _ _ _ h6)
            · rename_i m6 s6 h6
              simp only [Option.some.injEq, Prod.mk.injEq] at h
              obtain ⟨_, _, rfl⟩ := h
              exact (f5.trans (pullTrigger_Frame rec hrec _ _ _ _ _ _ h6)).trans
                ⟨rfl, rfl, rfl, rfl, _, rfl⟩

theorem deleteEach_Frame (rec : Call → DispatchedStorage β → Res β) (hrec : RecFrame rec) :
    ∀ (subs : List Item) (s : DispatchedStorage β) e s',
      deleteEach rec subs s = some (e, s') → Frame s s' := by
  intro subs
  induction subs with
  | nil =>
    intro s e s' h
    simp only [deleteEach, Option.some.injEq, Prod.mk.injEq] at h
    obtain ⟨_, rfl⟩ := h
    exact Frame.refl s
  | cons x rest ih =>
    intro s e s' h
    unfold deleteEach at h
    split at h
    · cases h
    · rename_i err m1 s1 heq
      simp only [Option.some.injEq, Prod.mk.injEq] at h
      obtain ⟨_, rfl⟩ := h
      exact hrec _ _ _ _ _ heq
    · rename_i m1 s1 heq
      exact (hrec _ _ _ _ _ heq).trans (ih _ _ _ h)

theorem deleteRelatedLoop_Frame (rec : Call → DispatchedStorage β → Res β) (hrec : RecFrame rec)
    (forItem : Item) :
    ∀ (rels : List Relation) (s : DispatchedStorage β) e s',
      deleteRelatedLoop rec forItem rels s = some (e, s') → Frame s s' := by
  intro rels
  induction rels with
  | nil =>
    intro s e s' h
    simp only [deleteRelatedLoop, Option.some.injEq, Prod.mk.injEq] at h
    obtain ⟨_, rfl⟩ := h
    exact Frame.refl s
  | cons rel rest ih =>
    intro s e s' h
    unfold deleteRelatedLoop at h
    simp only at h
    split at h
    · simp only [Option.some.injEq, Prod.mk.injEq] at h
      obtain ⟨_, rfl⟩ := h
      exact Frame.emit s _
    · split at h
      · cases h
      · rename_i err s2 heq
        simp only [Option.some.injEq, Prod.mk.injEq] at h
        obtain ⟨_, rfl⟩ := h
        exact (Frame.emit s _).trans (deleteEach_Frame rec hrec _ _ _ _ heq)
      · rename_i s2 heq
        exact ((Frame.emit s _).trans (deleteEach_Frame rec hrec _ _ _ _ heq)).trans
          (ih _ _ _ h)

theorem deleteBody_Frame (rec : Call → DispatchedStorage β → Res β) (hrec : RecFrame rec)
    (t : Handle) (item : Item) (s : DispatchedStorage β) e m' s'
    (h : deleteBody rec t item s = some (e, m', s')) : Frame s s' := by
  unfold deleteBody at h
  split at h
  · cases h
  · rename_i err m1 s1 h1
    simp only [Option.some.injEq, Prod.mk.injEq] at h
    obtain ⟨_, _, rfl⟩ := h
    exact pullTrigger_Frame rec hrec _ _ _ _ _ _ h1
  · rename_i m1 s1 h1
    have f1 := pullTrigger_Frame rec hrec _ _ _ _ _ _ h1
    split at h
    · cases h
    · rename_i err s2 h2
      simp only [Option.some.injEq, Prod.mk.injEq] at h
      obtain ⟨_, _, rfl⟩ := h
      exact f1.trans (deleteRelatedLoop_Frame rec hrec _ _ _ _ _ h2)
    · rename_i s2 h2
      have f2 := f1.trans (deleteRelatedLoop_Frame rec hrec _ _ _ _ _ h2)
      simp only at h
      split at h
      · rename_i err m4 db4 h4
        simp only [Option.some.injEq, Prod.mk.injEq] at h
        obtain ⟨_, _, rfl⟩ := h
        exact f2.trans ⟨rfl, rfl, rfl, rfl,
          [.cacheRemove item.CollectionName m1.id, .storageDelete t item.CollectionName m1.id],
          by simp [DispatchedStorage.emit]⟩
      · rename_i m4 db4 h4
        have f4 := pullTrigger_Frame rec hrec _ _ _ _ _ _ h
        refine f2.trans (Frame.trans ?_ f4)
        exact ⟨rfl, rfl, rfl, rfl,
          [.cacheRemove item.CollectionName m1.id, .storageDelete t item.CollectionName m1.id],
          by simp [DispatchedStorage.emit]⟩

theorem progBody_Frame (rec : Call → DispatchedStorage β → Res β) (hrec : RecFrame rec)
    (t : Handle) (p : HProg) (s : DispatchedStorage β) e m' s'
    (h : progBody rec t p s = some (e, m', s')) : Frame s s' := by
  cases p with
  | ret err m =>
    simp only [progBody, Option.some.injEq, Prod.mk.injEq] at h
    obtain ⟨_, _, rfl⟩ := h
    exact Frame.refl s
  | save x k =>
    simp only [progBody] at h
    split at h
    · cases h
    · rename_i err m1 s1 heq
      exact (hrec _ _ _ _ _ heq).trans (hrec _ _ _ _ _ h)
  | delete x k =>
    simp only [progBody] at h
    split at h
    · cases h
    · rename_i err m1 s1 heq
      exact (hrec _ _ _ _ _ heq).trans (hrec _ _ _ _ _ h)
  | load dst id k =>
    simp only [progBody] at h
    exact (Frame.emit s _).trans (hrec _ _ _ _ _ h)
  | select proto results cap order skip condition args k =>
    simp only [progBody] at h
    exact (Frame.emit s _).trans (hrec _ _ _ _ _ h)

theorem run_Frame (t : Handle) : ∀ (fuel : Nat), RecFrame (run (β := β) t fuel) := by
  intro fuel
  induction fuel with
  | zero => intro c s e m s' h; simp [run] at h
  | succ n ih =>
    intro c s e m s' h
    cases c with
    | save item => exact saveBody_Frame _ ih t item s e m s' h
    | delete item => exact deleteBody_Frame _ ih t item s e m s' h
    | prog p => exact progBody_Frame _ ih t p s e m s' h

theorem pullTrigger_directFail (t : Handle) (fuel : Nat) (item : Item) (name : String)
    (s : DispatchedStorage β) (pre post : List Handler) (h : Handler) (e : Error)
    (hreg : s.triggers (fullNameOf item name) = pre ++ h :: post)
    (hpre : ∀ h' ∈ pre, DirectOk h') (hf : DirectFail h e) :
    ∃ m', pullTrigger (run t (fuel + 1)) item name s =
      some (some e, m', { s with log := s.log ++ (Event.pulled (fullNameOf item name) item.id ::
        firedRange (fullNameOf item name) 0 (pre.length + 1)) }) := by
  obtain ⟨m', hm'⟩ := pullLoop_directFail t fuel item (fullNameOf item name) e h post hf pre 0
    item.toModel (s.emit (.pulled (fullNameOf item name) item.id)) hpre
  refine ⟨m', ?_⟩
  rw [pullTrigger_eq, hreg, hm']
  simp [DispatchedStorage.emit]

theorem pullLoop_directFail_id (t : Handle) (fuel : Nat) (item : Item) (key : String) (e : Error)
    (h : Handler) (post : List Handler) (hf : DirectFail h e) :
    ∀ (pre : List Handler) (k : Nat) (m : Model) (s : DispatchedStorage β) e' m' s',
      (∀ h' ∈ pre, DirectOk h') → (∀ h' ∈ pre ++ [h], KeepsId h') →
      pullLoop (run t (fuel + 1)) item key k (pre ++ h :: post) m s = some (e', m', s') →
      m'.id = m.id := by
  intro pre
  induction pre with
  | nil =>
    intro k m s e' m' s' _ hkeep hrun
    obtain ⟨m1, hm1⟩ := hf (item.withModel m)
    have hid : m1.id = m.id := hkeep h (by simp) _ _ _ hm1
    simp only [List.nil_append, pullLoop, run, progBody, hm1, Option.some.injEq,
      Prod.mk.injEq] at hrun
    obtain ⟨_, rfl, _⟩ := hrun
    exact hid
  | cons h0 rest ih =>
    intro k m s e' m' s' hd hkeep hrun
    obtain ⟨m1, hm1⟩ := hd h0 (List.mem_cons_self _ _) (item.withModel m)
    have hid : m1.id = m.id := hkeep h0 (by simp) _ _ _ hm1
    simp only [List.cons_append, pullLoop, run, progBody, hm1] at hrun
    have := ih _ _ _ _ _ _ (fun h' hh => hd h' (List.mem_cons_of_mem _ hh))
      (fun h' hh => hkeep h' (by
        rcases List.mem_append.mp hh with hh | hh
        · exact List.mem_append.mpr (Or.inl (List.mem_cons_of_mem _ hh))
        · exact List.mem_append.mpr (Or.inr hh))) hrun
    rw [this, hid]

theorem memStorage_delete_ok (cfg : MemCfg) (hcfg : cfg.deleteFails = false) (h : Handle) (x : Item)
    (db : MemDb) : ((memStorage cfg).Delete h x db).1 = none := by
  simp only [memStorage, hcfg]
  by_cases h0 : x.id = 0 <;> simp [h0]

theorem pullLoop_keepsId (t : Handle) (fuel : Nat) (item : Item) (key : String) :
    ∀ (hs : List Handler) (k : Nat) (m : Model) (s : DispatchedStorage β) e m' s',
      (∀ h ∈ hs, ∀ x, ∃ err m1, h x = .ret err m1) → (∀ h ∈ hs, KeepsId h) →
      pullLoop (run t (fuel + 1)) item key k hs m s = some (e, m', s') → m'.id = m.id := by
  intro hs
  induction hs with
  | nil =>
    intro k m s e m' s' _ _ h
    simp only [pullLoop, Option.some.injEq, Prod.mk.injEq] at h
    obtain ⟨_, rfl, _⟩ := h
    rfl
  | cons h0 rest ih =>
    intro k m s e m' s' hdir hkeep h
    obtain ⟨err, m1, hm1⟩ := hdir h0 (List.mem_cons_self _ _) (item.withModel m)
    have hid : m1.id = m.id := hkeep h0 (List.mem_cons_self _ _) _ _ _ hm1
    simp only [pullLoop, run, progBody, hm1] at h
    cases err with
    | some err0 =>
      simp only [Option.some.injEq, Prod.mk.injEq] at h
      obtain ⟨_, rfl, _⟩ := h
      exact hid
    | none =>
      simp only at h
      have := ih _ _ _ _ _ _ (fun h' hh => hdir h' (List.mem_cons_of_mem _ hh))
        (fun h' hh => hkeep h' (List.mem_cons_of_mem _ hh)) h
      rw [this, hid]

theorem pullTrigger_keepsId (t : Handle) (fuel : Nat) (item : Item) (name : String)
    (s : DispatchedStorage β) e m' s'
    (hdir : ∀ h ∈ s.triggers (fullNameOf item name), DirectOk h)
    (hkeep : ∀ h ∈ s.triggers (fullNameOf item name), KeepsId h)
    (h : pullTrigger (run t (fuel + 1)) item name s = some (e, m', s')) : m'.id = item.id := by
  rw [pullTrigger_eq] at h
  exact pullLoop_keepsId t fuel item _ _ _ _ _ _ _ _
    (fun h' hh x => by obtain ⟨m, hm⟩ := hdir h' hh x; exact ⟨none, m, hm⟩) hkeep h

theorem mapGet_mapSet_same {κ α : Type} [DecidableEq κ] (m : List (κ × α)) (k : κ) (v : α) :
    mapGet (mapSet m k v) k = some v := by
  induction m with
  | nil => simp [mapSet, mapGet]
  | cons a m ih =>
    obtain ⟨k', v'⟩ := a
    by_cases h : k' = k
    · simp [mapSet, mapGet, h]
    · simp [mapSet, mapGet, h, ih]

theorem mapGet_mapSet_ne {κ α : Type} [DecidableEq κ] (m : List (κ × α)) (k k0 : κ) (v : α)
    (hne : k0 ≠ k) : mapGet (mapSet m k v) k0 = mapGet m k0 := by
  induction m with
  | nil => simp [mapSet, mapGet, Ne.symm hne]
  | cons a m ih =>
    obtain ⟨k', v'⟩ := a
    by_cases h : k' = k
    · subst h
      simp [mapSet, mapGet, Ne.symm hne]
    · by_cases h0 : k' = k0
      · subst h0
        simp [mapSet, mapGet, h]
      · simp [mapSet, mapGet, h, h0, ih]

theorem Remove_lookup_same (c : ItemsCache) (x p : Item)
    (hp : p.CollectionName = x.CollectionName) : ((c.Remove x).Lookup p x.id).1 = false := by
  unfold ItemsCache.Remove
  by_cases h0 : c.maxSize = 0
  · simp [ItemsCache.Lookup, h0]
  · simp only [h0, ↓reduceIte]
    cases hg : mapGet c.data x.CollectionName with
    | none => simp [ItemsCache.Lookup, h0, hp, hg]
    | some inner =>
      simp only
      cases hi : mapGet inner x.id with
      | none => simp [ItemsCache.Lookup, h0, hp, hg, hi]
      | some v =>
        simp [ItemsCache.Lookup, h0, hp, mapGet_mapSet_same]

theorem Remove_lookup_mono (c : ItemsCache) (y p : Item) (id : Nat)
    (h : (c.Lookup p id).1 = false) : ((c.Remove y).Lookup p id).1 = false := by
  by_cases hk : p.CollectionName = y.CollectionName ∧ id = y.id
  · obtain ⟨hc, rfl⟩ := hk
    exact Remove_lookup_same c y p hc
  · unfold ItemsCache.Remove
    by_cases h0 : c.maxSize = 0
    · simp [ItemsCache.Lookup, h0]
    · simp only [h0, ↓reduceIte]
      cases hg : mapGet c.data y.CollectionName with
      | none => exact h
      | some inner =>
        simp only
        cases hi : mapGet inner y.id with
        | none => exact h
        | some v =>
          simp only
          by_cases hc : p.CollectionName = y.CollectionName
          · have hid : id ≠ y.id := fun hh => hk ⟨hc, hh⟩
            simp only [ItemsCache.Lookup, h0, ↓reduceIte, hc, mapGet_mapSet_same,
              mapGet_mapSet_ne _ _ _ _ hid]
            simp only [ItemsCache.Lookup, h0, ↓reduceIte, hc, hg] at h
            exact h
          · simp only [ItemsCache.Lookup, h0, ↓reduceIte, mapGet_mapSet_ne _ _ _ _ hc]
            simp only [ItemsCache.Lookup, h0, ↓reduceIte] at h
            exact h

theorem DeletePipelineEvents.mono {t : Handle} {r : Row} {l : List Event}
    (h : DeletePipelineEvents t r l) (l1 l2 : List Event) :
    DeletePipelineEvents t r (l1 ++ l ++ l2) := by
  obtain ⟨a, b, c, id, d⟩ := h
  refine ⟨?_, ?_, ?_, id, ?_⟩ <;> simp [*]

theorem CascadeStep.same (t : Handle) (s : DispatchedStorage MemDb) : CascadeStep t s s where
  frame := Frame.refl s
  sub := fun _ h => h
  rowsSub := fun _ h => h
  visible := fun h => h
  closed := fun _ h hn => absurd h hn
  cacheMono := fun _ _ h => h
  events := ⟨[], by simp, fun _ h hn => absurd h hn⟩

theorem CascadeStep.andThen {t : Handle} {s1 s2 s3 : DispatchedStorage MemDb}
    (h12 : CascadeStep t s1 s2) (h23 : CascadeStep t s2 s3) : CascadeStep t s1 s3 := by
  obtain ⟨l1, hl1, ev12⟩ := h12.events
  obtain ⟨l2, hl2, ev23⟩ := h23.events
  refine ⟨h12.frame.trans h23.frame, fun r hr => h12.sub r (h23.sub r hr),
    fun r hr => h12.rowsSub r (h23.rowsSub r hr), fun h => h23.visible (h12.visible h), ?_,
    fun p id h => h23.cacheMono p id (h12.cacheMono p id h), l1 ++ l2, ?_, ?_⟩
  · intro r hr hn c hc
    by_cases h2 : r ∈ s2.db.view t
    · have := h23.closed r h2 hn c hc
      rw [h12.frame.2.1] at this
      exact this
    · exact h12.closed r hr h2 c (h23.sub c hc)
  · rw [hl2, hl1, List.append_assoc]
  · intro r hr hn
    by_cases h2 : r ∈ s2.db.view t
    · have := (ev23 r h2 hn).1.mono l1 []
      exact ⟨by simpa using this, (ev23 r h2 hn).2⟩
    · have := (ev12 r hr h2).1.mono [] l2
      exact ⟨by simpa using this, fun p hp => h23.cacheMono p r.id ((ev12 r hr h2).2 p hp)⟩

theorem CascadeInv.step {cfg : MemCfg} {t : Handle} {s s' : DispatchedStorage MemDb}
    (hi : CascadeInv cfg t s) (h : CascadeStep t s s') : CascadeInv cfg t s' := by
  obtain ⟨hst, _, htr, _, _⟩ := h.frame
  exact ⟨hst.trans hi.storage, fun key => by rw [htr]; exact hi.direct key,
    fun key => by rw [htr]; exact hi.keeps key, fun r hr => hi.ids r (h.rowsSub r hr),
    h.visible hi.visible⟩

theorem pullLoop_direct (t : Handle) (n : Nat) (item : Item) (key : String) :
    ∀ (hs : List Handler) (k : Nat) (m : Model) (s : DispatchedStorage β) e m' s',
      (∀ h ∈ hs, ∀ x, ∃ err m1, h x = .ret err m1) →
      pullLoop (run t n) item key k hs m s = some (e, m', s') →
      (∃ l, s' = { s with log := s.log ++ l }) ∧ ((∀ h ∈ hs, KeepsId h) → m'.id = m.id) := by
  intro hs
  induction hs with
  | nil =>
    intro k m s e m' s' _ h
    simp only [pullLoop, Option.some.injEq, Prod.mk.injEq] at h
    obtain ⟨_, rfl, rfl⟩ := h
    exact ⟨⟨[], by simp⟩, fun _ => rfl⟩
  | cons h0 rest ih =>
    intro k m s e m' s' hdir h
    cases n with
    | zero => simp [pullLoop, run] at h
    | succ n =>
      obtain ⟨err, m1, hm1⟩ := hdir h0 (List.mem_cons_self _ _) (item.withModel m)
      simp only [pullLoop, run, progBody, hm1] at h
      cases err with
      | some err0 =>
        simp only [Option.some.injEq, Prod.mk.injEq] at h
        obtain ⟨_, rfl, rfl⟩ := h
        exact ⟨⟨[.fired key k], rfl⟩,
          fun hk => hk h0 (List.mem_cons_self _ _) _ _ _ hm1⟩
      | none =>
        simp only at h
        obtain ⟨⟨l, hl⟩, hid⟩ := ih _ _ _ _ _ _
          (fun h' hh => hdir h' (List.mem_cons_of_mem _ hh)) h
        refine ⟨⟨.fired key k :: l, ?_⟩, fun hk => ?_⟩
        · rw [hl]; simp [DispatchedStorage.emit]
        · rw [hid (fun h' hh => hk h' (List.mem_cons_of_mem _ hh))]
          exact hk h0 (List.mem_cons_self _ _) _ _ _ hm1

theorem pullTrigger_direct (t : Handle) (n : Nat) (item : Item) (name : String)
    (s : DispatchedStorage β) e m' s'
    (hdir : ∀ h ∈ s.triggers (fullNameOf item name), ∀ x, ∃ err m1, h x = .ret err m1)
    (h : pullTrigger (run t n) item name s = some (e, m', s')) :
    (∃ l, s' = { s with log := s.log ++ Event.pulled (fullNameOf item name) item.id :: l }) ∧
      ((∀ h ∈ s.triggers (fullNameOf item name), KeepsId h) → m'.id = item.id) := by
  rw [pullTrigger_eq] at h
  obtain ⟨⟨l, hl⟩, hid⟩ := pullLoop_direct t n item _ _ _ _ _ _ _ _ hdir h
  refine ⟨⟨l, ?_⟩, hid⟩
  rw [hl]; simp [DispatchedStorage.emit]

theorem memStorage_select_root (cfg : MemCfg) (proto : Item) (condition : String)
    (args : List Value) (db : MemDb) :
    (memStorage cfg).Select .root proto [] 0 none 0 condition args db =
      (none, (db.rows.filter (rowMatches proto.CollectionName condition args)).map
        (fun r => proto.Clone.Fill r.id (some r.fields))) := by
  simp [memStorage, MemDb.view]

theorem memStorage_delete_view (cfg : MemCfg) (t : Handle) (x : Item) (db : MemDb) (m : Model)
    (db' : MemDb) (h : (memStorage cfg).Delete t x db = (none, m, db')) :
    db'.view t = (if x.id = 0 then db.view t
      else (db.view t).filter (fun r => ¬ (r.collection = x.CollectionName ∧ r.id = x.id))) ∧
    (∀ r ∈ db'.rows, r ∈ db.rows) ∧
    ((∀ r ∈ db.view t, r ∈ db.rows) → ∀ r ∈ db'.view t, r ∈ db'.rows) := by
  simp only [memStorage] at h
  by_cases h0 : x.id = 0
  · simp only [h0, ↓reduceIte, Prod.mk.injEq, true_and] at h
    obtain ⟨_, rfl⟩ := h
    simp [h0]
  · simp only [h0, ↓reduceIte] at h
    by_cases hf : cfg.deleteFails = true
    · simp [hf] at h
    · simp only [hf, Bool.false_eq_true, ↓reduceIte, Prod.mk.injEq, true_and] at h
      obtain ⟨_, rfl⟩ := h
      cases t with
      | root =>
        refine ⟨by simp [MemDb.setView, MemDb.view, h0], ?_, ?_⟩
        · intro r hr
          simp only [MemDb.setView, MemDb.view] at hr
          exact (List.mem_filter.mp hr).1
        · intro _ r hr
          exact hr
      | tx =>
        cases hw : db.work with
        | none =>
          refine ⟨by simp [MemDb.setView, MemDb.view, h0, hw], ?_, ?_⟩
          · intro r hr
            simp only [MemDb.setView, MemDb.view, hw, Option.getD_none] at hr
            exact (List.mem_filter.mp hr).1
          · intro _ r hr
            simpa [MemDb.setView, MemDb.view, hw] using hr
        | some w =>
          refine ⟨by simp [MemDb.setView, MemDb.view, h0, hw], ?_, ?_⟩
          · intro r hr
            simpa [MemDb.setView, MemDb.view, hw] using hr
          · intro hvis r hr
            simp only [MemDb.setView, MemDb.view, hw, Option.getD_some] at hr hvis ⊢
            exact hvis r (List.mem_filter.mp hr).1

theorem CascadeStep.of_sameRows {t : Handle} {s s' : DispatchedStorage MemDb} (hf : Frame s s')
    (hdb : s'.db = s.db) (hcache : s'.cache = s.cache) : CascadeStep t s s' := by
  obtain ⟨l, hl⟩ := hf.2.2.2.2
  exact ⟨hf, fun r hr => hdb ▸ hr, fun r hr => hdb ▸ hr, fun h r hr => by
      rw [hdb] at hr ⊢; exact h r hr,
    fun r hr hn => absurd (hdb ▸ hr) hn,
    fun p id h => by rw [hcache]; exact h, l, hl, fun r hr hn => absurd (hdb ▸ hr) hn⟩

theorem rowMatches_collection {c condition : String} {args : List Value} {r : Row}
    (h : rowMatches c condition args r = true) : r.collection = c := by
  simp only [rowMatches, Bool.and_eq_true, decide_eq_true_eq] at h
  exact h.1

theorem deleteEach_cascade (cfg : MemCfg) (t : Handle) (n : Nat)
    (hS : ∀ (item : Item) (s : DispatchedStorage MemDb) m' s',
      run t n (.delete item) s = some (none, m', s') → CascadeInv cfg t s →
      DeleteOutcome t s s' item) :
    ∀ (subs : List Item) (s s' : DispatchedStorage MemDb),
      deleteEach (run t n) subs s = some (none, s') → CascadeInv cfg t s →
      CascadeStep t s s' ∧
        ∀ x ∈ subs, x.id ≠ 0 →
          ∀ r ∈ s'.db.view t, ¬ (r.collection = x.CollectionName ∧ r.id = x.id) := by
  intro subs
  induction subs with
  | nil =>
    intro s s' h _
    simp only [deleteEach, Option.some.injEq, Prod.mk.injEq, true_and] at h
    subst h
    exact ⟨CascadeStep.same t s, fun x hx => by cases hx⟩
  | cons x rest ih =>
    intro s s' h hi
    unfold deleteEach at h
    split at h
    · cases h
    · simp at h
    · rename_i m1 s1 heq
      obtain ⟨st1, hx, _⟩ := hS x s m1 s1 heq hi
      obtain ⟨st2, hrest⟩ := ih s1 s' h (hi.step st1)
      refine ⟨st1.andThen st2, ?_⟩
      intro y hy hy0 r hr
      rcases List.mem_cons.mp hy with rfl | hy
      · exact hx hy0 r (st2.sub r hr)
      · exact hrest y hy hy0 r hr

theorem deleteRelatedLoop_cascade (cfg : MemCfg) (t : Handle) (n : Nat) (item : Item)
    (hS : ∀ (item : Item) (s : DispatchedStorage MemDb) m' s',
      run t n (.delete item) s = some (none, m', s') → CascadeInv cfg t s →
      DeleteOutcome t s s' item) :
    ∀ (rels : List Relation) (s s' : DispatchedStorage MemDb),
      deleteRelatedLoop (run t n) item rels s = some (none, s') → CascadeInv cfg t s →
      CascadeStep t s s' ∧
        ∀ rel ∈ rels, ∀ c ∈ s'.db.view t,
          rowMatches rel.To.CollectionName (fkCondition rel) [Value.uint64 item.id] c = false := by
  intro rels
  induction rels with
  | nil =>
    intro s s' h _
    simp only [deleteRelatedLoop, Option.some.injEq, Prod.mk.injEq, true_and] at h
    subst h
    exact ⟨CascadeStep.same t s, fun x hx => by cases hx⟩
  | cons rel rest ih =>
    intro s s' h hi
    unfold deleteRelatedLoop at h
    simp only [hi.storage, memStorage_select_root] at h
    split at h
    · cases h
    · simp at h
    · rename_i s2 heq
      have st1 : CascadeStep t s
          (s.emit (.storageSelect .root rel.To.CollectionName (fkCondition rel)
            [Value.uint64 item.id])) :=
        CascadeStep.of_sameRows (Frame.emit s _) rfl rfl
      obtain ⟨st2, hres⟩ := deleteEach_cascade cfg t n hS _ _ _ heq (hi.step st1)
      obtain ⟨st3, hrest⟩ := ih s2 s' h ((hi.step st1).step st2)
      refine ⟨(st1.andThen st2).andThen st3, ?_⟩
      intro rel' hrel' c hc
      rcases List.mem_cons.mp hrel' with rfl | hrel'
      · by_contra hm
        have hm' : rowMatches rel'.To.CollectionName (fkCondition rel')
            [Value.uint64 item.id] c = true := by
          cases hb : rowMatches rel'.To.CollectionName (fkCondition rel')
            [Value.uint64 item.id] c
          · exact absurd hb hm
          · rfl
        have hc2 : c ∈ s2.db.view t := st3.sub c hc
        have hc0 : c ∈ s.db.rows := hi.visible c (st1.sub c (st2.sub c hc2))
        have hmem : rel'.To.Clone.Fill c.id (some c.fields) ∈
            (s.db.rows.filter (rowMatches rel'.To.CollectionName (fkCondition rel')
              [Value.uint64 item.id])).map (fun r => rel'.To.Clone.Fill r.id (some r.fields)) :=
          List.mem_map.mpr ⟨c, List.mem_filter.mpr ⟨hc0, hm'⟩, rfl⟩
        have hid : (rel'.To.Clone.Fill c.id (some c.fields)).id = c.id := rfl
        refine hres _ hmem (by rw [hid]; exact hi.ids c hc0) c hc2 ⟨?_, hid.symm⟩
        exact rowMatches_collection hm'
      · exact hrest rel' hrel' c hc

theorem run_delete_cascade (cfg : MemCfg) (t : Handle) :
    ∀ (n : Nat) (item : Item) (s : DispatchedStorage MemDb) m' s',
      run t n (.delete item) s = some (none, m', s') → CascadeInv cfg t s →
      DeleteOutcome t s s' item := by
  intro n
  induction n with
  | zero => intro item s m' s' h; simp [run] at h
  | succ n hS =>
    intro item s m' s' h hi
    simp only [run] at h
    unfold deleteBody at h
    split at h
    · cases h
    · simp at h
    · rename_i m1 s1 h1
      obtain ⟨⟨l1, hs1⟩, hid1⟩ := pullTrigger_direct t n item DELETE s _ _ _
        (hi.direct _) h1
      have hm1 : m1.id = item.id := hid1 (hi.keeps _)
      have f1 : Frame s s1 := by rw [hs1]; exact ⟨rfl, rfl, rfl, rfl, _, rfl⟩
      have st1 : CascadeStep t s s1 :=
        CascadeStep.of_sameRows f1 (by rw [hs1]) (by rw [hs1])
      split at h
      · cases h
      · simp at h
      · rename_i s2 h2
        obtain ⟨st2, hrels⟩ := deleteRelatedLoop_cascade cfg t n (item.withModel m1) hS _ _ _ h2
          (hi.step st1)
        have stA : CascadeStep t s s2 := st1.andThen st2
        have hi2 : CascadeInv cfg t s2 := hi.step stA
        obtain ⟨l2, hl2, ev2⟩ := stA.events
        simp only at h
        split at h
        · simp at h
        · rename_i m4 db4 h4
          simp only [DispatchedStorage.emit, hi2.storage] at h4
          obtain ⟨hview4, hrowsSub4, hvis4⟩ := memStorage_delete_view cfg t _ _ _ _ h4
          have h5 := fun hd => pullTrigger_direct t n (item.withModel m4) DELETED _ _ _ _ hd h
          obtain ⟨⟨l5, hs5⟩, _⟩ := h5 (hi2.direct _)
          have hdb' : s'.db = db4 := by rw [hs5]
          have hrows' : s'.db.view t = (if m1.id = 0 then s2.db.view t
              else (s2.db.view t).filter
                (fun r => ¬ (r.collection = item.CollectionName ∧ r.id = m1.id))) := by
            rw [hdb']; exact hview4
          have hlog' : s'.log = s.log ++ (l2 ++ [Event.cacheRemove item.CollectionName m1.id,
              Event.storageDelete t item.CollectionName m1.id] ++
              Event.pulled (fullNameOf item DELETED) m4.id :: l5) := by
            rw [hs5]
            simp [DispatchedStorage.emit, hl2, fullNameOf, Item.withModel]
          have hsub' : ∀ r ∈ s'.db.view t, r ∈ s2.db.view t := by
            intro r hr
            rw [hrows'] at hr
            split at hr
            · exact hr
            · exact (List.mem_filter.mp hr).1
          have hchildren : ∀ c ∈ s2.db.view t,
              ¬ IsChild s.relations item.CollectionName item.id c := by
            intro c hc ⟨rel, hrel, hm⟩
            have hrel1 : rel ∈ s1.getRelationsOfType (item.withModel m1) .HAS_MANY := by
              rw [hs1]; exact hrel
            have := hrels rel hrel1 c hc
            have hidw : (item.withModel m1).id = item.id := hm1
            rw [hidw, hm] at this
            cases this
          have hremoved : ∀ r ∈ s2.db.view t, r ∉ s'.db.view t →
              r.collection = item.CollectionName ∧ r.id = item.id := by
            intro r hr hn
            rw [hrows'] at hn
            split at hn
            · exact absurd hr hn
            · by_contra hne
              apply hn
              refine List.mem_filter.mpr ⟨hr, ?_⟩
              rw [hm1]
              exact decide_eq_true hne
          have hframe' : Frame s s' :=
            ⟨by rw [hs5]; exact stA.frame.1, by rw [hs5]; exact stA.frame.2.1,
              by rw [hs5]; exact stA.frame.2.2.1, by rw [hs5]; exact stA.frame.2.2.2.1, _, hlog'⟩
          have hl1 : s1.log = s.log ++ Event.pulled (fullNameOf item DELETE) item.id :: l1 := by
            rw [hs1]
          have hpulled : Event.pulled (fullNameOf item DELETE) item.id ∈ l2 := by
            obtain ⟨l2', hl2'⟩ := st2.frame.2.2.2.2
            rw [hl1, hl2, List.append_assoc] at hl2'
            have := List.append_cancel_left hl2'
            rw [this]
            simp
          have hcache' : s'.cache = s2.cache.Remove (item.withModel m1) := by rw [hs5]; rfl
          refine ⟨⟨hframe', fun r hr => stA.sub r (hsub' r hr),
            fun r hr => stA.rowsSub r (by rw [hdb'] at hr; exact hrowsSub4 r hr),
            fun hv r hr => by
              rw [hdb'] at hr ⊢
              exact hvis4 (stA.visible hv) r hr,
            ?_,
            fun p id hp => by
              rw [hcache']; exact Remove_lookup_mono _ _ _ _ (stA.cacheMono p id hp),
            _, hlog', ?_⟩, ?_, ?_⟩
          · intro r hr hn c hc
            by_cases hr2 : r ∈ s2.db.view t
            · obtain ⟨hrc, hrid⟩ := hremoved r hr2 hn
              rw [hrc, hrid]
              exact hchildren c (hsub' c hc)
            · exact stA.closed r hr hr2 c (hsub' c hc)
          · intro r hr hn
            by_cases hr2 : r ∈ s2.db.view t
            · obtain ⟨hrc, hrid⟩ := hremoved r hr2 hn
              refine ⟨⟨?_, ?_, ?_, m4.id, ?_⟩, ?_⟩
              · rw [hrc, hrid]
                simp only [List.append_assoc, List.mem_append]
                exact Or.inl hpulled
              · rw [hrc, hrid, ← hm1]; simp
              · rw [hrc, hrid, ← hm1]; simp
              · rw [hrc]; simp [fullNameOf]
              · intro p hp
                rw [hcache', hrid, ← hm1]
                exact Remove_lookup_same _ _ _ (by rw [hp, hrc]; rfl)
            · have := (ev2 r hr hr2).1.mono []
                ([Event.cacheRemove item.CollectionName m1.id,
                  Event.storageDelete t item.CollectionName m1.id] ++
                  Event.pulled (fullNameOf item DELETED) m4.id :: l5)
              refine ⟨by simpa [List.append_assoc] using this, fun p hp => ?_⟩
              rw [hcache']
              exact Remove_lookup_mono _ _ _ _ ((ev2 r hr hr2).2 p hp)
          · intro h0 r hr hrr
            rw [hrows'] at hr
            rw [hm1] at hr
            simp only [h0, ↓reduceIte, List.mem_filter] at hr
            simpa [hrr] using hr.2
          · intro c hc
            exact hchildren c (hsub' c hc)

theorem okHandler_keepsId : KeepsId okHandler := by
  intro x err m h
  simp only [okHandler, HProg.ret.injEq] at h
  rw [← h.2]

theorem exampleWithHandlers_cascadeInv (cfg : MemCfg) :
    CascadeInv cfg .root (exampleWithHandlers cfg) where
  storage := rfl
  direct := fun key h hh x => by
    obtain ⟨m, hm⟩ := exampleWithHandlers_directOk cfg key h hh x
    exact ⟨none, m, hm⟩
  keeps := by
    unfold exampleWithHandlers
    repeat (refine registerHandler_forall _ _ _ _ _ ?_ okHandler_keepsId)
    intro key h hh
    simp [exampleDispatcher, DispatchedStorage.RegisterRelation, Relation.Reversed,
      NewHasManyRelation, DispatchedStorage.registerRelation, NewDispatchedStorage] at hh
  ids := fun r hr => (by decide : ∀ r ∈ exampleDb.rows, r.id ≠ 0) r hr
  visible := fun _ h => h

theorem Delete_nontransactional (s : DispatchedStorage β) (fuel : Nat) (item : Item)
    (hnt : ¬ s.transactSupport = true) (m' : Model) (s' : DispatchedStorage β)
    (h : s.Delete fuel item = some (.returned none, m', s')) :
    s.delete fuel item .root = some (none, m', s') := by
  simp only [DispatchedStorage.Delete, DispatchedStorage.performWithTransaction, hnt,
    ↓reduceIte] at h
  cases hr : s.delete fuel item .root with
  | none => rw [hr] at h; simp [clearOnError] at h
  | some r =>
    obtain ⟨e, m, s1⟩ := r
    rw [hr] at h
    cases e with
    | some err => simp [clearOnError] at h
    | none =>
      simp only [clearOnError, Option.some.injEq, Prod.mk.injEq, true_and] at h
      obtain ⟨rfl, rfl⟩ := h
      rfl

theorem Delete_transactional (cfg : MemCfg) (s : DispatchedStorage MemDb) (fuel : Nat)
    (item : Item) (hst : s.storage = memStorage cfg) (htx : s.transactSupport = true)
    (hbegin : cfg.beginFails = false) (m' : Model) (s' : DispatchedStorage MemDb)
    (h : s.Delete fuel item = some (.returned none, m', s')) :
    ∃ s2, DispatchedStorage.delete
        { s.emit .txBegin with db := { s.db with work := some s.db.rows } } fuel item .tx =
        some (none, m', s2) ∧
      s' = { s2.emit .txCommit with
             db := { s2.db with rows := s2.db.work.getD s2.db.rows, work := none } } := by
  simp only [DispatchedStorage.Delete, DispatchedStorage.performWithTransaction, htx,
    ↓reduceIte, hst] at h
  simp only [memStorage, hbegin, Bool.false_eq_true, ↓reduceIte] at h
  split at h
  · cases h
  · rename_i err m1 s2 heq
    split at h <;> simp at h
  · rename_i m1 s2 heq
    have hfr : s2.storage = memStorage cfg := by
      unfold clearOnError at heq
      split at heq
      · cases heq
      · simp at heq
      · rename_i m3 s3 hrun
        simp only [Option.some.injEq, Prod.mk.injEq, true_and] at heq
        obtain ⟨_, rfl⟩ := heq
        have := run_Frame .tx fuel _ _ _ _ _ hrun
        rw [this.1]
        exact hst
    rw [hfr] at h
    simp only [memStorage] at h
    by_cases hcf : cfg.commitFails = true
    · simp [hcf] at h
    · simp only [hcf, Bool.false_eq_true, ↓reduceIte, Option.some.injEq, Prod.mk.injEq,
        true_and] at h
      obtain ⟨rfl, rfl⟩ := h
      refine ⟨s2, ?_, ?_⟩
      · unfold clearOnError at heq
        split at heq
        · cases heq
        · simp at heq
        · rename_i m3 s3 hrun
          simp only [Option.some.injEq, Prod.mk.injEq, true_and] at heq
          obtain ⟨rfl, rfl⟩ := heq
          exact hrun
      · rfl

theorem descendants_gone (t : Handle) (s s2 : DispatchedStorage MemDb) (item : Item)
    (hout : DeleteOutcome t s s2 item) :
    ∀ r, Descendant s.relations (s.db.view t) item.CollectionName item.id r →
      r ∈ s.db.view t ∧ r ∉ s2.db.view t := by
  intro r hr
  induction hr with
  | child c hc hch => exact ⟨hc, fun hc' => hout.2.2 c hc' hch⟩
  | step r c _ hc hch ih => exact ⟨hc, fun hc' => hout.1.closed r ih.1 ih.2 c hc' hch⟩

theorem Lookup_of_empty (c : ItemsCache) (hc : c.data = []) (p : Item) (id : Nat) :
    (c.Lookup p id).1 = false := by
  unfold ItemsCache.Lookup
  by_cases h0 : c.maxSize = 0
  · simp [h0]
  · simp [h0, hc, mapGet]

theorem clearOnError_error (r : Res β) (e : Error) (m : Model) (s' : DispatchedStorage β)
    (h : clearOnError r = some (some e, m, s')) : s'.cache.data = [] := by
  unfold clearOnError at h
  split at h
  · cases h
  · simp only [Option.some.injEq, Prod.mk.injEq] at h
    obtain ⟨_, _, rfl⟩ := h
    rfl
  · simp at h

/-- A public call that returns an error leaves every `Lookup` a miss, unless the
error is the one returned by the commit of the transaction. -/
theorem performWithTransaction_error_cache (s : DispatchedStorage β) (m0 : Model)
    (g : Handle → DispatchedStorage β → Res β) (e : Error) (m : Model)
    (s' : DispatchedStorage β)
    (h : s.performWithTransaction m0 (fun t s1 => clearOnError (g t s1)) =
      some (.returned (some e), m, s')) :
    (∀ p id, (s'.cache.Lookup p id).1 = false) ∨
      (s.transactSupport = true ∧ s'.log.getLast? = some .txCommit) := by
  unfold DispatchedStorage.performWithTransaction at h
  by_cases htx : s.transactSupport = true
  · simp only [htx, ↓reduceIte] at h
    split at h
    · simp at h
    · split at h
      · cases h
      · rename_i err m1 s2 heq
        have hc := clearOnError_error _ _ _ _ heq
        split at h
        · simp at h
        · simp only [Option.some.injEq, Prod.mk.injEq] at h
          obtain ⟨_, _, rfl⟩ := h
          exact Or.inl (fun p id => Lookup_of_empty _ hc p id)
      · rename_i m1 s2 heq
        simp only [Option.some.injEq, Prod.mk.injEq] at h
        obtain ⟨_, _, rfl⟩ := h
        exact Or.inr ⟨htx, by simp [DispatchedStorage.emit]⟩
  · simp only [htx, Bool.false_eq_true, ↓reduceIte] at h
    split at h
    · cases h
    · rename_i err m1 s2 heq
      simp only [Option.some.injEq, Prod.mk.injEq, Outcome.returned.injEq] at h
      obtain ⟨rfl, rfl, rfl⟩ := h
      have hc := clearOnError_error _ _ _ _ heq
      exact Or.inl (fun p id => Lookup_of_empty _ hc p id)

/-- Image 1 is a descendant of user 1 in the example data. -/
theorem exampleDescendant :
    Descendant (exampleWithHandlers plainCfg).relations (exampleWithHandlers plainCfg).db.rows
      "users" 1 ⟨"images", 1, [("users_id", .uint64 1), ("filename", .str "kitty1.jpg")]⟩ :=
  .child _ (by decide) ⟨NewHasManyRelation userProto imageProto, by decide, by decide⟩

theorem entry_set (data : List (String × List (Nat × Option Item))) (cname : String) (id : Nat)
    (v : Option Item) (cn : String) (i : Nat) :
    (mapGet (mapSet data cname (mapSet ((mapGet data cname).getD []) id v)) cn).bind
        (fun inner => mapGet inner i) =
      if cn = cname ∧ i = id then some v else (mapGet data cn).bind (fun inner => mapGet inner i) := by
  by_cases hc : cn = cname
  · subst hc
    rw [mapGet_mapSet_same]
    by_cases hi : i = id
    · subst hi
      simp [mapGet_mapSet_same]
    · simp only [Option.some_bind, hi, and_false, ↓reduceIte, mapGet_mapSet_ne _ _ _ _ hi]
      cases mapGet data cn with
      | none => simp [mapGet]
      | some inner => rfl
  · simp [mapGet_mapSet_ne _ _ _ _ hc, hc]

theorem Lookup_eq_entry (c : ItemsCache) (p : Item) (id : Nat) :
    c.Lookup p id =
      if c.maxSize = 0 then (false, p)
      else
        match c.entry p.CollectionName id with
        | some (some r) => if r.storable then (true, p.Fill id r.Fields) else (false, p)
        | _ => (false, p) := by
  unfold ItemsCache.Lookup ItemsCache.entry
  by_cases h0 : c.maxSize = 0
  · simp [h0]
  · simp only [h0, ↓reduceIte]
    cases mapGet c.data p.CollectionName with
    | none => simp
    | some inner => simp only [Option.some_bind]

theorem entry_Add (c : ItemsCache) (item : Item) (hcap : c.maxSize ≠ 0)
    (hnf : (c.itemsCount : Int) ≠ c.maxSize) (cn : String) (i : Nat) :
    (c.Add item).entry cn i =
      if cn = item.CollectionName ∧ i = item.id then some (some item) else c.entry cn i := by
  simp only [ItemsCache.Add, hcap, ↓reduceIte, hnf, ItemsCache.entry]
  exact entry_set _ _ _ _ _ _

theorem Add_at_capacity (c : ItemsCache) (item : Item) (hcap : c.maxSize ≠ 0)
    (hf : (c.itemsCount : Int) = c.maxSize) :
    c.Add item = { data := [(item.CollectionName, [(item.id, some item)])], itemsCount := 1,
                   maxSize := c.maxSize } := by
  simp [ItemsCache.Add, hcap, hf, ItemsCache.init, mapGet, mapSet]

theorem entry_Add_same (c : ItemsCache) (item : Item) (hcap : c.maxSize ≠ 0) :
    (c.Add item).entry item.CollectionName item.id = some (some item) := by
  by_cases hf : (c.itemsCount : Int) = c.maxSize
  · rw [Add_at_capacity c item hcap hf]
    simp [ItemsCache.entry, mapGet]
  · rw [entry_Add c item hcap hf]
    simp

theorem Add_maxSize (c : ItemsCache) (item : Item) : (c.Add item).maxSize = c.maxSize := by
  unfold ItemsCache.Add
  by_cases h0 : c.maxSize = 0
  · simp [h0]
  · by_cases hf : (c.itemsCount : Int) = c.maxSize <;> simp [h0, hf, ItemsCache.init]

theorem Remove_of_absent (c : ItemsCache) (x : Item)
    (h : c.entry x.CollectionName x.id = none) : c.Remove x = c := by
  unfold ItemsCache.Remove
  by_cases h0 : c.maxSize = 0
  · simp [h0]
  · simp only [h0, ↓reduceIte]
    unfold ItemsCache.entry at h
    cases hg : mapGet c.data x.CollectionName with
    | none => rfl
    | some inner =>
      rw [hg] at h
      simp only [Option.some_bind] at h
      simp [h]

theorem Remove_of_cached (c : ItemsCache) (x : Item) (hcap : c.maxSize ≠ 0) (v : Option Item)
    (h : c.entry x.CollectionName x.id = some v) :
    c.Remove x = { c with data := (mapSet c.data x.CollectionName
      (mapSet ((mapGet c.data x.CollectionName).getD []) x.id none)) } := by
  unfold ItemsCache.Remove
  simp only [hcap, ↓reduceIte]
  unfold ItemsCache.entry at h
  cases hg : mapGet c.data x.CollectionName with
  | none => rw [hg] at h; simp at h
  | some inner =>
    rw [hg] at h
    simp only [Option.some_bind] at h
    simp [h]

theorem mapSet_length_of_mem {κ α : Type} [DecidableEq κ] (m : List (κ × α)) (k : κ) (v v0 : α)
    (h : mapGet m k = some v0) : (mapSet m k v).length = m.length := by
  induction m with
  | nil => simp [mapGet] at h
  | cons a m ih =>
    obtain ⟨k', v'⟩ := a
    by_cases hk : k' = k
    · simp [mapSet, hk]
    · simp only [mapGet, hk, ↓reduceIte] at h
      simp [mapSet, hk, ih h]

theorem entryCount_mapSet (data : List (String × List (Nat × Option Item))) (cname : String)
    (inner inner1 : List (Nat × Option Item)) (h : mapGet data cname = some inner)
    (hlen : inner1.length = inner.length) :
    ((mapSet data cname inner1).map (fun kv => kv.2.length)).sum =
      (data.map (fun kv => kv.2.length)).sum := by
  induction data with
  | nil => simp [mapGet] at h
  | cons a m ih =>
    obtain ⟨k', v'⟩ := a
    by_cases hk : k' = cname
    · simp only [mapGet, hk, ↓reduceIte, Option.some.injEq] at h
      subst h
      simp [mapSet, hk, hlen]
    · simp only [mapGet, hk, ↓reduceIte] at h
      simp [mapSet, hk, ih h]

theorem applyAll_capacity_zero :
    ∀ ops : List CacheOp, (NewItemsCache 0).applyAll ops = NewItemsCache 0 := by
  intro ops
  unfold ItemsCache.applyAll
  induction ops with
  | nil => rfl
  | cons op rest ih =>
    rw [List.foldl_cons]
    have : (NewItemsCache 0).apply op = NewItemsCache 0 := by
      cases op <;> rfl
    rw [this]
    exact ih

theorem Lookup_miss (c : ItemsCache) (p : Item) (id : Nat) (h : (c.Lookup p id).1 = false) :
    c.Lookup p id = (false, p) := by
  rw [Lookup_eq_entry] at h ⊢
  by_cases h0 : c.maxSize = 0
  · simp [h0]
  · simp only [h0, ↓reduceIte] at h ⊢
    cases he : c.entry p.CollectionName id with
    | none => rfl
    | some v =>
      cases v with
      | none => rfl
      | some r =>
        rw [he] at h
        by_cases hr : r.storable = true
        · simp [hr] at h
        · simp [hr]

theorem Lookup_hit (c : ItemsCache) (p : Item) (id : Nat) (h : (c.Lookup p id).1 = true) :
    c.maxSize ≠ 0 ∧ ∃ r, c.entry p.CollectionName id = some (some r) ∧ r.storable = true ∧
      c.Lookup p id = (true, p.Fill id r.Fields) := by
  rw [Lookup_eq_entry] at h ⊢
  by_cases h0 : c.maxSize = 0
  · simp [h0] at h
  · simp only [h0, ↓reduceIte] at h ⊢
    refine ⟨h0, ?_⟩
    cases he : c.entry p.CollectionName id with
    | none => rw [he] at h; simp at h
    | some v =>
      cases v with
      | none => rw [he] at h; simp at h
      | some r =>
        rw [he] at h
        by_cases hr : r.storable = true
        · exact ⟨r, rfl, hr, by simp [hr]⟩
        · simp [hr] at h

theorem Fill_Fill (x : Item) (id : Nat) (f : Option (List (String × Value))) :
    (x.Fill id f).Fill id f = x.Fill id f := by
  cases f <;> rfl

theorem Fill_own (x : Item) : x.Fill x.id x.Fields = x := by
  obtain ⟨⟨i, f⟩, c, k, st, fg⟩ := x
  cases f <;> rfl

theorem Fill_fields (x : Item) (id : Nat) (f : Option (List (String × Value))) (hf : f ≠ none) :
    (x.Fill id f).Fields = f := by
  cases f with
  | none => exact absurd rfl hf
  | some fs => rfl

theorem Load_miss_lemma {β : Type} (s : DispatchedStorage β) (dst : Item) (id : Nat)
    (hmiss : (s.cache.Lookup dst id).1 = false) :
    (∀ err m, s.storage.Load .root dst id s.db = (some err, m) →
      s.Load dst id = (some err, dst.withModel m,
        { s with log := (s.log ++ [.storageLoad .root dst.CollectionName id]) })) ∧
    (∀ m, s.storage.Load .root dst id s.db = (none, m) →
      s.Load dst id = (none, dst.withModel m,
        { s with cache := (s.cache.Add (dst.withModel m)),
                 log := (s.log ++ [.storageLoad .root dst.CollectionName id] ++
                          [.cacheAdd dst.CollectionName m.id]) })) := by
  have hl := Lookup_miss s.cache dst id hmiss
  refine ⟨?_, ?_⟩
  · intro err m hb
    simp only [DispatchedStorage.Load, hl, hb, DispatchedStorage.emit]
  · intro m hb
    simp only [DispatchedStorage.Load, hl, hb, DispatchedStorage.emit]

theorem pullTrigger_noHandlers (rec : Call → DispatchedStorage β → Res β) (item : Item)
    (name : String) (s : DispatchedStorage β) (h : s.triggers (fullNameOf item name) = []) :
    pullTrigger rec item name s =
      some (none, item.toModel, s.emit (.pulled (fullNameOf item name) item.id)) := by
  rw [pullTrigger_eq, h]
  rfl

theorem deleteRelatedLoop_noChildren (rec : Call → DispatchedStorage β → Res β) (forItem : Item) :
    ∀ (rels : List Relation) (s : DispatchedStorage β),
      (∀ rel ∈ rels, s.storage.Select .root rel.To [] 0 none 0 (fkCondition rel)
        [Value.uint64 forItem.id] s.db = (none, [])) →
      deleteRelatedLoop rec forItem rels s =
        some (none, { s with log := (s.log ++ rels.map (fun rel =>
          Event.storageSelect .root rel.To.CollectionName (fkCondition rel)
            [Value.uint64 forItem.id])) }) := by
  intro rels
  induction rels with
  | nil => intro s _; simp [deleteRelatedLoop]
  | cons rel rels ih =>
    intro s h
    have h1 := h rel (List.mem_cons_self _ _)
    have h2 := ih (s.emit (.storageSelect .root rel.To.CollectionName (fkCondition rel)
      [Value.uint64 forItem.id])) (fun r hr => h r (List.mem_cons_of_mem _ hr))
    simp only [deleteRelatedLoop, h1, deleteEach, h2]
    simp [DispatchedStorage.emit]

theorem Reversed_eq (r : Relation) : r.Reversed = some (reverseOf r) := by
  obtain ⟨f, t, fk, ty, g⟩ := r
  cases ty <;> rfl

theorem reversedType_ne (t : RelationType) : reversedType t ≠ t := by
  cases t <;> decide

theorem RegisterRelation_eq (s : DispatchedStorage β) (r : Relation) :
    s.RegisterRelation r = (s.registerRelation r).registerRelation (reverseOf r) := by
  simp [DispatchedStorage.RegisterRelation, Reversed_eq]

theorem lookup_registerRelation (s : DispatchedStorage β) (r : Relation) (frm dst : Item)
    (t : RelationType) :
    (s.registerRelation r).lookupRelationBetween frm dst t =
      if frm.CollectionName = r.From.CollectionName ∧ t = r.Typ then
        (s.lookupRelationBetween frm dst t).or
          (if r.To.CollectionName = dst.CollectionName then some r else none)
      else s.lookupRelationBetween frm dst t := by
  unfold DispatchedStorage.lookupRelationBetween DispatchedStorage.registerRelation
  by_cases h : frm.CollectionName = r.From.CollectionName ∧ t = r.Typ
  · simp only [h, and_self, ↓reduceIte, List.find?_append]
    congr 1
    by_cases hd : r.To.CollectionName = dst.CollectionName <;> simp [List.find?, hd]
  · simp only [h, ↓reduceIte]

theorem lookup_registerRelation_some (s : DispatchedStorage β) (r : Relation) (frm dst : Item)
    (t : RelationType) (r0 : Relation) (h : s.lookupRelationBetween frm dst t = some r0) :
    (s.registerRelation r).lookupRelationBetween frm dst t = some r0 := by
  rw [lookup_registerRelation, h]
  by_cases hk : frm.CollectionName = r.From.CollectionName ∧ t = r.Typ <;> simp [hk]

theorem lookup_RegisterRelation_some (s : DispatchedStorage β) (r : Relation) (frm dst : Item)
    (t : RelationType) (r0 : Relation) (h : s.lookupRelationBetween frm dst t = some r0) :
    (s.RegisterRelation r).lookupRelationBetween frm dst t = some r0 := by
  rw [RegisterRelation_eq]
  exact lookup_registerRelation_some _ _ _ _ _ _ (lookup_registerRelation_some _ _ _ _ _ _ h)

theorem lookup_registerAll_some (frm dst : Item) (t : RelationType) (r0 : Relation) :
    ∀ (rs : List Relation) (s : DispatchedStorage β),
      s.lookupRelationBetween frm dst t = some r0 →
      (registerAll s rs).lookupRelationBetween frm dst t = some r0 := by
  intro rs
  induction rs with
  | nil => intro s h; exact h
  | cons r rs ih =>
    intro s h
    exact ih (s.RegisterRelation r) (lookup_RegisterRelation_some s r frm dst t r0 h)

theorem lookup_congr (s : DispatchedStorage β) (frm frm1 dst dst1 : Item) (t : RelationType)
    (hf : frm.CollectionName = frm1.CollectionName) (hd : dst.CollectionName = dst1.CollectionName) :
    s.lookupRelationBetween frm dst t = s.lookupRelationBetween frm1 dst1 t := by
  simp [DispatchedStorage.lookupRelationBetween, hf, hd]

theorem lookup_RegisterRelation_first (s : DispatchedStorage β) (r : Relation)
    (hnone : s.lookupRelationBetween r.From r.To r.Typ = none) :
    (s.RegisterRelation r).lookupRelationBetween r.From r.To r.Typ = some r := by
  rw [RegisterRelation_eq, lookup_registerRelation, lookup_registerRelation, hnone]
  have hne : ¬ (r.From.CollectionName = (reverseOf r).From.CollectionName ∧
      r.Typ = (reverseOf r).Typ) := fun h => reversedType_ne r.Typ h.2.symm
  simp [hne]

theorem lookup_RegisterRelation_reverse (s : DispatchedStorage β) (r : Relation)
    (hnone : s.lookupRelationBetween r.To r.From (reversedType r.Typ) = none) :
    (s.RegisterRelation r).lookupRelationBetween r.To r.From (reversedType r.Typ) =
      some (reverseOf r) := by
  rw [RegisterRelation_eq, lookup_registerRelation, lookup_registerRelation, hnone]
  have hne : ¬ (r.To.CollectionName = r.From.CollectionName ∧ reversedType r.Typ = r.Typ) :=
    fun h => reversedType_ne r.Typ h.2
  simp [hne, reverseOf]

theorem append_mid_inj (x a b z : String) : x ++ a ++ z = x ++ b ++ z ↔ a = b := by
  constructor
  · intro h
    have := congrArg String.data h
    simp only [String.data_append, List.append_assoc, List.append_cancel_left_eq,
      List.append_cancel_right_eq] at this
    exact String.ext this
  · intro h
    rw [h]

theorem fkCondition_ne_empty (rel : Relation) : fkCondition rel ≠ "" := by
  intro h
  have := congrArg String.data h
  simp [fkCondition, String.data_append] at this

theorem any_absent_key (fk : String) (p : Value → Bool) :
    ∀ fields : List (String × Value), fk ∉ fields.map Prod.fst →
      fields.any (fun fv => decide (fv.1 = fk) && p fv.2) = false := by
  intro fields
  induction fields with
  | nil => intro _; rfl
  | cons kv rest ih =>
    intro h
    simp only [List.map_cons, List.mem_cons, not_or] at h
    have hk : ¬ kv.1 = fk := fun e => h.1 e.symm
    simp [List.any_cons, hk, ih h.2]

theorem any_key_eq_mapGet (fk : String) (p : Value → Bool) :
    ∀ fields : List (String × Value), (fields.map Prod.fst).Nodup →
      fields.any (fun fv => decide (fv.1 = fk) && p fv.2) =
        match mapGet fields fk with
        | some v => p v
        | none => false := by
  intro fields
  induction fields with
  | nil => intro _; rfl
  | cons kv rest ih =>
    intro h
    obtain ⟨k, v⟩ := kv
    simp only [List.map_cons, List.nodup_cons] at h
    by_cases hk : k = fk
    · subst hk
      simp [List.any_cons, mapGet, any_absent_key k p rest h.1]
    · simp [List.any_cons, mapGet, hk, ih h.2]

theorem valueMatches_uint64 (v : Value) (id : Nat) (hid : id < 2 ^ 64) :
    valueMatches v (.uint64 id) = decide (uint64Value v = (id, true)) := by
  have hm : id % 18446744073709551616 = id := Nat.mod_eq_of_lt hid
  cases v <;> simp [valueMatches, uint64Value, hm]

theorem rowMatches_fk (rel : Relation) (id : Nat) (hid : id < 2 ^ 64) (r : Row)
    (hn : (r.fields.map Prod.fst).Nodup) :
    rowMatches rel.To.CollectionName (fkCondition rel) [Value.uint64 id] r =
      (decide (r.collection = rel.To.CollectionName) && r.fkIs rel.ForeignKey id) := by
  unfold rowMatches Row.fkIs
  have hany : (r.fields.any (fun fv =>
      decide (fkCondition rel = "`" ++ rel.To.CollectionName ++ "`.`" ++ fv.1 ++ "`=?") &&
        valueMatches fv.2 ([Value.uint64 id].headD .nil))) =
      r.fields.any (fun fv => decide (fv.1 = rel.ForeignKey) &&
        decide (uint64Value fv.2 = (id, true))) := by
    congr 1
    funext fv
    have h1 : (fkCondition rel = "`" ++ rel.To.CollectionName ++ "`.`" ++ fv.1 ++ "`=?") ↔
        fv.1 = rel.ForeignKey := by
      unfold fkCondition
      rw [append_mid_inj]
      exact eq_comm
    simp only [List.headD_cons, valueMatches_uint64 _ _ hid, decide_eq_decide.mpr h1]
  rw [hany, any_key_eq_mapGet _ (fun v => decide (uint64Value v = (id, true))) _ hn]
  simp [fkCondition_ne_empty]

theorem Load_stored (cfg : MemCfg) (s : DispatchedStorage MemDb) (p : Item) (id : Nat)
    (hstorage : s.storage = memStorage cfg)
    (hrow : ∃ prow ∈ s.db.rows, prow.collection = p.CollectionName ∧ prow.id = id) :
    (s.Load p id).1 = none ∧ (s.Load p id).2.1.id = id := by
  cases hh : (s.cache.Lookup p id).1 with
  | true =>
    obtain ⟨_, r, _, _, hl⟩ := Lookup_hit s.cache p id hh
    have h1 : s.Load p id = (none, p.Fill id r.Fields, s) := by
      simp only [DispatchedStorage.Load, hl]
    rw [h1]
    exact ⟨rfl, by cases r.Fields <;> rfl⟩
  | false =>
    have hsome : ((s.db.view .root).find?
        (fun r => decide (r.collection = p.CollectionName ∧ r.id = id))).isSome = true := by
      rw [List.find?_isSome]
      obtain ⟨prow, hmem, hc, hi⟩ := hrow
      exact ⟨prow, hmem, by simp [hc, hi]⟩
    cases hf : (s.db.view .root).find?
        (fun r => decide (r.collection = p.CollectionName ∧ r.id = id)) with
    | none => rw [hf] at hsome; simp at hsome
    | some r =>
      have hp := List.find?_some hf
      simp only [decide_eq_true_eq] at hp
      have hb : s.storage.Load .root p id s.db = (none, p.toModel.Fill r.id (some r.fields)) := by
        rw [hstorage]
        simp only [memStorage, hf]
      rw [(Load_miss_lemma s p id hh).2 _ hb]
      exact ⟨rfl, hp.2⟩

theorem save_plain (s : DispatchedStorage β) (n : Nat) (x : Item) (t : Handle)
    (hrel : s.getRelationsOfType x .BELONGS_TO = [])
    (hx : ∀ name, s.triggers (fullNameOf x name) = [])
    (m4 : Model) (db4 : β) (hw : s.storage.Save t x s.db = (none, m4, db4)) :
    s.save (n + 1) x t = some (none, m4,
      { s with db := db4, cache := (s.cache.Add (x.withModel m4)),
               log := (s.log ++ plainSaveEvents t x m4.id) }) := by
  have hpre : (if x.id > 0 then UPDATE else CREATE) = (if x.id = 0 then CREATE else UPDATE) := by
    by_cases h0 : x.id = 0 <;> simp [h0, Nat.pos_iff_ne_zero]
  have hpost : (if x.id > 0 then UPDATED else CREATED) =
      (if x.id = 0 then CREATED else UPDATED) := by
    by_cases h0 : x.id = 0 <;> simp [h0, Nat.pos_iff_ne_zero]
  have hw1 : x.withModel x.toModel = x := rfl
  have hfn : ∀ m name, fullNameOf (x.withModel m) name = fullNameOf x name := fun _ _ => rfl
  simp only [DispatchedStorage.save, run, saveBody, DispatchedStorage.checkRelated, hrel,
    checkRelatedLoop, hpre, hpost, pullTrigger_eq, DispatchedStorage.emit, hx, pullLoop, hw1, hw,
    hfn]
  simp [plainSaveEvents, Item.withModel]

theorem pullTrigger_savingHandler (s : DispatchedStorage β) (n : Nat) (i : Item) (t : Handle)
    (name : String) (mk : Item → Item)
    (hlist : s.triggers (fullNameOf i name) = [savingHandler mk]) :
    pullTrigger (run t (n + 2)) i name s =
      (((s.emit (.pulled (fullNameOf i name) i.id)).emit (.fired (fullNameOf i name) 0)).save
        (n + 1) (mk i) t).map (fun r => (r.1, i.toModel, r.2.2)) := by
  have hw1 : i.withModel i.toModel = i := rfl
  rw [pullTrigger_eq, hlist]
  simp only [pullLoop, hw1, savingHandler, run, progBody, DispatchedStorage.save]
  cases hr : saveBody (run t n) t (mk i)
      ((s.emit (.pulled (fullNameOf i name) i.id)).emit (.fired (fullNameOf i name) 0)) with
  | none => rfl
  | some r =>
    obtain ⟨e, m, s1⟩ := r
    cases e <;> rfl

theorem pullTrigger_directOk_at (t : Handle) (n : Nat) (item : Item) (name : String)
    (s : DispatchedStorage β) (db : β) (c : ItemsCache) (L : List Event)
    (hd : ∀ h ∈ s.triggers (fullNameOf item name), DirectOk h) :
    ∃ m' ev, pullTrigger (run t (n + 1)) item name { s with db := db, cache := c, log := L } =
      some (none, m', { s with db := db, cache := c, log := (L ++ ev) }) := by
  obtain ⟨m', h⟩ := pullTrigger_directOk t n item name { s with db := db, cache := c, log := L } hd
  exact ⟨m', Event.pulled (fullNameOf item name) item.id ::
    firedRange (fullNameOf item name) 0 (s.triggers (fullNameOf item name)).length, h⟩

theorem pullTrigger_savingHandler_at (s : DispatchedStorage β) (n : Nat) (i : Item) (t : Handle)
    (name : String) (mk : Item → Item) (db dbF : β) (c : ItemsCache) (L : List Event) (mx : Model)
    (hlist : s.triggers (fullNameOf i name) = [savingHandler mk])
    (hx : ∀ nm, s.triggers (fullNameOf (mk i) nm) = [])
    (hxrel : s.getRelationsOfType (mk i) .BELONGS_TO = [])
    (hw : s.storage.Save t (mk i) db = (none, mx, dbF)) :
    pullTrigger (run t (n + 2)) i name { s with db := db, cache := c, log := L } =
      some (none, i.toModel,
        { s with db := dbF, cache := (c.Add ((mk i).withModel mx)),
                 log := (L ++ [.pulled (fullNameOf i name) i.id, .fired (fullNameOf i name) 0] ++
                   plainSaveEvents t (mk i) mx.id) }) := by
  rw [pullTrigger_savingHandler { s with db := db, cache := c, log := L } n i t name mk hlist]
  have h := save_plain
    (({ s with db := db, cache := c, log := L }.emit (.pulled (fullNameOf i name) i.id)).emit
      (.fired (fullNameOf i name) 0)) n (mk i) t hxrel hx mx dbF hw
  rw [h]
  simp [DispatchedStorage.emit]

theorem save_with_savingHandler_at (s : DispatchedStorage β) (n : Nat) (item : Item) (t : Handle)
    (mk : Item → Item) (db : β) (c : ItemsCache) (L : List Event)
    (hcheck : (DispatchedStorage.checkRelated { s with db := db, cache := c, log := L } item).1 =
      none)
    (hwrite : ∀ h y d, (s.storage.Save h y d).1 = none)
    (hother : ∀ name, name ≠ (if item.id = 0 then CREATED else UPDATED) →
      ∀ h ∈ s.triggers (fullNameOf item name), DirectOk h)
    (hpost : s.triggers (fullNameOf item (if item.id = 0 then CREATED else UPDATED)) =
      [savingHandler mk])
    (hx : ∀ i nm, s.triggers (fullNameOf (mk i) nm) = [])
    (hxrel : ∀ i, s.getRelationsOfType (mk i) .BELONGS_TO = []) :
    ∃ m4 m6 mx db4 dbF pre post,
      s.storage.Save t (mk (item.withModel m4)) db4 = (none, mx, dbF) ∧
      DispatchedStorage.save { s with db := db, cache := c, log := L } (n + 3) item t =
        some (none, m6,
          { s with db := dbF,
                   cache := ((c.Add ((mk (item.withModel m4)).withModel mx)).Add
                     (item.withModel m6)),
                   log := (L ++ pre ++ plainSaveEvents t (mk (item.withModel m4)) mx.id ++
                     post) }) := by
  have hpre : (if item.id > 0 then UPDATE else CREATE) = (if item.id = 0 then CREATE else UPDATE) := by
    by_cases h0 : item.id = 0 <;> simp [h0, Nat.pos_iff_ne_zero]
  have hpost2 : (if item.id > 0 then UPDATED else CREATED) =
      (if item.id = 0 then CREATED else UPDATED) := by
    by_cases h0 : item.id = 0 <;> simp [h0, Nat.pos_iff_ne_zero]
  have hneS : SAVE ≠ (if item.id = 0 then CREATED else UPDATED) := by
    by_cases h0 : item.id = 0 <;> simp only [h0, ↓reduceIte] <;> decide
  have hneX : (if item.id = 0 then CREATE else UPDATE) ≠
      (if item.id = 0 then CREATED else UPDATED) := by
    by_cases h0 : item.id = 0 <;> simp only [h0, ↓reduceIte] <;> decide
  have hneD : SAVED ≠ (if item.id = 0 then CREATED else UPDATED) := by
    by_cases h0 : item.id = 0 <;> simp only [h0, ↓reduceIte] <;> decide
  generalize hX : (if item.id = 0 then CREATE else UPDATE) = X at hpre hneX
  generalize hY : (if item.id = 0 then CREATED else UPDATED) = Y at hpost2 hneS hneX hneD hother hpost
  obtain ⟨loads, hloads, _⟩ := checkRelatedLoop_log item
    (DispatchedStorage.getRelationsOfType { s with db := db, cache := c, log := L } item
      .BELONGS_TO) { s with db := db, cache := c, log := L }
  have hc : DispatchedStorage.checkRelated { s with db := db, cache := c, log := L } item =
      (none, { s with db := db, cache := c, log := (L ++ loads) }) := by
    refine Prod.ext hcheck ?_
    rw [checkRelated_frame]
    simp only [DispatchedStorage.checkRelated]
    rw [hloads]
  obtain ⟨m2, ev2, h2⟩ := pullTrigger_directOk_at t (n + 1) item SAVE s db c (L ++ loads)
    (hother SAVE hneS)
  obtain ⟨m3, ev3, h3⟩ := pullTrigger_directOk_at t (n + 1) (item.withModel m2) X s db c
    (L ++ loads ++ ev2) (hother X hneX)
  rcases hsv : s.storage.Save t (item.withModel m3) db with ⟨e4, m4, db4⟩
  have he4 : e4 = none := by have := hwrite t (item.withModel m3) db; rw [hsv] at this; exact this
  subst he4
  rcases hsx : s.storage.Save t (mk (item.withModel m4)) db4 with ⟨ex, mx, dbF⟩
  have hex : ex = none := by
    have := hwrite t (mk (item.withModel m4)) db4; rw [hsx] at this; exact this
  subst hex
  have h5 := pullTrigger_savingHandler_at s n (item.withModel m4) t Y mk db4 dbF c
    (L ++ loads ++ ev2 ++ ev3 ++ [Event.storageSave t item.CollectionName m3.id]) mx hpost
    (hx _) (hxrel _) hsx
  obtain ⟨m6, ev6, h6⟩ := pullTrigger_directOk_at t (n + 1) (item.withModel m4) SAVED s dbF
    (c.Add ((mk (item.withModel m4)).withModel mx))
    (L ++ loads ++ ev2 ++ ev3 ++ [Event.storageSave t item.CollectionName m3.id] ++
      [.pulled (fullNameOf (item.withModel m4) Y) m4.id,
       .fired (fullNameOf (item.withModel m4) Y) 0] ++
      plainSaveEvents t (mk (item.withModel m4)) mx.id) (hother SAVED hneD)
  refine ⟨m4, m6, mx, db4, dbF,
    loads ++ ev2 ++ ev3 ++ [Event.storageSave t item.CollectionName m3.id] ++
      [.pulled (fullNameOf (item.withModel m4) Y) m4.id,
       .fired (fullNameOf (item.withModel m4) Y) 0],
    ev6 ++ [Event.cacheAdd item.CollectionName m6.id], hsx, ?_⟩
  have hw4 : (item.withModel m4).withModel m4 = item.withModel m4 := rfl
  simp only [DispatchedStorage.save, run, saveBody, hc, hpre, hpost2]
  rw [h2]
  simp only []
  rw [h3]
  simp only [Item.withModel] at hsv ⊢
  simp only [hsv, DispatchedStorage.emit]
  simp only [Item.withModel] at h5 h6
  rw [h5]
  simp only []
  rw [h6]
  simp [List.append_assoc]

theorem memStorage_save_keeps (cfg : MemCfg) (hcfg : cfg.saveFails = false) (h : Handle)
    (y : Item) (d : MemDb) :
    ((memStorage cfg).Save h y d).1 = none ∧ ((memStorage cfg).Save h y d).2.1.fields = y.fields := by
  by_cases h0 : y.id = 0 <;> simp [memStorage, hcfg, h0, Model.Fill]

theorem fullNameOf_inj (item : Item) (a b : String) :
    fullNameOf item a = fullNameOf item b ↔ a = b := by
  unfold fullNameOf
  constructor
  · intro h
    have := congrArg String.data h
    simp only [String.data_append, List.append_cancel_left_eq] at this
    exact String.ext this
  · intro h
    rw [h]

theorem counterDispatcher_triggers (cfg : MemCfg) (key : String) :
    (counterDispatcher cfg).triggers key =
      if key = "images.created" then [savingHandler (fun _ => bumpedUser)] else [] := by
  unfold counterDispatcher DispatchedStorage.RegisterHandler
  by_cases hk : key = "images.created"
  · subst hk
    rfl
  · have hk2 : ¬ key = imageProto.CollectionName ++ "." ++ CREATED := hk
    simp only [hk, hk2, ↓reduceIte]
    rfl

theorem counterDispatcher_users (cfg : MemCfg) (nm : String) :
    (counterDispatcher cfg).triggers (fullNameOf bumpedUser nm) = [] := by
  rw [counterDispatcher_triggers]
  have hne : ¬ fullNameOf bumpedUser nm = "images.created" := by
    intro h
    have := congrArg String.data h
    simp [fullNameOf, String.data_append, bumpedUser, userProto] at this
  simp [hne]

theorem counterDispatcher_images (cfg : MemCfg) (nm : String) (hne : nm ≠ CREATED) :
    (counterDispatcher cfg).triggers (fullNameOf newImage nm) = [] := by
  rw [counterDispatcher_triggers]
  have hk : ¬ fullNameOf newImage nm = "images.created" := by
    intro h
    have h2 : fullNameOf newImage nm = fullNameOf newImage CREATED := h
    exact hne ((fullNameOf_inj newImage nm CREATED).mp h2)
  simp [hk]

theorem Load_after_two_adds (c : ItemsCache) (x y p : Item) (hcap : c.maxSize ≠ 0)
    (hroom : ((c.Add x).itemsCount : Int) ≠ c.maxSize) (hst : x.storable = true)
    (hne : x.CollectionName ≠ y.CollectionName) (hp : p.CollectionName = x.CollectionName) :
    ((c.Add x).Add y).entry x.CollectionName x.id = some (some x) ∧
    ((c.Add x).Add y).Lookup p x.id = (true, p.Fill x.id x.Fields) := by
  have hcap1 : (c.Add x).maxSize ≠ 0 := by rw [Add_maxSize]; exact hcap
  have hroom1 : (((c.Add x).itemsCount : Int)) ≠ (c.Add x).maxSize := by
    rw [Add_maxSize]; exact hroom
  have he : ((c.Add x).Add y).entry x.CollectionName x.id = some (some x) := by
    rw [entry_Add (c.Add x) y hcap1 hroom1]
    have hk : ¬ (x.CollectionName = y.CollectionName ∧ x.id = y.id) := fun h => hne h.1
    simp only [hk, ↓reduceIte]
    exact entry_Add_same c x hcap
  refine ⟨he, ?_⟩
  rw [Lookup_eq_entry, hp, he]
  simp [Add_maxSize, hcap, hst]

theorem fresh_cache_room (y : Item) :
    (((NewItemsCache 100).Add y).itemsCount : Int) ≠ (NewItemsCache 100).maxSize := by
  simp [ItemsCache.Add, NewItemsCache]

theorem mapSet_length_le {κ α : Type} [DecidableEq κ] (m : List (κ × α)) (k : κ) (v : α) :
    (mapSet m k v).length ≤ m.length + 1 := by
  induction m with
  | nil => simp [mapSet]
  | cons a m ih =>
    obtain ⟨k', v'⟩ := a
    by_cases hk : k' = k
    · simp [mapSet, hk]
    · simp only [mapSet, hk, ↓reduceIte, List.length_cons]
      omega

theorem entryCount_mapSet_le (data : List (String × List (Nat × Option Item))) (cname : String)
    (inner1 : List (Nat × Option Item))
    (hlen : inner1.length ≤ ((mapGet data cname).getD []).length + 1) :
    ((mapSet data cname inner1).map (fun kv => kv.2.length)).sum ≤
      (data.map (fun kv => kv.2.length)).sum + 1 := by
  induction data with
  | nil => simpa [mapSet, mapGet] using hlen
  | cons a m ih =>
    obtain ⟨k', v'⟩ := a
    by_cases hk : k' = cname
    · simp only [mapGet, hk, ↓reduceIte, Option.getD_some] at hlen
      simp only [mapSet, hk, ↓reduceIte, List.map_cons, List.sum_cons]
      omega
    · simp only [mapGet, hk, ↓reduceIte] at hlen
      have := ih hlen
      simp only [mapSet, hk, ↓reduceIte, List.map_cons, List.sum_cons]
      omega

theorem Remove_counts (c : ItemsCache) (x : Item) :
    (c.Remove x).itemsCount = c.itemsCount ∧ (c.Remove x).entryCount = c.entryCount ∧
      (c.Remove x).maxSize = c.maxSize := by
  by_cases h0 : c.maxSize = 0
  · simp [ItemsCache.Remove, h0]
  · cases he : c.entry x.CollectionName x.id with
    | none => rw [Remove_of_absent c x he]; exact ⟨rfl, rfl, rfl⟩
    | some v =>
      rw [Remove_of_cached c x h0 v he]
      refine ⟨rfl, ?_, rfl⟩
      unfold ItemsCache.entry at he
      cases hg : mapGet c.data x.CollectionName with
      | none => rw [hg] at he; simp at he
      | some inner =>
        rw [hg] at he
        simp only [Option.some_bind] at he
        simp only [ItemsCache.entryCount, Option.getD_some]
        exact entryCount_mapSet _ _ inner _ hg (mapSet_length_of_mem _ _ _ _ he)

theorem Add_counts (c : ItemsCache) (x : Item) (hpos : 0 < c.maxSize)
    (hle : (c.itemsCount : Int) ≤ c.maxSize) (hent : c.entryCount ≤ c.itemsCount) :
    ((c.Add x).itemsCount : Int) ≤ c.maxSize ∧ (c.Add x).entryCount ≤ (c.Add x).itemsCount ∧
      (c.Add x).maxSize = c.maxSize := by
  have h0 : c.maxSize ≠ 0 := by omega
  by_cases hf : (c.itemsCount : Int) = c.maxSize
  · rw [Add_at_capacity c x h0 hf]
    refine ⟨?_, by simp [ItemsCache.entryCount], rfl⟩
    show ((1 : Nat) : Int) ≤ c.maxSize
    omega
  · have hadd : c.Add x = { c with
        data := (mapSet c.data x.CollectionName
          (mapSet ((mapGet c.data x.CollectionName).getD []) x.id (some x))),
        itemsCount := c.itemsCount + 1 } := by
      simp [ItemsCache.Add, h0, hf]
    rw [hadd]
    refine ⟨?_, ?_, rfl⟩
    · show ((c.itemsCount + 1 : Nat) : Int) ≤ c.maxSize
      omega
    · have := entryCount_mapSet_le c.data x.CollectionName
        (mapSet ((mapGet c.data x.CollectionName).getD []) x.id (some x))
        (mapSet_length_le _ _ _)
      simp only [ItemsCache.entryCount] at hent ⊢
      omega

theorem applyAll_counts (maxSize : Int) (hpos : 0 < maxSize) :
    ∀ (ops : List CacheOp) (c : ItemsCache), c.maxSize = maxSize →
      (c.itemsCount : Int) ≤ maxSize → c.entryCount ≤ c.itemsCount →
      ((c.applyAll ops).itemsCount : Int) ≤ maxSize ∧
        (c.applyAll ops).entryCount ≤ (c.applyAll ops).itemsCount ∧
        (c.applyAll ops).maxSize = maxSize := by
  intro ops
  induction ops with
  | nil => intro c hm hle hent; exact ⟨hle, hent, hm⟩
  | cons op rest ih =>
    intro c hm hle hent
    have hstep : (c.apply op).maxSize = maxSize ∧ ((c.apply op).itemsCount : Int) ≤ maxSize ∧
        (c.apply op).entryCount ≤ (c.apply op).itemsCount := by
      cases op with
      | add item =>
        obtain ⟨h1, h2, h3⟩ := Add_counts c item (by rw [hm]; exact hpos) (by rw [hm]; exact hle)
          hent
        exact ⟨h3.trans hm, by rw [hm] at h1; exact h1, h2⟩
      | remove item =>
        obtain ⟨h1, h2, h3⟩ := Remove_counts c item
        simp only [ItemsCache.apply]
        rw [h1, h2, h3]
        exact ⟨hm, hle, hent⟩
      | clear =>
        refine ⟨hm, ?_, ?_⟩
        · show ((0 : Nat) : Int) ≤ maxSize
          omega
        · simp [ItemsCache.apply, ItemsCache.Clear, ItemsCache.init, ItemsCache.entryCount]
      | lookup p id => exact ⟨hm, hle, hent⟩
    exact ih (c.apply op) hstep.1 hstep.2.1 hstep.2.2

theorem last_dot_split :
    ∀ (l1 l2 e1 e2 : List Char), '.' ∉ e1 → '.' ∉ e2 →
      l1 ++ '.' :: e1 = l2 ++ '.' :: e2 → l1 = l2 ∧ e1 = e2 := by
  intro l1
  induction l1 with
  | nil =>
    intro l2 e1 e2 h1 _ h
    cases l2 with
    | nil =>
      simp only [List.nil_append, List.cons.injEq, true_and] at h
      exact ⟨rfl, h⟩
    | cons b l2 =>
      simp only [List.nil_append, List.cons_append, List.cons.injEq] at h
      exact absurd (by rw [h.2]; simp) h1
  | cons a l1 ih =>
    intro l2 e1 e2 h1 h2 h
    cases l2 with
    | nil =>
      simp only [List.nil_append, List.cons_append, List.cons.injEq] at h
      exact absurd (by rw [← h.2]; simp) h2
    | cons b l2 =>
      simp only [List.cons_append, List.cons.injEq] at h
      obtain ⟨hl, he⟩ := ih l2 e1 e2 h1 h2 h.2
      exact ⟨by rw [h.1, hl], he⟩

theorem fullNameOf_pair_inj (a b : Item) (e1 e2 : String) (h1 : '.' ∉ e1.data)
    (h2 : '.' ∉ e2.data) :
    fullNameOf a e1 = fullNameOf b e2 ↔ a.CollectionName = b.CollectionName ∧ e1 = e2 := by
  constructor
  · intro h
    have hd := congrArg String.data h
    simp only [fullNameOf, String.data_append, List.append_assoc] at hd
    simp only [List.singleton_append] at hd
    obtain ⟨hc, he⟩ := last_dot_split _ _ _ _ h1 h2 hd
    exact ⟨String.ext hc, String.ext he⟩
  · intro h
    unfold fullNameOf
    rw [h.1, h.2]

theorem RegisterHandler_triggers (s : DispatchedStorage β) (forItem item : Item)
    (e e1 : String) (h : Handler) (he : '.' ∉ e.data) (he1 : '.' ∉ e1.data) :
    (s.RegisterHandler forItem e h).triggers (fullNameOf item e1) =
      if item.CollectionName = forItem.CollectionName ∧ e1 = e then
        s.triggers (fullNameOf item e1) ++ [h]
      else s.triggers (fullNameOf item e1) := by
  have hiff := fullNameOf_pair_inj item forItem e1 e he1 he
  unfold DispatchedStorage.RegisterHandler
  simp only
  by_cases hk : item.CollectionName = forItem.CollectionName ∧ e1 = e
  · have : fullNameOf item e1 = forItem.CollectionName ++ "." ++ e := hiff.mpr hk
    rw [if_pos this, if_pos hk]
  · have : ¬ fullNameOf item e1 = forItem.CollectionName ++ "." ++ e := fun hf => hk (hiff.mp hf)
    rw [if_neg this, if_neg hk]

theorem registerHandlers_triggers (item : Item) (e1 : String) (he1 : '.' ∉ e1.data) :
    ∀ (regs : List (Item × String × Handler)) (s : DispatchedStorage β),
      (∀ r ∈ regs, '.' ∉ r.2.1.data) →
      (registerHandlers s regs).triggers (fullNameOf item e1) =
        s.triggers (fullNameOf item e1) ++ handlersFor regs item.CollectionName e1 := by
  intro regs
  induction regs with
  | nil => intro s _; simp [registerHandlers, handlersFor]
  | cons r rest ih =>
    intro s hall
    have hr := hall r (List.mem_cons_self _ _)
    have hrest := ih (s.RegisterHandler r.1 r.2.1 r.2.2)
      (fun x hx => hall x (List.mem_cons_of_mem _ hx))
    have hstep := RegisterHandler_triggers s r.1 item r.2.1 e1 r.2.2 hr he1
    have hunf : registerHandlers s (r :: rest) =
        registerHandlers (s.RegisterHandler r.1 r.2.1 r.2.2) rest := rfl
    rw [hunf, hrest, hstep]
    by_cases hk : item.CollectionName = r.1.CollectionName ∧ e1 = r.2.1
    · have hk2 : r.1.CollectionName = item.CollectionName ∧ r.2.1 = e1 := ⟨hk.1.symm, hk.2.symm⟩
      rw [if_pos hk]
      unfold handlersFor
      rw [List.filter_cons, if_pos (decide_eq_true hk2), List.map_cons, List.append_assoc]
      rfl
    · have hk2 : ¬ (r.1.CollectionName = item.CollectionName ∧ r.2.1 = e1) :=
        fun h => hk ⟨h.1.symm, h.2.symm⟩
      rw [if_neg hk]
      unfold handlersFor
      rw [List.filter_cons, if_neg (by simpa using hk2)]

theorem checkRelatedLoop_findSome (item : Item) :
    ∀ (rels : List Relation) (s : DispatchedStorage β),
      (checkRelatedLoop item rels s).1 = rels.findSome? (relationCheck s.storage s.db item) := by
  intro rels
  induction rels with
  | nil => intro s; rfl
  | cons rel rels ih =>
    intro s
    unfold checkRelatedLoop
    rw [List.findSome?_cons]
    unfold relationCheck
    cases hfk : loadFkValue item rel with
    | error err => rfl
    | ok id =>
      simp only
      cases hl : (s.storage.Load .root rel.To id s.db).1 with
      | some e => rfl
      | none =>
        simp only
        exact ih (s.emit (.storageLoad .root rel.To.CollectionName id))

theorem deleteRelatedLoop_selects (rec : Call → DispatchedStorage β → Res β) (hrec : RecFrame rec)
    (item : Item) :
    ∀ (rels : List Relation) (s s' : DispatchedStorage β),
      deleteRelatedLoop rec item rels s = some (none, s') →
      ∃ l, s'.log = s.log ++ l ∧
        (rels.map (fun rel => Event.storageSelect .root rel.To.CollectionName (fkCondition rel)
          [Value.uint64 item.id])).Sublist l := by
  intro rels
  induction rels with
  | nil =>
    intro s s' h
    simp only [deleteRelatedLoop, Option.some.injEq, Prod.mk.injEq, true_and] at h
    subst h
    exact ⟨[], by simp, by simp⟩
  | cons rel rest ih =>
    intro s s' h
    unfold deleteRelatedLoop at h
    simp only at h
    split at h
    · simp at h
    · rename_i results hsel
      split at h
      · cases h
      · simp at h
      · rename_i s2 heach
        obtain ⟨_, _, _, _, l2, hl2⟩ := deleteEach_Frame rec hrec _ _ _ _ heach
        obtain ⟨l3, hl3, hsub⟩ := ih s2 s' h
        refine ⟨[Event.storageSelect .root rel.To.CollectionName (fkCondition rel)
          [Value.uint64 item.id]] ++ l2 ++ l3, ?_, ?_⟩
        · rw [hl3, hl2]
          simp [DispatchedStorage.emit, List.append_assoc]
        · simp only [List.map_cons, List.singleton_append, List.cons_append]
          exact List.Sublist.cons₂ _ (List.Sublist.trans hsub (List.sublist_append_right _ _))

theorem loadLoop_unlimited {ρ : Type} (env : SqlEnv ρ) (proto : Item) (limit : Int) :
    ∀ (rows : List ρ) (i : Nat) (results : List Item),
      (∀ row ∈ rows, ∃ id fields, env.scan proto.Clone row = .ok (id, fields)) →
      ∃ appended, loadLoop env proto true limit i rows results = (none, results ++ appended) ∧
        List.Forall₂ (FilledFrom env proto) rows appended := by
  intro rows
  induction rows with
  | nil => intro i results _; exact ⟨[], by simp [loadLoop], List.Forall₂.nil⟩
  | cons row rest ih =>
    intro i results h
    obtain ⟨id, fields, hs⟩ := h row (List.mem_cons_self _ _)
    obtain ⟨app, happ, hall⟩ := ih (i + 1) (results ++ [proto.Clone.Fill id (some fields)])
      (fun r hr => h r (List.mem_cons_of_mem _ hr))
    refine ⟨proto.Clone.Fill id (some fields) :: app, ?_,
      List.Forall₂.cons ⟨id, fields, hs, rfl⟩ hall⟩
    simp only [loadLoop, Bool.true_or, ↓reduceIte, fillFromRow, hs, happ]
    simp

theorem loadLoop_limited {ρ : Type} (env : SqlEnv ρ) (proto : Item) (c : Nat) :
    ∀ (rows : List ρ) (i : Nat) (results : List Item),
      (∀ row ∈ rows, ∃ id fields, env.scan proto.Clone row = .ok (id, fields)) →
      ∃ appended, loadLoop env proto false (c : Int) i rows results = (none, results ++ appended) ∧
        List.Forall₂ (FilledFrom env proto) (rows.take (c - i)) appended := by
  intro rows
  induction rows with
  | nil => intro i results _; exact ⟨[], by simp [loadLoop], by simp⟩
  | cons row rest ih =>
    intro i results h
    by_cases hi : i < c
    · obtain ⟨id, fields, hs⟩ := h row (List.mem_cons_self _ _)
      obtain ⟨app, happ, hall⟩ := ih (i + 1) (results ++ [proto.Clone.Fill id (some fields)])
        (fun r hr => h r (List.mem_cons_of_mem _ hr))
      have hci : c - i = (c - (i + 1)) + 1 := by omega
      refine ⟨proto.Clone.Fill id (some fields) :: app, ?_, ?_⟩
      · have hlt : ((i : Int) < (c : Int)) := by exact_mod_cast hi
        simp only [loadLoop, Bool.false_or, hlt, decide_True, ↓reduceIte, fillFromRow, hs, happ]
        simp
      · rw [hci, List.take_succ_cons]
        exact List.Forall₂.cons ⟨id, fields, hs, rfl⟩ hall
    · have hge : ¬ ((i : Int) < (c : Int)) := by
        intro hlt
        exact hi (by exact_mod_cast hlt)
      have h0 : c - i = 0 := by omega
      refine ⟨[], ?_, ?_⟩
      · simp [loadLoop, hge]
      · rw [h0]
        simp

theorem pullLoop_direct_returns (t : Handle) (n : Nat) (item : Item) (key : String) :
    ∀ (hs : List Handler) (k : Nat) (m : Model) (s : DispatchedStorage β),
      (∀ h ∈ hs, ∀ x, ∃ err m1, h x = .ret err m1) →
      ∃ r, pullLoop (run t (n + 1)) item key k hs m s = some r := by
  intro hs
  induction hs with
  | nil => intro k m s _; exact ⟨_, rfl⟩
  | cons h0 rest ih =>
    intro k m s hdir
    obtain ⟨err, m1, hm1⟩ := hdir h0 (List.mem_cons_self _ _) (item.withModel m)
    simp only [pullLoop, run, progBody, hm1]
    cases err with
    | some e => exact ⟨_, rfl⟩
    | none => exact ih _ _ _ (fun h' hh => hdir h' (List.mem_cons_of_mem _ hh))

theorem pullTrigger_direct_returns (t : Handle) (n : Nat) (item : Item) (name : String)
    (s : DispatchedStorage β)
    (hdir : ∀ h ∈ s.triggers (fullNameOf item name), ∀ x, ∃ err m1, h x = .ret err m1) :
    ∃ r, pullTrigger (run t (n + 1)) item name s = some r := by
  rw [pullTrigger_eq]
  exact pullLoop_direct_returns t n item _ _ _ _ _ hdir

theorem Ranked.descend {P : String → Nat → Prop} {rank : String → Nat → Nat} {t : Handle}
    {s s' : DispatchedStorage MemDb} (h : Ranked P rank s.relations s.db.rows)
    (st : CascadeStep t s s') : Ranked P rank s'.relations s'.db.rows := by
  intro collection id hp c hc hchild
  rw [st.frame.2.1] at hchild
  exact h collection id hp c (st.rowsSub c hc) hchild

theorem deleteEach_returns (cfg : MemCfg) (t : Handle) (n : Nat) (P : String → Nat → Prop)
    (rank : String → Nat → Nat)
    (hT : ∀ (item : Item) (s : DispatchedStorage MemDb), CascadeInv cfg t s →
      Ranked P rank s.relations s.db.rows → P item.CollectionName item.id →
      rank item.CollectionName item.id + 2 ≤ n → ∃ r, run t n (.delete item) s = some r) :
    ∀ (subs : List Item) (s : DispatchedStorage MemDb), CascadeInv cfg t s →
      Ranked P rank s.relations s.db.rows →
      (∀ x ∈ subs, P x.CollectionName x.id ∧ rank x.CollectionName x.id + 2 ≤ n) →
      ∃ r, deleteEach (run t n) subs s = some r := by
  intro subs
  induction subs with
  | nil => intro s _ _ _; exact ⟨_, rfl⟩
  | cons x rest ih =>
    intro s hi hr hx
    obtain ⟨r, hrun⟩ := hT x s hi hr (hx x (List.mem_cons_self _ _)).1
      (hx x (List.mem_cons_self _ _)).2
    obtain ⟨e, m, s1⟩ := r
    unfold deleteEach
    rw [hrun]
    cases e with
    | some err => exact ⟨_, rfl⟩
    | none =>
      have st := (run_delete_cascade cfg t n x s m s1 hrun hi).1
      exact ih s1 (hi.step st) (hr.descend st) (fun y hy => hx y (List.mem_cons_of_mem _ hy))

theorem deleteRelatedLoop_returns (cfg : MemCfg) (t : Handle) (n : Nat)
    (P : String → Nat → Prop) (rank : String → Nat → Nat) (item : Item)
    (hT : ∀ (item : Item) (s : DispatchedStorage MemDb), CascadeInv cfg t s →
      Ranked P rank s.relations s.db.rows → P item.CollectionName item.id →
      rank item.CollectionName item.id + 2 ≤ n → ∃ r, run t n (.delete item) s = some r)
    (hP : P item.CollectionName item.id)
    (hfuel : rank item.CollectionName item.id + 1 ≤ n) :
    ∀ (rels : List Relation) (s : DispatchedStorage MemDb), CascadeInv cfg t s →
      Ranked P rank s.relations s.db.rows →
      (∀ rel ∈ rels, rel ∈ s.relations item.CollectionName .HAS_MANY) →
      ∃ r, deleteRelatedLoop (run t n) item rels s = some r := by
  intro rels
  induction rels with
  | nil => intro s _ _ _; exact ⟨_, rfl⟩
  | cons rel rest ih =>
    intro s hi hr hrels
    have st1 : CascadeStep t s
        (s.emit (.storageSelect .root rel.To.CollectionName (fkCondition rel)
          [Value.uint64 item.id])) :=
      CascadeStep.of_sameRows (Frame.emit s _) rfl rfl
    have hchildren : ∀ x ∈ (s.db.rows.filter (rowMatches rel.To.CollectionName (fkCondition rel)
        [Value.uint64 item.id])).map (fun r => rel.To.Clone.Fill r.id (some r.fields)),
        P x.CollectionName x.id ∧ rank x.CollectionName x.id + 2 ≤ n := by
      intro x hx
      obtain ⟨r, hrmem, rfl⟩ := List.mem_map.mp hx
      obtain ⟨hrow, hmatch⟩ := List.mem_filter.mp hrmem
      obtain ⟨hpc, hlt⟩ := hr item.CollectionName item.id hP r hrow
        ⟨rel, hrels rel (List.mem_cons_self _ _), hmatch⟩
      have hcoll : (rel.To.Clone.Fill r.id (some r.fields)).CollectionName = r.collection :=
        (rowMatches_collection hmatch).symm
      have hid : (rel.To.Clone.Fill r.id (some r.fields)).id = r.id := rfl
      rw [hcoll, hid]
      exact ⟨hpc, by omega⟩
    obtain ⟨r2, heach⟩ := deleteEach_returns cfg t n P rank hT _ _ (hi.step st1) (hr.descend st1)
      hchildren
    unfold deleteRelatedLoop
    simp only [hi.storage, memStorage_select_root]
    rw [heach]
    obtain ⟨e, s2⟩ := r2
    cases e with
    | some err => exact ⟨_, rfl⟩
    | none =>
      have st2 := (deleteEach_cascade cfg t n (run_delete_cascade cfg t n) _ _ _ heach
        (hi.step st1)).1
      have st := st1.andThen st2
      refine ih s2 (hi.step st) (hr.descend st) (fun rel' hrel' => ?_)
      rw [st.frame.2.1]
      exact hrels rel' (List.mem_cons_of_mem _ hrel')

theorem run_delete_returns (cfg : MemCfg) (t : Handle) (P : String → Nat → Prop)
    (rank : String → Nat → Nat) :
    ∀ (n : Nat) (item : Item) (s : DispatchedStorage MemDb), CascadeInv cfg t s →
      Ranked P rank s.relations s.db.rows → P item.CollectionName item.id →
      rank item.CollectionName item.id + 2 ≤ n → ∃ r, run t n (.delete item) s = some r := by
  intro n
  induction n with
  | zero => intro item s _ _ _ h; omega
  | succ n ih =>
    intro item s hi hr hP hfuel
    obtain ⟨k, rfl⟩ : ∃ k, n = k + 1 := ⟨n - 1, by omega⟩
    obtain ⟨r1, h1⟩ := pullTrigger_direct_returns t k item DELETE s (hi.direct _)
    obtain ⟨e1, m1, s1⟩ := r1
    simp only [run]
    unfold deleteBody
    rw [h1]
    cases e1 with
    | some err => exact ⟨_, rfl⟩
    | none =>
      obtain ⟨⟨l1, hs1⟩, hid1⟩ := pullTrigger_direct t (k + 1) item DELETE s _ _ _
        (hi.direct _) h1
      have hm1 : m1.id = item.id := hid1 (hi.keeps _)
      have f1 : Frame s s1 := by rw [hs1]; exact ⟨rfl, rfl, rfl, rfl, _, rfl⟩
      have st1 : CascadeStep t s s1 :=
        CascadeStep.of_sameRows f1 (by rw [hs1]) (by rw [hs1])
      have hfuel2 : rank (item.withModel m1).CollectionName (item.withModel m1).id + 1 ≤ k + 1 := by
        have : (item.withModel m1).id = item.id := hm1
        rw [this]
        have : (item.withModel m1).CollectionName = item.CollectionName := rfl
        rw [this]
        omega
      have hP2 : P (item.withModel m1).CollectionName (item.withModel m1).id := by
        have : (item.withModel m1).id = item.id := hm1
        rw [this]
        exact hP
      obtain ⟨r2, h2⟩ := deleteRelatedLoop_returns cfg t (k + 1) P rank (item.withModel m1) ih
        hP2 hfuel2 (s1.getRelationsOfType (item.withModel m1) .HAS_MANY) s1 (hi.step st1)
        (hr.descend st1) (fun rel hrel => hrel)
      obtain ⟨e2, s2⟩ := r2
      have h2d : deleteRelated (run t (k + 1)) (item.withModel m1) s1 = some (e2, s2) := h2
      simp only
      rw [h2d]
      cases e2 with
      | some err => exact ⟨_, rfl⟩
      | none =>
        have st2 := (deleteRelatedLoop_cascade cfg t (k + 1) (item.withModel m1)
          (run_delete_cascade cfg t (k + 1)) _ _ _ h2 (hi.step st1)).1
        have hi2 : CascadeInv cfg t s2 := (hi.step st1).step st2
        simp only
        rcases hdel : s2.storage.Delete t (item.withModel m1)
            (DispatchedStorage.emit { s2 with cache := s2.cache.Remove (item.withModel m1) }
              (.cacheRemove item.CollectionName m1.id)).db with ⟨e4, m4, db4⟩
        simp only [DispatchedStorage.emit] at hdel ⊢
        rw [hdel]
        cases e4 with
        | some err => exact ⟨_, rfl⟩
        | none =>
          simp only
          apply pullTrigger_direct_returns
          intro h hh x
          exact hi2.direct _ h hh x

theorem exampleWithHandlers_ranked (cfg : MemCfg) :
    Ranked (fun _ _ => True) exampleRank (exampleWithHandlers cfg).relations
      (exampleWithHandlers cfg).db.rows := by
  intro collection id _ c _ hchild
  refine ⟨trivial, ?_⟩
  obtain ⟨rel, hrel, hm⟩ := hchild
  have hrels : (exampleWithHandlers cfg).relations collection .HAS_MANY =
      if collection = "users" then [NewHasManyRelation userProto imageProto] else [] := by
    by_cases hc : collection = "users"
    · subst hc
      rfl
    · have hc2 : ¬ collection = userProto.CollectionName := hc
      simp [exampleWithHandlers, DispatchedStorage.RegisterHandler, exampleDispatcher,
        DispatchedStorage.RegisterRelation, Relation.Reversed, NewHasManyRelation,
        DispatchedStorage.registerRelation, NewDispatchedStorage, hc, hc2]
  rw [hrels] at hrel
  by_cases hc : collection = "users"
  · simp only [hc, ↓reduceIte, List.mem_singleton] at hrel
    subst hrel
    have hcc : c.collection = "images" := rowMatches_collection hm
    simp [exampleRank, hcc, hc]
  · simp [hc] at hrel

end Lemmas

/-- C1: with a passing integrity check, a backend write that succeeds and handlers
that return nil without calling back into the transaction, `save` returns nil
and records, after the integrity check, exactly: the `save` trigger and each of
its handlers once in registration order, then `create` (id 0 at entry) or
`update` (otherwise) likewise, then the backend write, then `created` or
`updated` (chosen by the id at entry, whatever id the backend assigned), then
`saved`, then the cache insertion. -/
theorem save_fires_events_in_order {β : Type} (s : DispatchedStorage β) (fuel : Nat) (item : Item)
    (t : Handle) (hfuel : 2 ≤ fuel)
    (hcheck : (s.checkRelated item).1 = none)
    (hwrite : ∀ x db, (s.storage.Save t x db).1 = none)
    (hhandlers : ∀ name, ∀ h ∈ s.triggers (fullNameOf item name), DirectOk h) :
    ∃ m' s' idX idW idY idS,
      s.save fuel item t = some (none, m', s') ∧
      s'.log = (s.checkRelated item).2.log
        ++ triggerEvents s item SAVE item.id
        ++ triggerEvents s item (if item.id = 0 then CREATE else UPDATE) idX
        ++ [Event.storageSave t item.CollectionName idW]
        ++ triggerEvents s item (if item.id = 0 then CREATED else UPDATED) idY
        ++ triggerEvents s item SAVED idS
        ++ [Event.cacheAdd item.CollectionName m'.id] := by
  obtain ⟨n, rfl⟩ : ∃ n, fuel = n + 2 := ⟨fuel - 2, by omega⟩
  have hc : s.checkRelated item = (none, { s with log := (s.checkRelated item).2.log }) :=
    Prod.ext hcheck (checkRelated_frame s item)
  have hpre : (if item.id > 0 then UPDATE else CREATE) = (if item.id = 0 then CREATE else UPDATE) := by
    by_cases h0 : item.id = 0 <;> simp [h0, Nat.pos_iff_ne_zero]
  have hpost : (if item.id > 0 then UPDATED else CREATED) =
      (if item.id = 0 then CREATED else UPDATED) := by
    by_cases h0 : item.id = 0 <;> simp [h0, Nat.pos_iff_ne_zero]
  generalize hX : (if item.id = 0 then CREATE else UPDATE) = X at hpre ⊢
  generalize hY : (if item.id = 0 then CREATED else UPDATED) = Y at hpost ⊢
  generalize hL : (s.checkRelated item).2.log = L at hc ⊢
  obtain ⟨m2, h2⟩ := pullTrigger_directOk t n item SAVE { s with log := L } (hhandlers SAVE)
  obtain ⟨m3, h3⟩ := pullTrigger_directOk t n (item.withModel m2) X
    { s with log := L ++ triggerEvents s item SAVE item.id } (hhandlers X)
  rcases hsv : s.storage.Save t (item.withModel m3) s.db with ⟨e4, m4, db4⟩
  have he4 : e4 = none := by have := hwrite (item.withModel m3) s.db; rw [hsv] at this; exact this
  subst he4
  obtain ⟨m5, h5⟩ := pullTrigger_directOk t n (item.withModel m4) Y
    { s with db := db4, log := L ++ triggerEvents s item SAVE item.id
        ++ triggerEvents s item X m2.id ++ [Event.storageSave t item.CollectionName m3.id] }
    (hhandlers Y)
  obtain ⟨m6, h6⟩ := pullTrigger_directOk t n (item.withModel m5) SAVED
    { s with db := db4, log := L ++ triggerEvents s item SAVE item.id
        ++ triggerEvents s item X m2.id ++ [Event.storageSave t item.CollectionName m3.id]
        ++ triggerEvents s item Y m4.id }
    (hhandlers SAVED)
  have hsave : s.save (n + 2) item t = some (none, m6,
      { s with db := db4, cache := s.cache.Add (item.withModel m6),
               log := L ++ triggerEvents s item SAVE item.id
                 ++ triggerEvents s item X m2.id ++ [Event.storageSave t item.CollectionName m3.id]
                 ++ triggerEvents s item Y m4.id ++ triggerEvents s item SAVED m5.id
                 ++ [Event.cacheAdd item.CollectionName m6.id] }) := by
    simp only [DispatchedStorage.save, run, saveBody, hc, hpre, hpost]
    simp only [triggerEvents] at h2 h3 h5 h6 ⊢
    simp only [Item.withModel, fullNameOf] at h2 h3 h5 h6 hsv ⊢
    rw [h2]
    simp only [h3, hsv, DispatchedStorage.emit]
    rw [h5]
    simp only [h6]
  exact ⟨m6, _, m2.id, m3.id, m4.id, m5.id, hsave, rfl⟩

/-- Witness of C1: saving a fresh user through the example dispatcher. -/
theorem save_fires_events_in_order_witness :
    ∃ m' s' idX idW idY idS,
      (exampleWithHandlers plainCfg).save 2 freshUser .root = some (none, m', s') ∧
      s'.log = ((exampleWithHandlers plainCfg).checkRelated freshUser).2.log
        ++ triggerEvents (exampleWithHandlers plainCfg) freshUser SAVE freshUser.id
        ++ triggerEvents (exampleWithHandlers plainCfg) freshUser
            (if freshUser.id = 0 then CREATE else UPDATE) idX
        ++ [Event.storageSave .root freshUser.CollectionName idW]
        ++ triggerEvents (exampleWithHandlers plainCfg) freshUser
            (if freshUser.id = 0 then CREATED else UPDATED) idY
        ++ triggerEvents (exampleWithHandlers plainCfg) freshUser SAVED idS
        ++ [Event.cacheAdd freshUser.CollectionName m'.id] :=
  save_fires_events_in_order (exampleWithHandlers plainCfg) 2 freshUser .root (by decide)
    (by decide) (fun x db => memStorage_save_ok plainCfg rfl .root x db)
    (fun name => exampleWithHandlers_directOk plainCfg _)

/-- C2: when a `BELONGS_TO` relation is registered for the collection of the entity
and the backend cannot load the parent its foreign key names, `save` returns an
error having only issued backend loads: no trigger is pulled, no handler runs,
no backend write is made, and the backend state and the cache are unchanged. -/
theorem save_missing_parent_fails {β : Type} (s : DispatchedStorage β) (fuel : Nat) (item : Item)
    (t : Handle) (rel : Relation) (id : Nat) (hfuel : 1 ≤ fuel)
    (hrel : rel ∈ s.getRelationsOfType item .BELONGS_TO)
    (hfk : loadFkValue item rel = .ok id)
    (hmiss : (s.storage.Load .root rel.To id s.db).1 ≠ none) :
    ∃ err s' loads,
      s.save fuel item t = some (some err, item.toModel, s') ∧
      s'.db = s.db ∧ s'.cache = s.cache ∧
      s'.log = s.log ++ loads ∧ ∀ e ∈ loads, ∃ c i, e = Event.storageLoad .root c i := by
  obtain ⟨n, rfl⟩ : ∃ n, fuel = n + 1 := ⟨fuel - 1, by omega⟩
  have hfail : (s.checkRelated item).1 ≠ none :=
    checkRelatedLoop_fails item rel id hfk _ s hrel hmiss
  obtain ⟨loads, hlog, hall⟩ := checkRelatedLoop_log item (s.getRelationsOfType item .BELONGS_TO) s
  have hframe := checkRelated_frame s item
  rcases hc : s.checkRelated item with ⟨e, s1⟩
  rw [hc] at hfail hframe
  cases e with
  | none => exact absurd rfl hfail
  | some err =>
    refine ⟨err, s1, loads, ?_, ?_, ?_, ?_, hall⟩
    · simp only [DispatchedStorage.save, run, saveBody, hc]
    · simp only at hframe; rw [hframe]
    · simp only at hframe; rw [hframe]
    · have : (s.checkRelated item).2.log = s.log ++ loads := hlog
      rw [hc] at this
      exact this

/-- Witness of C2: an image whose `users_id` is 100500 while no such user is stored. -/
theorem save_missing_parent_fails_witness :
    ∃ err s' loads,
      (exampleWithHandlers plainCfg).save 1 orphanImage .root =
        some (some err, orphanImage.toModel, s') ∧
      s'.db = (exampleWithHandlers plainCfg).db ∧ s'.cache = (exampleWithHandlers plainCfg).cache ∧
      s'.log = (exampleWithHandlers plainCfg).log ++ loads ∧
      ∀ e ∈ loads, ∃ c i, e = Event.storageLoad .root c i :=
  save_missing_parent_fails (exampleWithHandlers plainCfg) 1 orphanImage .root
    { From := imageProto, To := userProto, ForeignKey := "users_id", Typ := .BELONGS_TO,
      GetForeignKeyFunc := none } 100500 (by decide) (by decide) rfl (by decide)

/-- C4 (failing input): on a transactional backend whose commit fails, the public
`Save` of a fresh user returns the commit error while the cache still holds the
user: a `Lookup` under the id it was given is a hit. -/
theorem Save_commit_error_leaves_cache :
    ((exampleDispatcher commitFailCfg).Save 2 freshUser).map
        (fun r => (r.1, r.2.1.id, (r.2.2.cache.Lookup userProto r.2.1.id).1,
          r.2.2.cache.itemsCount, (r.2.2.log.contains .cacheClear))) =
      some (.returned (some (.custom "commit failed")), 4, true, 1, false) := by
  decide

/-- C5 (failing input): on a backend whose write fails, the public `Save` of a fresh
user returns nil, not the backend error, and never clears the cache. -/
theorem Save_backend_write_error_returns_nil :
    ((memStorage saveFailCfg).Save .root freshUser exampleDb).1 = some (.custom "save failed") ∧
    ((exampleDispatcher saveFailCfg).Save 2 freshUser).map
        (fun r => (r.1, r.2.2.log)) =
      some (.returned none,
        [.pulled "users.save" 0, .pulled "users.create" 0, .storageSave .root "users" 0]) := by
  decide

/-- C6 (failing input): on a backend whose write fails, the public `Save` of a user
with id 0 returns nil although the id is still 0 and nothing was stored: the
`Load` with that id fails. -/
theorem Save_success_without_id :
    ((exampleDispatcher saveFailCfg).Save 2 freshUser).map
        (fun r => (r.1, r.2.1.id, (r.2.2.Load userProto r.2.1.id).1, r.2.2.db)) =
      some (.returned none, 0, some (.entryNotExists "users" 0), exampleDb) := by
  decide

/-- C8: `RegisterHandler` appends to the list of its `collection.trigger` key, and
pulling a trigger runs the handlers of that list from the first on: when the
handlers `pre` return nil and the next one (if any) returns the error `e`, the
handlers numbered `0 .. pre.length` are the only ones run, in this order, the
handlers behind the failing one are not run, and the result is `e`; when
there is no next one (no handler at all, or all return nil) the result is nil. -/
theorem pullTrigger_in_order_until_failure {β : Type} (s : DispatchedStorage β) (fuel : Nat)
    (item : Item) (name : String) (t : Handle) (pre rest : List Handler) (e : Error)
    (h0 : Handler) (hfuel : 1 ≤ fuel)
    (hreg : s.triggers (fullNameOf item name) = pre ++ rest)
    (hpre : ∀ h ∈ pre, DirectOk h)
    (hrest : ∀ h ∈ rest.head?, DirectFail h e) :
    (s.RegisterHandler item name h0).triggers (fullNameOf item name) =
        s.triggers (fullNameOf item name) ++ [h0] ∧
    ∃ m', s.pullTrigger fuel item name t =
      some (rest.head?.map (fun _ => e), m',
        { s with log := s.log ++ (Event.pulled (fullNameOf item name) item.id ::
            firedRange (fullNameOf item name) 0 (pre.length + (rest.take 1).length)) }) := by
  obtain ⟨n, rfl⟩ : ∃ n, fuel = n + 1 := ⟨fuel - 1, by omega⟩
  refine ⟨by simp [DispatchedStorage.RegisterHandler, fullNameOf], ?_⟩
  unfold DispatchedStorage.pullTrigger
  rw [pullTrigger_eq, hreg]
  cases rest with
  | nil =>
    obtain ⟨m', hm'⟩ := pullLoop_directOk t n item (fullNameOf item name) pre 0 item.toModel
      (s.emit (.pulled (fullNameOf item name) item.id)) hpre
    refine ⟨m', ?_⟩
    simp only [List.append_nil, hm']
    simp [DispatchedStorage.emit]
  | cons h post =>
    obtain ⟨m', hm'⟩ := pullLoop_directFail t n item (fullNameOf item name) e h post
      (hrest h (by simp)) pre 0 item.toModel
      (s.emit (.pulled (fullNameOf item name) item.id)) hpre
    refine ⟨m', ?_⟩
    rw [hm']
    simp [DispatchedStorage.emit]

/-- Witness of C8: two handlers on `users.save`, the second failing; a third
one is registered behind them. -/
theorem pullTrigger_in_order_until_failure_witness :
    (twoHandlers.RegisterHandler freshUser SAVE okHandler).triggers (fullNameOf freshUser SAVE) =
        twoHandlers.triggers (fullNameOf freshUser SAVE) ++ [okHandler] ∧
    ∃ m', twoHandlers.pullTrigger 1 freshUser SAVE .root =
      some ([failHandler "second"].head?.map (fun _ => Error.custom "second"), m',
        { twoHandlers with log := twoHandlers.log ++ (Event.pulled (fullNameOf freshUser SAVE)
            freshUser.id :: firedRange (fullNameOf freshUser SAVE) 0
              ([okHandler].length + ([failHandler "second"].take 1).length)) }) :=
  pullTrigger_in_order_until_failure twoHandlers 1 freshUser SAVE .root [okHandler]
    [failHandler "second"] (.custom "second") okHandler (by decide)
    (by simp [twoHandlers, DispatchedStorage.RegisterHandler, fullNameOf, exampleDispatcher,
      DispatchedStorage.RegisterRelation, Relation.Reversed, NewHasManyRelation,
      DispatchedStorage.registerRelation, NewDispatchedStorage, userProto, freshUser])
    (by intro h hh; simp at hh; subst hh; exact okHandler_directOk)
    (by intro h hh; simp at hh; subst hh; exact fun x => ⟨x.toModel, rfl⟩)

/-- C9: when the handlers of the stages before stage `i` of the save pipeline return
nil and, at stage `i`, the handlers `pre` return nil and the next one returns
the error `e`, then `save` returns `e`; the record ends with that failing
handler, so no later handler, trigger or step runs; the cache is as before
(the entity is not added); and when the failing stage is `save` or
`create`/`update` (`i < 2`) no backend write was made. -/
theorem save_handler_failure_aborts {β : Type} (s : DispatchedStorage β) (fuel : Nat) (item : Item)
    (t : Handle) (i : Nat) (pre post : List Handler) (h : Handler) (e : Error)
    (hfuel : 2 ≤ fuel) (hi : i < 4)
    (hcheck : (s.checkRelated item).1 = none)
    (hwrite : 2 ≤ i → ∀ x db, (s.storage.Save t x db).1 = none)
    (hbefore : ∀ j < i, ∀ h' ∈ s.triggers (fullNameOf item (saveStage item j)), DirectOk h')
    (hreg : s.triggers (fullNameOf item (saveStage item i)) = pre ++ h :: post)
    (hpre : ∀ h' ∈ pre, DirectOk h') (hfail : DirectFail h e) :
    ∃ m' s' idW ids,
      s.save fuel item t = some (some e, m', s') ∧
      s'.cache = s.cache ∧
      (i < 2 → s'.db = s.db ∧ ∀ h0 c id, Event.storageSave h0 c id ∉ s'.log.drop s.log.length) ∧
      ids 0 = item.id ∧
      s'.log = (s.checkRelated item).2.log ++ savePrefix s item t idW ids i
        ++ writeBefore item t idW i
        ++ (Event.pulled (fullNameOf item (saveStage item i)) (ids i) ::
            firedRange (fullNameOf item (saveStage item i)) 0 (pre.length + 1)) := by
  obtain ⟨n, rfl⟩ : ∃ n, fuel = n + 2 := ⟨fuel - 2, by omega⟩
  obtain ⟨loads, hloads, hall⟩ :=
    checkRelatedLoop_log item (s.getRelationsOfType item .BELONGS_TO) s
  have hL : (s.checkRelated item).2.log = s.log ++ loads := hloads
  have hc : s.checkRelated item = (none, { s with log := s.log ++ loads }) := by
    rw [← hL]; exact Prod.ext hcheck (checkRelated_frame s item)
  have hnoSave : ∀ h0 c id, Event.storageSave h0 c id ∉ loads := by
    intro h0 c id hmem
    obtain ⟨c', i', hh⟩ := hall _ hmem
    cases hh
  have hX : (if item.id > 0 then UPDATE else CREATE) = saveStage item 1 := by
    by_cases h0 : item.id = 0 <;> simp [saveStage, h0, Nat.pos_iff_ne_zero]
  have hY : (if item.id > 0 then UPDATED else CREATED) = saveStage item 2 := by
    by_cases h0 : item.id = 0 <;> simp [saveStage, h0, Nat.pos_iff_ne_zero]
  have hS0 : SAVE = saveStage item 0 := rfl
  have hS3 : SAVED = saveStage item 3 := rfl
  rw [hL]
  interval_cases i
  · -- the `save` stage fails
    obtain ⟨m2, h2⟩ := pullTrigger_directFail t n item (saveStage item 0)
      { s with log := s.log ++ loads } pre post h e hreg hpre hfail
    have hsave : s.save (n + 2) item t = some (some e, m2,
        { s with log := s.log ++ loads ++ (Event.pulled (fullNameOf item (saveStage item 0)) item.id
          :: firedRange (fullNameOf item (saveStage item 0)) 0 (pre.length + 1)) }) := by
      simp only [DispatchedStorage.save, run, saveBody, hc, hS0, h2]
    refine ⟨m2, _, 0, fun _ => item.id, hsave, rfl, fun _ => ⟨rfl, ?_⟩, rfl, ?_⟩
    · intro h0 c id hmem
      simp only [List.append_assoc, List.drop_left, List.mem_append, List.mem_cons,
        firedRange, List.mem_map] at hmem
      rcases hmem with hmem | hmem | ⟨k, _, hk⟩
      · exact hnoSave _ _ _ hmem
      · cases hmem
      · cases hk
    · simp [savePrefix, writeBefore]
  · -- the `create` or `update` stage fails
    obtain ⟨m2, h2⟩ := pullTrigger_directOk t n item (saveStage item 0)
      { s with log := s.log ++ loads } (hbefore 0 (by omega))
    obtain ⟨m3, h3⟩ := pullTrigger_directFail t n (item.withModel m2) (saveStage item 1)
      { s with log := s.log ++ loads ++ triggerEvents s item (saveStage item 0) item.id }
      pre post h e hreg hpre hfail
    have hsave : s.save (n + 2) item t = some (some e, m3,
        { s with log := s.log ++ loads ++ triggerEvents s item (saveStage item 0) item.id
          ++ (Event.pulled (fullNameOf item (saveStage item 1)) m2.id
          :: firedRange (fullNameOf item (saveStage item 1)) 0 (pre.length + 1)) }) := by
      simp only [DispatchedStorage.save, run, saveBody, hc, hS0, hX]
      simp only [triggerEvents] at h2 h3 ⊢
      simp only [Item.withModel, fullNameOf] at h2 h3 ⊢
      rw [h2]
      simp only [h3]
    refine ⟨m3, _, 0, fun j => if j = 0 then item.id else m2.id, hsave, rfl,
      fun _ => ⟨rfl, ?_⟩, rfl, ?_⟩
    · intro h0 c id hmem
      simp only [List.append_assoc, List.drop_left, List.mem_append, List.mem_cons,
        firedRange, List.mem_map, triggerEvents] at hmem
      rcases hmem with hmem | (hmem | ⟨k, _, hk⟩) | hmem | ⟨k, _, hk⟩
      · exact hnoSave _ _ _ hmem
      · cases hmem
      · cases hk
      · cases hmem
      · cases hk
    · simp [savePrefix, writeBefore]
  · -- the `created` or `updated` stage fails
    obtain ⟨m2, h2⟩ := pullTrigger_directOk t n item (saveStage item 0)
      { s with log := s.log ++ loads } (hbefore 0 (by omega))
    obtain ⟨m3, h3⟩ := pullTrigger_directOk t n (item.withModel m2) (saveStage item 1)
      { s with log := s.log ++ loads ++ triggerEvents s item (saveStage item 0) item.id }
      (hbefore 1 (by omega))
    rcases hsv : s.storage.Save t (item.withModel m3) s.db with ⟨e4, m4, db4⟩
    have he4 : e4 = none := by
      have := hwrite (by omega) (item.withModel m3) s.db; rw [hsv] at this; exact this
    subst he4
    obtain ⟨m5, h5⟩ := pullTrigger_directFail t n (item.withModel m4) (saveStage item 2)
      { s with db := db4, log := s.log ++ loads ++ triggerEvents s item (saveStage item 0) item.id
          ++ triggerEvents s item (saveStage item 1) m2.id
          ++ [Event.storageSave t item.CollectionName m3.id] }
      pre post h e hreg hpre hfail
    have hsave : s.save (n + 2) item t = some (some e, m5,
        { s with db := db4, log := s.log ++ loads
          ++ triggerEvents s item (saveStage item 0) item.id
          ++ triggerEvents s item (saveStage item 1) m2.id
          ++ [Event.storageSave t item.CollectionName m3.id]
          ++ (Event.pulled (fullNameOf item (saveStage item 2)) m4.id
          :: firedRange (fullNameOf item (saveStage item 2)) 0 (pre.length + 1)) }) := by
      simp only [DispatchedStorage.save, run, saveBody, hc, hS0, hX, hY]
      simp only [triggerEvents] at h2 h3 h5 ⊢
      simp only [Item.withModel, fullNameOf] at h2 h3 h5 hsv ⊢
      rw [h2]
      simp only [h3, hsv, DispatchedStorage.emit]
      rw [h5]
    refine ⟨m5, _, m3.id, fun j => if j = 0 then item.id else if j = 1 then m2.id else m4.id,
      hsave, rfl, fun hlt => absurd hlt (by omega), rfl, ?_⟩
    simp [savePrefix, writeBefore]
  · -- the `saved` stage fails
    obtain ⟨m2, h2⟩ := pullTrigger_directOk t n item (saveStage item 0)
      { s with log := s.log ++ loads } (hbefore 0 (by omega))
    obtain ⟨m3, h3⟩ := pullTrigger_directOk t n (item.withModel m2) (saveStage item 1)
      { s with log := s.log ++ loads ++ triggerEvents s item (saveStage item 0) item.id }
      (hbefore 1 (by omega))
    rcases hsv : s.storage.Save t (item.withModel m3) s.db with ⟨e4, m4, db4⟩
    have he4 : e4 = none := by
      have := hwrite (by omega) (item.withModel m3) s.db; rw [hsv] at this; exact this
    subst he4
    obtain ⟨m5, h5⟩ := pullTrigger_directOk t n (item.withModel m4) (saveStage item 2)
      { s with db := db4, log := s.log ++ loads ++ triggerEvents s item (saveStage item 0) item.id
          ++ triggerEvents s item (saveStage item 1) m2.id
          ++ [Event.storageSave t item.CollectionName m3.id] }
      (hbefore 2 (by omega))
    obtain ⟨m6, h6⟩ := pullTrigger_directFail t n (item.withModel m5) (saveStage item 3)
      { s with db := db4, log := s.log ++ loads ++ triggerEvents s item (saveStage item 0) item.id
          ++ triggerEvents s item (saveStage item 1) m2.id
          ++ [Event.storageSave t item.CollectionName m3.id]
          ++ triggerEvents s item (saveStage item 2) m4.id }
      pre post h e hreg hpre hfail
    have hsave : s.save (n + 2) item t = some (some e, m6,
        { s with db := db4, log := s.log ++ loads
          ++ triggerEvents s item (saveStage item 0) item.id
          ++ triggerEvents s item (saveStage item 1) m2.id
          ++ [Event.storageSave t item.CollectionName m3.id]
          ++ triggerEvents s item (saveStage item 2) m4.id
          ++ (Event.pulled (fullNameOf item (saveStage item 3)) m5.id
          :: firedRange (fullNameOf item (saveStage item 3)) 0 (pre.length + 1)) }) := by
      simp only [DispatchedStorage.save, run, saveBody, hc, hS0, hS3, hX, hY]
      simp only [triggerEvents] at h2 h3 h5 h6 ⊢
      simp only [Item.withModel, fullNameOf] at h2 h3 h5 h6 hsv ⊢
      rw [h2]
      simp only [h3, hsv, DispatchedStorage.emit]
      rw [h5]
      simp only [h6]
    refine ⟨m6, _, m3.id,
      fun j => if j = 0 then item.id else if j = 1 then m2.id else if j = 2 then m4.id else m5.id,
      hsave, rfl, fun hlt => absurd hlt (by omega), rfl, ?_⟩
    simp [savePrefix, writeBefore]

/-- Witness of C9: a fresh user is saved while the second `created` handler fails. -/
theorem save_handler_failure_aborts_witness :
    ∃ m' s' idW ids,
      createdFails.save 2 freshUser .root = some (some (.custom "created failed"), m', s') ∧
      s'.cache = createdFails.cache ∧
      (2 < 2 → s'.db = createdFails.db ∧
        ∀ h0 c id, Event.storageSave h0 c id ∉ s'.log.drop createdFails.log.length) ∧
      ids 0 = freshUser.id ∧
      s'.log = (createdFails.checkRelated freshUser).2.log
        ++ savePrefix createdFails freshUser .root idW ids 2
        ++ writeBefore freshUser .root idW 2
        ++ (Event.pulled (fullNameOf freshUser (saveStage freshUser 2)) (ids 2) ::
            firedRange (fullNameOf freshUser (saveStage freshUser 2)) 0 ([okHandler].length + 1)) :=
  save_handler_failure_aborts createdFails 2 freshUser .root 2 [okHandler] []
    (failHandler "created failed") (.custom "created failed") (by decide) (by decide) (by decide)
    (fun _ x db => memStorage_save_ok plainCfg rfl .root x db)
    (by
      intro j hj h' hh
      refine exampleWithHandlers_directOk plainCfg (fullNameOf freshUser (saveStage freshUser j)) h' ?_
      have hne : fullNameOf freshUser (saveStage freshUser j) ≠
          userProto.CollectionName ++ "." ++ CREATED := by
        interval_cases j <;> decide
      simp only [createdFails, DispatchedStorage.RegisterHandler, if_neg hne] at hh
      exact hh)
    rfl
    (by intro h hh; simp at hh; subst hh; exact okHandler_directOk)
    (fun x => ⟨x.toModel, rfl⟩)

/-- C10: let the handlers `pre` of stage `i` of the delete pipeline (`delete` for
`i = 0`, `deleted` for `i = 1`) return nil and the next one return the error
`e`; for `i = 1` let the `delete` handlers return nil and the cascade and the
backend delete succeed.  Then `delete` returns `e`.  When the failing handler
is bound to `delete`, nothing but the trigger and the handlers up to the
failing one is recorded (no select, no child delete, no backend delete), the
backend state and the cache are unchanged, and the id of the entity is the
one at entry provided the handlers themselves keep it. -/
theorem delete_handler_failure {β : Type} (s : DispatchedStorage β) (fuel : Nat) (item : Item)
    (t : Handle) (i : Nat) (pre post : List Handler) (h : Handler) (e : Error)
    (hfuel : 2 ≤ fuel) (hi : i < 2)
    (hreg : s.triggers (fullNameOf item (deleteStage i)) = pre ++ h :: post)
    (hpre : ∀ h' ∈ pre, DirectOk h') (hfail : DirectFail h e)
    (hbefore : i = 1 →
      (∀ h' ∈ s.triggers (fullNameOf item DELETE), DirectOk h') ∧
      (∀ m1, ∃ s2, deleteRelated (run t (fuel - 1)) (item.withModel m1)
        { s with log := s.log ++ triggerEvents s item DELETE item.id } = some (none, s2)) ∧
      (∀ x db, (s.storage.Delete t x db).1 = none)) :
    ∃ m' s',
      s.delete fuel item t = some (some e, m', s') ∧
      (i = 0 →
        s' = { s with log := s.log ++ (Event.pulled (fullNameOf item DELETE) item.id ::
          firedRange (fullNameOf item DELETE) 0 (pre.length + 1)) } ∧
        ((∀ h' ∈ pre ++ [h], KeepsId h') → m'.id = item.id)) := by
  obtain ⟨n, rfl⟩ : ∃ n, fuel = n + 2 := ⟨fuel - 2, by omega⟩
  interval_cases i
  · obtain ⟨m1, h1⟩ := pullTrigger_directFail t n item DELETE s pre post h e hreg hpre hfail
    refine ⟨m1, _, ?_, fun _ => ⟨rfl, ?_⟩⟩
    · simp only [DispatchedStorage.delete, run, deleteBody, h1]
    · intro hkeep
      have h1' := h1
      rw [pullTrigger_eq] at h1'
      have hreg' : s.triggers (fullNameOf item DELETE) = pre ++ h :: post := hreg
      simp only [DispatchedStorage.emit] at h1'
      rw [hreg'] at h1'
      exact pullLoop_directFail_id t n item _ e h post hfail pre _ _ _ _ _ _ hpre hkeep h1'
  · obtain ⟨hdel, hcas, hbdel⟩ := hbefore rfl
    obtain ⟨m1, h1⟩ := pullTrigger_directOk t n item DELETE s hdel
    obtain ⟨s2, h2⟩ := hcas m1
    have f2 : Frame { s with log := s.log ++ triggerEvents s item DELETE item.id } s2 :=
      deleteRelatedLoop_Frame _ (run_Frame t (n + 1)) _ _ _ _ _ h2
    obtain ⟨hst, _, htr, _, _⟩ := f2
    simp only at hst htr
    rcases hd : s.storage.Delete t (item.withModel m1) s2.db with ⟨e4, m4, db4⟩
    have he4 : e4 = none := by
      have := hbdel (item.withModel m1) s2.db; rw [hd] at this; exact this
    subst he4
    obtain ⟨m5, h5⟩ := pullTrigger_directFail t n (item.withModel m4) DELETED
      { s2 with db := db4, cache := s2.cache.Remove (item.withModel m1),
                log := s2.log ++ [Event.cacheRemove item.CollectionName m1.id,
                  Event.storageDelete t item.CollectionName m1.id] }
      pre post h e (by rw [← hreg]; exact congrFun htr _) hpre hfail
    have hdelete : s.delete (n + 2) item t =
        pullTrigger (run t (n + 1)) (item.withModel m4) DELETED
          { s2 with db := db4, cache := s2.cache.Remove (item.withModel m1),
                    log := s2.log ++ [Event.cacheRemove item.CollectionName m1.id,
                      Event.storageDelete t item.CollectionName m1.id] } := by
      simp only [DispatchedStorage.delete, run, deleteBody]
      simp only [triggerEvents] at h1 h2
      rw [h1]
      simp only [Nat.add_one_sub_one] at h2
      simp only [h2, DispatchedStorage.emit, hst, hd, List.append_assoc, List.singleton_append]
    rw [h5] at hdelete
    exact ⟨m5, _, hdelete, fun h01 => absurd h01 (by decide)⟩

/-- Witness of C10: image 1 is deleted while the second `deleted` handler of
`images` fails. -/
theorem delete_handler_failure_witness :
    ∃ m' s',
      deletedFails.delete 2 storedImage .root = some (some (.custom "test error"), m', s') ∧
      (1 = 0 →
        s' = { deletedFails with log := deletedFails.log ++
          (Event.pulled (fullNameOf storedImage DELETE) storedImage.id ::
            firedRange (fullNameOf storedImage DELETE) 0 ([okHandler].length + 1)) } ∧
        ((∀ h' ∈ [okHandler] ++ [failHandler "test error"], KeepsId h') →
          m'.id = storedImage.id)) :=
  delete_handler_failure deletedFails 2 storedImage .root 1 [okHandler] []
    (failHandler "test error") (.custom "test error") (by decide) (by decide) rfl
    (by intro h hh; simp at hh; subst hh; exact okHandler_directOk)
    (fun x => ⟨x.toModel, rfl⟩)
    (fun _ =>
      ⟨by
        intro h' hh
        refine exampleWithHandlers_directOk plainCfg (fullNameOf storedImage DELETE) h' ?_
        have hne : fullNameOf storedImage DELETE ≠ imageProto.CollectionName ++ "." ++ DELETED := by
          decide
        simp only [deletedFails, DispatchedStorage.RegisterHandler, if_neg hne] at hh
        exact hh,
      fun m1 => ⟨_, rfl⟩,
      fun x db => memStorage_delete_ok plainCfg rfl .root x db⟩)

/-- C7: when `delete` returns nil and the handlers of the entity return nil at once,
the record of the call is, in this order: the `delete` trigger with each of
its handlers; the events `cascade` of `deleteRelated` (the select and the full
delete of every child); the cache removal and then the backend delete, both
under the id `m1.id` the entity has before the backend resets it (the id at
entry when the handlers keep it); the `deleted` trigger with each of its
handlers.  The cache afterwards is the cache left by the cascade with the
entity removed under that id. -/
theorem delete_steps_in_order {β : Type} (s : DispatchedStorage β) (fuel : Nat) (item : Item)
    (t : Handle) (m' : Model) (s' : DispatchedStorage β) (hfuel : 2 ≤ fuel)
    (hhandlers : ∀ name, ∀ h ∈ s.triggers (fullNameOf item name), DirectOk h)
    (hdel : s.delete fuel item t = some (none, m', s')) :
    ∃ m1 s2 cascade m4,
      deleteRelated (run t (fuel - 1)) (item.withModel m1)
        { s with log := s.log ++ triggerEvents s item DELETE item.id } = some (none, s2) ∧
      s2.log = s.log ++ triggerEvents s item DELETE item.id ++ cascade ∧
      s.storage.Delete t (item.withModel m1) s2.db = (none, m4, s'.db) ∧
      s'.cache = s2.cache.Remove (item.withModel m1) ∧
      ((∀ h ∈ s.triggers (fullNameOf item DELETE), KeepsId h) → m1.id = item.id) ∧
      s'.log = s.log ++ triggerEvents s item DELETE item.id ++ cascade
        ++ [Event.cacheRemove item.CollectionName m1.id,
            Event.storageDelete t item.CollectionName m1.id]
        ++ triggerEvents s item DELETED m4.id := by
  obtain ⟨n, rfl⟩ : ∃ n, fuel = n + 2 := ⟨fuel - 2, by omega⟩
  obtain ⟨m1, h1⟩ := pullTrigger_directOk t n item DELETE s (hhandlers DELETE)
  have hid : (∀ h ∈ s.triggers (fullNameOf item DELETE), KeepsId h) → m1.id = item.id :=
    fun hk => pullTrigger_keepsId t n item DELETE s _ _ _ (hhandlers DELETE) hk h1
  simp only [DispatchedStorage.delete, run, deleteBody] at hdel
  rw [h1] at hdel
  simp only [Nat.add_one_sub_one]
  simp only at hdel
  split at hdel
  · cases hdel
  · cases hdel
  · rename_i s2 h2
    have f2 := deleteRelatedLoop_Frame _ (run_Frame t (n + 1)) _ _ _ _ _ h2
    obtain ⟨hst, _, htr, _, cascade, hlog⟩ := f2
    simp only at hst htr hlog
    split at hdel
    · cases hdel
    · rename_i m4 db4 h4
      simp only [DispatchedStorage.emit, hst] at h4
      obtain ⟨m5, h5⟩ := pullTrigger_directOk t n (item.withModel m4) DELETED
        { s2 with db := db4, cache := s2.cache.Remove (item.withModel m1),
                  log := s2.log ++ [Event.cacheRemove item.CollectionName m1.id] ++
                    [Event.storageDelete t item.CollectionName m1.id] }
        (by rw [congrFun htr _]; exact hhandlers DELETED)
      simp only [DispatchedStorage.emit] at hdel
      rw [h5] at hdel
      simp only [Option.some.injEq, Prod.mk.injEq, true_and] at hdel
      obtain ⟨_, rfl⟩ := hdel
      refine ⟨m1, s2, cascade, m4, h2, hlog, h4, rfl, hid, ?_⟩
      simp only [hlog, triggerEvents, fullNameOf, Item.withModel, congrFun htr _,
        List.append_assoc, List.singleton_append, List.cons_append, List.nil_append]

/-- Witness of C7: the stored user 1, owner of images 1 and 2, is deleted. -/
theorem delete_steps_in_order_witness :
    ∃ m1 s2 cascade m4,
      deleteRelated (run .root (3 - 1)) (storedUser.withModel m1)
        { exampleWithHandlers plainCfg with
          log := (exampleWithHandlers plainCfg).log ++
            triggerEvents (exampleWithHandlers plainCfg) storedUser DELETE storedUser.id } =
        some (none, s2) ∧
      s2.log = (exampleWithHandlers plainCfg).log ++
        triggerEvents (exampleWithHandlers plainCfg) storedUser DELETE storedUser.id ++ cascade ∧
      (exampleWithHandlers plainCfg).storage.Delete .root (storedUser.withModel m1) s2.db =
        (none, m4, afterDeleteUser.db) ∧
      afterDeleteUser.cache = s2.cache.Remove (storedUser.withModel m1) ∧
      ((∀ h ∈ (exampleWithHandlers plainCfg).triggers (fullNameOf storedUser DELETE), KeepsId h) →
        m1.id = storedUser.id) ∧
      afterDeleteUser.log = (exampleWithHandlers plainCfg).log ++
        triggerEvents (exampleWithHandlers plainCfg) storedUser DELETE storedUser.id ++ cascade
        ++ [Event.cacheRemove storedUser.CollectionName m1.id,
            Event.storageDelete .root storedUser.CollectionName m1.id]
        ++ triggerEvents (exampleWithHandlers plainCfg) storedUser DELETED m4.id :=
  delete_steps_in_order (exampleWithHandlers plainCfg) 3 storedUser .root
    { id := 0, fields := some [("email", .str "me@example.com")] } afterDeleteUser (by decide)
    (fun name => exampleWithHandlers_directOk plainCfg _) rfl

/-- C3: over the in-memory backend (with or without transactions; a transaction can
be begun), with handlers that return at once and keep the id, and stored rows
of nonzero id: after a public `Delete` of `parent` that returns nil, selecting
the children by the foreign key of any registered `HAS_MANY` relation of its
collection returns no row; and every row reachable from `parent` through
`HAS_MANY` relations (children, their children, ...) is gone from the backend,
went through the delete pipeline of its own (its `delete` trigger pulled
under its id, its cache entry removed, a backend delete issued for it alone,
its `deleted` trigger pulled), and is a cache miss afterwards. -/
theorem Delete_cascades_to_children (cfg : MemCfg) (s : DispatchedStorage MemDb) (fuel : Nat)
    (parent : Item) (m' : Model) (s' : DispatchedStorage MemDb)
    (hinv : CascadeInv cfg .root s) (hbegin : cfg.beginFails = false)
    (hdel : s.Delete fuel parent = some (.returned none, m', s')) :
    (∀ rel ∈ s.getRelationsOfType parent .HAS_MANY,
      s'.storage.Select .root rel.To [] 0 none 0 (fkCondition rel) [Value.uint64 parent.id] s'.db =
        (none, [])) ∧
    (∀ r, Descendant s.relations s.db.rows parent.CollectionName parent.id r →
      r ∉ s'.db.rows ∧
      DeletePipelineEvents (if s.transactSupport then .tx else .root) r
        (s'.log.drop s.log.length) ∧
      ∀ p : Item, p.CollectionName = r.collection → (s'.cache.Lookup p r.id).1 = false) := by
  by_cases htx : s.transactSupport = true
  · obtain ⟨s2, hrun, hs'⟩ :=
      Delete_transactional cfg s fuel parent hinv.storage htx hbegin m' s' hdel
    have hinv1 : CascadeInv cfg .tx
        { s.emit .txBegin with db := { s.db with work := some s.db.rows } } :=
      ⟨hinv.storage, hinv.direct, hinv.keeps, hinv.ids, fun _ h => h⟩
    have hout := run_delete_cascade cfg .tx fuel parent _ m' s2 hrun hinv1
    obtain ⟨l, hl, hev⟩ := hout.1.events
    have hrows' : s'.db.rows = s2.db.view .tx := by rw [hs']; rfl
    have hst' : s'.storage = memStorage cfg := by
      rw [hs']
      exact hout.1.frame.1.trans hinv.storage
    have hlog' : s'.log.drop s.log.length = [Event.txBegin] ++ l ++ [Event.txCommit] := by
      rw [hs']
      simp only [DispatchedStorage.emit, hl]
      simp
    constructor
    · intro rel hrel
      rw [hst', memStorage_select_root]
      have : s'.db.rows.filter
          (rowMatches rel.To.CollectionName (fkCondition rel) [Value.uint64 parent.id]) = [] := by
        rw [List.filter_eq_nil_iff]
        intro c hc hm
        rw [hrows'] at hc
        exact hout.2.2 c hc ⟨rel, hrel, hm⟩
      rw [this]
      rfl
    · intro r hr
      have hgone := descendants_gone .tx _ s2 parent hout r hr
      rw [hrows', hlog']
      simp only [htx, ↓reduceIte]
      refine ⟨hgone.2, (hev r hgone.1 hgone.2).1.mono _ _, fun p hp => ?_⟩
      have := (hev r hgone.1 hgone.2).2 p hp
      rw [hs']
      exact this
  · have hrun := Delete_nontransactional s fuel parent htx m' s' hdel
    have hout := run_delete_cascade cfg .root fuel parent s m' s' hrun hinv
    obtain ⟨l, hl, hev⟩ := hout.1.events
    constructor
    · intro rel hrel
      rw [hout.1.frame.1, hinv.storage, memStorage_select_root]
      have : s'.db.rows.filter
          (rowMatches rel.To.CollectionName (fkCondition rel) [Value.uint64 parent.id]) = [] := by
        rw [List.filter_eq_nil_iff]
        intro c hc hm
        exact hout.2.2 c hc ⟨rel, hrel, hm⟩
      rw [this]
      rfl
    · intro r hr
      have hgone := descendants_gone .root s s' parent hout r hr
      have hdrop : s'.log.drop s.log.length = l := by rw [hl]; simp
      rw [hdrop]
      simp only [htx, Bool.false_eq_true, ↓reduceIte]
      exact ⟨hgone.2, hev r hgone.1 hgone.2⟩

/-- Witness of C3: user 1, owner of images 1 and 2, is deleted. -/
theorem Delete_cascades_to_children_witness :
    (∀ rel ∈ (exampleWithHandlers plainCfg).getRelationsOfType storedUser .HAS_MANY,
      afterDeleteUser.storage.Select .root rel.To [] 0 none 0 (fkCondition rel)
        [Value.uint64 storedUser.id] afterDeleteUser.db = (none, [])) ∧
    (∀ r, Descendant (exampleWithHandlers plainCfg).relations (exampleWithHandlers plainCfg).db.rows
        storedUser.CollectionName storedUser.id r →
      r ∉ afterDeleteUser.db.rows ∧
      DeletePipelineEvents (if (exampleWithHandlers plainCfg).transactSupport then .tx else .root) r
        (afterDeleteUser.log.drop (exampleWithHandlers plainCfg).log.length) ∧
      ∀ p : Item, p.CollectionName = r.collection → (afterDeleteUser.cache.Lookup p r.id).1 = false) :=
  Delete_cascades_to_children plainCfg (exampleWithHandlers plainCfg) 3 storedUser
    { id := 0, fields := some [("email", .str "me@example.com")] } afterDeleteUser
    (exampleWithHandlers_cascadeInv plainCfg) rfl rfl

/-- C20: `Reversed` always yields a relation; it swaps `From` and `To`, keeps the foreign
key name, has type `BELONGS_TO` for `HAS_ONE` and `HAS_MANY` and `HAS_MANY` for
`BELONGS_TO`, hence never `HAS_ONE`; reversing twice gives back `From`, `To` and
the foreign key, with `HAS_ONE` turned into `HAS_MANY` and the other two types
kept. -/
theorem Reversed_swaps (r : Relation) :
    ∃ r1 r2, r.Reversed = some r1 ∧ r1.Reversed = some r2 ∧
      r1.From = r.To ∧ r1.To = r.From ∧ r1.ForeignKey = r.ForeignKey ∧
      r1.Typ = (match r.Typ with
        | .HAS_ONE => .BELONGS_TO
        | .HAS_MANY => .BELONGS_TO
        | .BELONGS_TO => .HAS_MANY) ∧
      r1.Typ ≠ .HAS_ONE ∧
      r2.From = r.From ∧ r2.To = r.To ∧ r2.ForeignKey = r.ForeignKey ∧
      r2.Typ = (match r.Typ with
        | .HAS_ONE => .HAS_MANY
        | .HAS_MANY => .HAS_MANY
        | .BELONGS_TO => .BELONGS_TO) := by
  obtain ⟨f, t, fk, ty, g⟩ := r
  cases ty <;> simp [Relation.Reversed]

/-- C14: the public `Select` returns the error and the results of the backend select
on the root storage for the same arguments, leaves the cache (and the backend
state) as they were, and gives the same answer whatever the cache holds. -/
theorem Select_delegates {β : Type} (s : DispatchedStorage β) (proto : Item) (results : List Item)
    (cap : Nat) (order : Option String) (skip : Int) (condition : String) (args : List Value) :
    ((s.Select proto results cap order skip condition args).1,
        (s.Select proto results cap order skip condition args).2.1) =
      s.storage.Select .root proto results cap order skip condition args s.db ∧
    (s.Select proto results cap order skip condition args).2.2.cache = s.cache ∧
    (s.Select proto results cap order skip condition args).2.2.db = s.db ∧
    ∀ c : ItemsCache,
      (({ s with cache := c }.Select proto results cap order skip condition args).1,
        ({ s with cache := c }.Select proto results cap order skip condition args).2.1) =
      ((s.Select proto results cap order skip condition args).1,
        (s.Select proto results cap order skip condition args).2.1) := by
  simp [DispatchedStorage.Select, DispatchedStorage.emit]

/-- C19 (failing input): adding the same image twice to an empty cache of capacity
100 leaves one entry while the item count is 2. -/
theorem Add_overwrite_increments_count :
    (((NewItemsCache 100).Add storedImage).Add storedImage).itemsCount = 2 ∧
    (((NewItemsCache 100).Add storedImage).Add storedImage).entryCount = 1 ∧
    ((NewItemsCache 100).Add storedImage).itemsCount = 1 := by
  decide

/-- C15: for a cache of capacity above 0 and an item that is `Storable`, `Lookup` right
after `Add(item)`, for a target of the same collection and the id of the item,
is a hit and fills the target through `Fill` with that id and the field map of
the item.  In any cache, `Lookup` under a key that holds no entry is a miss
and returns the target as it was, and so is `Lookup` under a key whose cached
entity is not `Storable`. -/
theorem Add_then_Lookup (c : ItemsCache) (item proto : Item) (hcap : 0 < c.maxSize)
    (hst : item.storable = true) (hcoll : proto.CollectionName = item.CollectionName) :
    (c.Add item).Lookup proto item.id = (true, proto.Fill item.id item.Fields) ∧
    (∀ (c0 : ItemsCache) (p : Item) (id : Nat),
      c0.entry p.CollectionName id = none → c0.Lookup p id = (false, p)) ∧
    (∀ (c0 : ItemsCache) (p : Item) (id : Nat) (e : Item),
      c0.entry p.CollectionName id = some (some e) → e.storable = false →
      c0.Lookup p id = (false, p)) := by
  have hne : c.maxSize ≠ 0 := by omega
  refine ⟨?_, ?_, ?_⟩
  · rw [Lookup_eq_entry, Add_maxSize, hcoll, entry_Add_same c item hne]
    simp [hne, hst]
  · intro c0 p id h
    rw [Lookup_eq_entry, h]
    simp
  · intro c0 p id e h he
    rw [Lookup_eq_entry, h]
    simp [he]

/-- Witness of C15: image 1 is added to an empty cache of capacity 100 and looked up. -/
theorem Add_then_Lookup_witness :
    ((NewItemsCache 100).Add storedImage).Lookup imageProto storedImage.id =
      (true, imageProto.Fill storedImage.id storedImage.Fields) ∧
    (∀ (c0 : ItemsCache) (p : Item) (id : Nat),
      c0.entry p.CollectionName id = none → c0.Lookup p id = (false, p)) ∧
    (∀ (c0 : ItemsCache) (p : Item) (id : Nat) (e : Item),
      c0.entry p.CollectionName id = some (some e) → e.storable = false →
      c0.Lookup p id = (false, p)) :=
  Add_then_Lookup (NewItemsCache 100) storedImage imageProto (by decide) rfl rfl

/-- C16: in a cache that is switched on, `Remove` of an item whose key holds an entry
puts the nil tombstone under that key: `Lookup` for the key misses, the key is
still there, the item count and the number of keys are as before, and the
entry under every other key is as before.  In any cache, `Remove` of an item
whose key holds no entry changes nothing. -/
theorem Remove_tombstones (c : ItemsCache) (item : Item) (v : Option Item) (hcap : c.maxSize ≠ 0)
    (hcached : c.entry item.CollectionName item.id = some v) :
    (c.Remove item).entry item.CollectionName item.id = some none ∧
    (∀ p : Item, p.CollectionName = item.CollectionName →
      (c.Remove item).Lookup p item.id = (false, p)) ∧
    (c.Remove item).itemsCount = c.itemsCount ∧
    (c.Remove item).entryCount = c.entryCount ∧
    (c.Remove item).maxSize = c.maxSize ∧
    (∀ cname id, ¬ (cname = item.CollectionName ∧ id = item.id) →
      (c.Remove item).entry cname id = c.entry cname id) ∧
    (∀ (c0 : ItemsCache) (x : Item), c0.entry x.CollectionName x.id = none → c0.Remove x = c0) := by
  have hrm := Remove_of_cached c item hcap v hcached
  have hentry : ∀ cn i, (c.Remove item).entry cn i =
      if cn = item.CollectionName ∧ i = item.id then some none else c.entry cn i := by
    intro cn i
    rw [hrm]
    exact entry_set _ _ _ _ _ _
  refine ⟨by rw [hentry]; simp, ?_, by rw [hrm], ?_, by rw [hrm], ?_,
    fun c0 x h => Remove_of_absent c0 x h⟩
  · intro p hp
    rw [Lookup_eq_entry, hp, hentry]
    simp
  · unfold ItemsCache.entry at hcached
    cases hg : mapGet c.data item.CollectionName with
    | none => rw [hg] at hcached; simp at hcached
    | some inner =>
      rw [hg] at hcached
      simp only [Option.some_bind] at hcached
      rw [hrm]
      simp only [ItemsCache.entryCount, hg, Option.getD_some]
      exact entryCount_mapSet _ _ inner _ hg (mapSet_length_of_mem _ _ _ _ hcached)
  · intro cn i hk
    rw [hentry]
    simp [hk]

/-- Witness of C16: image 1 is removed from the cache that holds it. -/
theorem Remove_tombstones_witness :
    (oneImageCache.Remove storedImage).entry storedImage.CollectionName storedImage.id =
      some none ∧
    (∀ p : Item, p.CollectionName = storedImage.CollectionName →
      (oneImageCache.Remove storedImage).Lookup p storedImage.id = (false, p)) ∧
    (oneImageCache.Remove storedImage).itemsCount = oneImageCache.itemsCount ∧
    (oneImageCache.Remove storedImage).entryCount = oneImageCache.entryCount ∧
    (oneImageCache.Remove storedImage).maxSize = oneImageCache.maxSize ∧
    (∀ cname id, ¬ (cname = storedImage.CollectionName ∧ id = storedImage.id) →
      (oneImageCache.Remove storedImage).entry cname id = oneImageCache.entry cname id) ∧
    (∀ (c0 : ItemsCache) (x : Item), c0.entry x.CollectionName x.id = none → c0.Remove x = c0) :=
  Remove_tombstones oneImageCache storedImage (some storedImage) (by decide) (by decide)

/-- C17: in a cache that is switched on (capacity not 0), an `Add` made while the
item count equals the capacity drops every entry and leaves exactly the new
item, with item count 1; an `Add` made while the count differs from the
capacity (so also while it is below) stores the item under its key, raises
the count by one and keeps the entry under every other key. -/
theorem Add_flushes_at_capacity (c : ItemsCache) (item : Item) (hcap : c.maxSize ≠ 0) :
    ((c.itemsCount : Int) = c.maxSize →
      c.Add item = { data := [(item.CollectionName, [(item.id, some item)])], itemsCount := 1,
                     maxSize := c.maxSize }) ∧
    ((c.itemsCount : Int) ≠ c.maxSize →
      (c.Add item).entry item.CollectionName item.id = some (some item) ∧
      (c.Add item).itemsCount = c.itemsCount + 1 ∧
      ∀ cname id, ¬ (cname = item.CollectionName ∧ id = item.id) →
        (c.Add item).entry cname id = c.entry cname id) := by
  refine ⟨Add_at_capacity c item hcap, fun hnf => ⟨entry_Add_same c item hcap, ?_, ?_⟩⟩
  · simp [ItemsCache.Add, hcap, hnf]
  · intro cn i hk
    rw [entry_Add c item hcap hnf]
    simp [hk]

/-- Witness of C17: a user is added to the cache of capacity 1 that holds image 1. -/
theorem Add_flushes_at_capacity_witness :
    ((fullCache.itemsCount : Int) = fullCache.maxSize →
      fullCache.Add storedUser =
        { data := [(storedUser.CollectionName, [(storedUser.id, some storedUser)])],
          itemsCount := 1, maxSize := fullCache.maxSize }) ∧
    ((fullCache.itemsCount : Int) ≠ fullCache.maxSize →
      (fullCache.Add storedUser).entry storedUser.CollectionName storedUser.id =
        some (some storedUser) ∧
      (fullCache.Add storedUser).itemsCount = fullCache.itemsCount + 1 ∧
      ∀ cname id, ¬ (cname = storedUser.CollectionName ∧ id = storedUser.id) →
        (fullCache.Add storedUser).entry cname id = fullCache.entry cname id) :=
  Add_flushes_at_capacity fullCache storedUser (by decide)

/-- C18: a cache created with capacity 0 is, after every sequence of `Add`, `Remove`,
`Clear` and `Lookup`, the empty cache it was created as; in that state `Add`
and `Remove` return the cache unchanged and `Lookup` is a miss that returns
the target as it was. -/
theorem capacity_zero_disables (ops : List CacheOp) (item p : Item) (id : Nat) :
    (NewItemsCache 0).applyAll ops = NewItemsCache 0 ∧
    ((NewItemsCache 0).applyAll ops).data = [] ∧
    ((NewItemsCache 0).applyAll ops).Add item = (NewItemsCache 0).applyAll ops ∧
    ((NewItemsCache 0).applyAll ops).Remove item = (NewItemsCache 0).applyAll ops ∧
    ((NewItemsCache 0).applyAll ops).Lookup p id = (false, p) := by
  rw [applyAll_capacity_zero]
  exact ⟨rfl, rfl, rfl, rfl, rfl⟩

/-- C13: on a cache miss `Load` calls the backend load once (one `storageLoad` event on
the root storage).  When the backend fails, `Load` returns its error and the
cache is as before.  When the backend succeeds, `Load` returns nil and the
cache is the old cache after `Add` of the loaded entity; in a cache that is
switched on the entity is then held under its collection and id. -/
theorem Load_miss_delegates {β : Type} (s : DispatchedStorage β) (dst : Item) (id : Nat)
    (hmiss : (s.cache.Lookup dst id).1 = false) :
    (∀ err m, s.storage.Load .root dst id s.db = (some err, m) →
      s.Load dst id = (some err, dst.withModel m,
        { s with log := (s.log ++ [.storageLoad .root dst.CollectionName id]) })) ∧
    (∀ m, s.storage.Load .root dst id s.db = (none, m) →
      s.Load dst id = (none, dst.withModel m,
        { s with cache := (s.cache.Add (dst.withModel m)),
                 log := (s.log ++ [.storageLoad .root dst.CollectionName id] ++
                          [.cacheAdd dst.CollectionName m.id]) }) ∧
      (s.cache.maxSize ≠ 0 →
        (s.cache.Add (dst.withModel m)).entry dst.CollectionName m.id =
          some (some (dst.withModel m)))) := by
  have hl := Lookup_miss s.cache dst id hmiss
  refine ⟨?_, ?_⟩
  · intro err m hb
    simp only [DispatchedStorage.Load, hl, hb, DispatchedStorage.emit]
  · intro m hb
    refine ⟨?_, fun hcap => entry_Add_same s.cache (dst.withModel m) hcap⟩
    simp only [DispatchedStorage.Load, hl, hb, DispatchedStorage.emit]

/-- Witness of C13: image 1 is loaded through the example dispatcher, whose cache is empty. -/
theorem Load_miss_delegates_witness :
    ((exampleDispatcher plainCfg).cache.Lookup imageProto 1).1 = false ∧
    (exampleDispatcher plainCfg).storage.Load .root imageProto 1 (exampleDispatcher plainCfg).db =
      (none, storedImage.toModel) ∧
    (exampleDispatcher plainCfg).Load imageProto 1 =
      (none, storedImage,
        { exampleDispatcher plainCfg with
          cache := ((exampleDispatcher plainCfg).cache.Add storedImage),
          log := [.storageLoad .root "images" 1, .cacheAdd "images" 1] }) :=
  ⟨rfl, rfl,
    ((Load_miss_delegates (exampleDispatcher plainCfg) imageProto 1 rfl).2
      storedImage.toModel rfl).1⟩

/-- C12: with a cache capacity above 0, after a `Load(t1, id)` that returned nil for an
entity `t1` that is `Storable` and came back with that id, a `Load(t2, id)`
made right after for a target of the same collection returns nil, leaves the
dispatcher exactly as it was (no backend load is recorded) and fills `t2`
with the id and the field map `f` of the cached entity, the map `t1` was
filled with; when `f` is not nil it is the field map of both targets. -/
theorem Load_twice_hits_cache {β : Type} (s : DispatchedStorage β) (t1 t2 : Item) (id : Nat)
    (hcap : 0 < s.cache.maxSize) (hst : t1.storable = true)
    (hcoll : t2.CollectionName = t1.CollectionName)
    (hok : (s.Load t1 id).1 = none) (hid : (s.Load t1 id).2.1.id = id) :
    ∃ f, (s.Load t1 id).2.1.Fill id f = (s.Load t1 id).2.1 ∧
      (s.Load t1 id).2.2.Load t2 id = (none, t2.Fill id f, (s.Load t1 id).2.2) ∧
      (f ≠ none → (s.Load t1 id).2.1.Fields = f ∧ (t2.Fill id f).Fields = f) := by
  have hne : s.cache.maxSize ≠ 0 := by omega
  cases hh : (s.cache.Lookup t1 id).1 with
  | true =>
    obtain ⟨_, r, he, hr, hl⟩ := Lookup_hit s.cache t1 id hh
    have h1 : s.Load t1 id = (none, t1.Fill id r.Fields, s) := by
      simp only [DispatchedStorage.Load, hl]
    have hl2 : s.cache.Lookup t2 id = (true, t2.Fill id r.Fields) := by
      rw [Lookup_eq_entry, hcoll, he]
      simp [hne, hr]
    rw [h1]
    refine ⟨r.Fields, Fill_Fill _ _ _, ?_, fun hf => ⟨Fill_fields _ _ _ hf, Fill_fields _ _ _ hf⟩⟩
    simp only [DispatchedStorage.Load, hl2]
  | false =>
    have hl := Lookup_miss s.cache t1 id hh
    cases hb : s.storage.Load .root t1 id s.db with
    | mk e m =>
      cases e with
      | some err =>
        simp [DispatchedStorage.Load, hl, hb] at hok
      | none =>
        have h1 := ((Load_miss_lemma s t1 id hh).2 m hb)
        rw [h1] at hid ⊢
        have hmid : m.id = id := hid
        have hl2 : (s.cache.Add (t1.withModel m)).Lookup t2 id =
            (true, t2.Fill id (t1.withModel m).Fields) := by
          have he := entry_Add_same s.cache (t1.withModel m) hne
          rw [Lookup_eq_entry, Add_maxSize, hcoll]
          have hk : (t1.withModel m).id = id := hmid
          rw [hk] at he
          have hc : (t1.withModel m).CollectionName = t1.CollectionName := rfl
          rw [hc] at he
          rw [he]
          have hs : (t1.withModel m).storable = true := hst
          simp [hne, hs]
        refine ⟨(t1.withModel m).Fields, ?_, ?_, fun hf => ⟨rfl, Fill_fields _ _ _ hf⟩⟩
        · have := Fill_own (t1.withModel m)
          rw [show (t1.withModel m).id = id from hmid] at this
          exact this
        · simp only [DispatchedStorage.Load, hl2]

/-- Witness of C12: image 1 is loaded twice through the example dispatcher. -/
theorem Load_twice_hits_cache_witness :
    ∃ f, ((exampleDispatcher plainCfg).Load imageProto 1).2.1.Fill 1 f =
        ((exampleDispatcher plainCfg).Load imageProto 1).2.1 ∧
      ((exampleDispatcher plainCfg).Load imageProto 1).2.2.Load orphanImage 1 =
        (none, orphanImage.Fill 1 f, ((exampleDispatcher plainCfg).Load imageProto 1).2.2) ∧
      (f ≠ none → ((exampleDispatcher plainCfg).Load imageProto 1).2.1.Fields = f ∧
        (orphanImage.Fill 1 f).Fields = f) :=
  Load_twice_hits_cache (exampleDispatcher plainCfg) imageProto orphanImage 1 (by decide) rfl rfl
    rfl rfl

/-- C11 (counterexample): `Delete` of a user with id 0 through the example dispatcher,
whose backend also holds an image with `users_id` 0, returns nil, yet the
handlers on `users.delete` and `users.deleted` run, the images with foreign
key 0 are selected, image 4 goes through its own delete pipeline (handlers
included) and is gone from the backend afterwards. -/
theorem Delete_id_zero_runs_pipeline :
    userProto.id = 0 ∧
    zeroFkDispatcher.db.rows = exampleDb.rows ++
      [⟨"images", 4, [("users_id", .uint64 0), ("filename", .str "x.jpg")]⟩] ∧
    (zeroFkDispatcher.Delete 3 userProto).map (fun r => (r.1, r.2.2.log, r.2.2.db.rows)) =
      some (.returned none,
        [.pulled "users.delete" 0, .fired "users.delete" 0,
         .storageSelect .root "images" "`images`.`users_id`=?" [.uint64 0],
         .pulled "images.delete" 4, .fired "images.delete" 0,
         .cacheRemove "images" 4, .storageDelete .root "images" 4,
         .pulled "images.deleted" 0, .fired "images.deleted" 0,
         .cacheRemove "users" 0, .storageDelete .root "users" 0,
         .pulled "users.deleted" 0, .fired "users.deleted" 0],
        exampleDb.rows) := by
  decide

/-- C11 (amended): for an entity with id 0 whose collection has no handler on `delete`
and on `deleted` and whose child selections return no row, over a backend
whose delete of that entity changes nothing, the unit of work `delete` returns
nil with the entity and the backend state as they were.  It still pulls both
triggers, selects the children of every `HAS_MANY` relation, calls `Remove` on
the cache and `Delete` on the backend; the cache is as before when it holds
nothing under id 0 of the collection.  Outside a transaction the public
`Delete` returns the same. -/
theorem delete_id_zero_without_handlers_or_children {β : Type} (s : DispatchedStorage β)
    (fuel : Nat) (item : Item) (t : Handle) (hfuel : 1 ≤ fuel) (hid : item.id = 0)
    (hdel : s.triggers (fullNameOf item DELETE) = [])
    (hdeld : s.triggers (fullNameOf item DELETED) = [])
    (hnochild : ∀ rel ∈ s.getRelationsOfType item .HAS_MANY,
      s.storage.Select .root rel.To [] 0 none 0 (fkCondition rel) [Value.uint64 item.id] s.db =
        (none, []))
    (hnoop : s.storage.Delete t item s.db = (none, item.toModel, s.db)) :
    s.delete fuel item t =
      some (none, item.toModel,
        { s with cache := (s.cache.Remove item),
                 log := (s.log ++ [.pulled (fullNameOf item DELETE) 0] ++ childSelects s item ++
                   [.cacheRemove item.CollectionName 0, .storageDelete t item.CollectionName 0,
                    .pulled (fullNameOf item DELETED) 0]) }) ∧
    (s.cache.entry item.CollectionName 0 = none → s.cache.Remove item = s.cache) ∧
    (s.transactSupport = false → t = Handle.root →
      s.Delete fuel item =
        some (.returned none, item.toModel,
          { s with cache := (s.cache.Remove item),
                   log := (s.log ++ [.pulled (fullNameOf item DELETE) 0] ++ childSelects s item ++
                     [.cacheRemove item.CollectionName 0,
                      .storageDelete .root item.CollectionName 0,
                      .pulled (fullNameOf item DELETED) 0]) })) := by
  obtain ⟨n, rfl⟩ : ∃ n, fuel = n + 1 := ⟨fuel - 1, by omega⟩
  have hrel := deleteRelatedLoop_noChildren (run t n) item
    (s.getRelationsOfType item .HAS_MANY)
    (s.emit (.pulled (fullNameOf item DELETE) item.id)) hnochild
  have hmain : s.delete (n + 1) item t =
      some (none, item.toModel,
        { s with cache := (s.cache.Remove item),
                 log := (s.log ++ [.pulled (fullNameOf item DELETE) 0] ++ childSelects s item ++
                   [.cacheRemove item.CollectionName 0, .storageDelete t item.CollectionName 0,
                    .pulled (fullNameOf item DELETED) 0]) }) := by
    have hw : item.withModel item.toModel = item := rfl
    simp only [DispatchedStorage.delete, run, deleteBody, pullTrigger_noHandlers _ _ _ _ hdel, hw,
      deleteRelated]
    have hg : (s.emit (.pulled (fullNameOf item DELETE) item.id)).getRelationsOfType item
        .HAS_MANY = s.getRelationsOfType item .HAS_MANY := rfl
    rw [hg, hrel]
    simp only [DispatchedStorage.emit, hnoop]
    rw [hw, pullTrigger_eq]
    simp [DispatchedStorage.emit, childSelects, hid, hdeld, pullLoop]
  refine ⟨hmain, ?_, ?_⟩
  · intro hc
    exact Remove_of_absent s.cache item (by rw [hid]; exact hc)
  · intro hnt ht
    subst ht
    simp [DispatchedStorage.Delete, DispatchedStorage.performWithTransaction, hnt, hmain,
      clearOnError]

/-- Witness of C11 (amended): a user with id 0 is deleted through the example dispatcher
without handlers, whose backend holds no image with `users_id` 0. -/
theorem delete_id_zero_without_handlers_or_children_witness :
    (exampleDispatcher plainCfg).delete 1 userProto .root =
      some (none, userProto.toModel,
        { exampleDispatcher plainCfg with
          cache := ((exampleDispatcher plainCfg).cache.Remove userProto),
          log := ((exampleDispatcher plainCfg).log ++ [.pulled (fullNameOf userProto DELETE) 0] ++
            childSelects (exampleDispatcher plainCfg) userProto ++
            [.cacheRemove userProto.CollectionName 0,
             .storageDelete .root userProto.CollectionName 0,
             .pulled (fullNameOf userProto DELETED) 0]) }) ∧
    ((exampleDispatcher plainCfg).cache.entry userProto.CollectionName 0 = none →
      (exampleDispatcher plainCfg).cache.Remove userProto = (exampleDispatcher plainCfg).cache) ∧
    ((exampleDispatcher plainCfg).transactSupport = false → Handle.root = Handle.root →
      (exampleDispatcher plainCfg).Delete 1 userProto =
        some (.returned none, userProto.toModel,
          { exampleDispatcher plainCfg with
            cache := ((exampleDispatcher plainCfg).cache.Remove userProto),
            log := ((exampleDispatcher plainCfg).log ++
              [.pulled (fullNameOf userProto DELETE) 0] ++
              childSelects (exampleDispatcher plainCfg) userProto ++
              [.cacheRemove userProto.CollectionName 0,
               .storageDelete .root userProto.CollectionName 0,
               .pulled (fullNameOf userProto DELETED) 0]) })) :=
  delete_id_zero_without_handlers_or_children (exampleDispatcher plainCfg) 1 userProto .root
    (by decide) rfl rfl rfl (by decide) rfl

/-- C21: when lookup finds no relation of the type of `r` from `r.From` to `r.To` and
none of the reversed type the other way round, then after `RegisterRelation(r)`
lookup of `(r.From, r.To, r.Type)` returns `r` and lookup of `(r.To, r.From,
reversed type)` returns the reverse `Reversed` computes.  For a `HAS_MANY`
relation `LoadSubitems` therefore goes on to the select by the foreign key of
`r`, and `LoadParentItem` to the foreign key value of the child and the load
of the parent. -/
theorem RegisterRelation_lookup {β : Type} (s : DispatchedStorage β) (r : Relation)
    (frm dst : Item) (hfrom : frm.CollectionName = r.From.CollectionName)
    (hto : dst.CollectionName = r.To.CollectionName)
    (h1 : s.lookupRelationBetween r.From r.To r.Typ = none)
    (h2 : s.lookupRelationBetween r.To r.From (reversedType r.Typ) = none) :
    r.Reversed = some (reverseOf r) ∧
    (s.RegisterRelation r).lookupRelationBetween frm dst r.Typ = some r ∧
    (s.RegisterRelation r).lookupRelationBetween dst frm (reversedType r.Typ) =
      some (reverseOf r) ∧
    (r.Typ = .HAS_MANY → ∀ results cap,
      (s.RegisterRelation r).LoadSubitems frm dst results cap =
        (s.RegisterRelation r).Select dst results cap none 0 (fkCondition r)
          [Value.uint64 frm.id]) ∧
    (r.Typ = .HAS_MANY →
      (s.RegisterRelation r).LoadParentItem dst frm =
        match loadFkValue dst (reverseOf r) with
        | .error err => (some err, frm, s.RegisterRelation r)
        | .ok id => (s.RegisterRelation r).Load frm id) := by
  have ha : (s.RegisterRelation r).lookupRelationBetween frm dst r.Typ = some r := by
    rw [lookup_congr _ frm r.From dst r.To _ hfrom hto]
    exact lookup_RegisterRelation_first s r h1
  have hb : (s.RegisterRelation r).lookupRelationBetween dst frm (reversedType r.Typ) =
      some (reverseOf r) := by
    rw [lookup_congr _ dst r.To frm r.From _ hto hfrom]
    exact lookup_RegisterRelation_reverse s r h2
  refine ⟨Reversed_eq r, ha, hb, ?_, ?_⟩
  · intro ht results cap
    rw [ht] at ha
    simp only [DispatchedStorage.LoadSubitems, ha]
  · intro ht
    rw [ht] at hb
    have hb2 : (s.RegisterRelation r).lookupRelationBetween dst frm .BELONGS_TO =
        some (reverseOf r) := hb
    simp only [DispatchedStorage.LoadParentItem, hb2]

/-- Witness of C21: `users` HAS_MANY `images` is registered on a fresh dispatcher. -/
theorem RegisterRelation_lookup_witness :
    (NewHasManyRelation userProto imageProto).Reversed =
      some (reverseOf (NewHasManyRelation userProto imageProto)) ∧
    (bareDispatcher.RegisterRelation (NewHasManyRelation userProto imageProto)).lookupRelationBetween
        storedUser storedImage (NewHasManyRelation userProto imageProto).Typ =
      some (NewHasManyRelation userProto imageProto) ∧
    (bareDispatcher.RegisterRelation (NewHasManyRelation userProto imageProto)).lookupRelationBetween
        storedImage storedUser (reversedType (NewHasManyRelation userProto imageProto).Typ) =
      some (reverseOf (NewHasManyRelation userProto imageProto)) ∧
    ((NewHasManyRelation userProto imageProto).Typ = .HAS_MANY → ∀ results cap,
      (bareDispatcher.RegisterRelation (NewHasManyRelation userProto imageProto)).LoadSubitems
          storedUser storedImage results cap =
        (bareDispatcher.RegisterRelation (NewHasManyRelation userProto imageProto)).Select
          storedImage results cap none 0 (fkCondition (NewHasManyRelation userProto imageProto))
          [Value.uint64 storedUser.id]) ∧
    ((NewHasManyRelation userProto imageProto).Typ = .HAS_MANY →
      (bareDispatcher.RegisterRelation (NewHasManyRelation userProto imageProto)).LoadParentItem
          storedImage storedUser =
        match loadFkValue storedImage (reverseOf (NewHasManyRelation userProto imageProto)) with
        | .error err =>
          (some err, storedUser,
            bareDispatcher.RegisterRelation (NewHasManyRelation userProto imageProto))
        | .ok id =>
          (bareDispatcher.RegisterRelation (NewHasManyRelation userProto imageProto)).Load
            storedUser id) :=
  RegisterRelation_lookup bareDispatcher (NewHasManyRelation userProto imageProto) storedUser
    storedImage rfl rfl rfl rfl

/-- C22: a relation that lookup finds for a triple is the one lookup finds for that
triple after every later sequence of `RegisterRelation` calls.  So a relation
`r` registered while lookup found none for its triple stays the answer for
`(r.From, r.To, r.Type)`, and its computed reverse, when lookup found none
for the reversed triple, stays the answer for `(r.To, r.From, reversed type)`,
whatever is registered afterwards. -/
theorem lookup_first_registered_wins {β : Type} (s : DispatchedStorage β) (r : Relation)
    (rs : List Relation) (frm dst : Item) (hfrom : frm.CollectionName = r.From.CollectionName)
    (hto : dst.CollectionName = r.To.CollectionName) :
    (∀ (t : RelationType) (r0 : Relation), s.lookupRelationBetween frm dst t = some r0 →
      (registerAll s rs).lookupRelationBetween frm dst t = some r0) ∧
    (s.lookupRelationBetween r.From r.To r.Typ = none →
      (registerAll (s.RegisterRelation r) rs).lookupRelationBetween frm dst r.Typ = some r) ∧
    (s.lookupRelationBetween r.To r.From (reversedType r.Typ) = none →
      (registerAll (s.RegisterRelation r) rs).lookupRelationBetween dst frm
        (reversedType r.Typ) = some (reverseOf r)) := by
  refine ⟨fun t r0 h => lookup_registerAll_some frm dst t r0 rs s h, ?_, ?_⟩
  · intro h1
    apply lookup_registerAll_some
    rw [lookup_congr _ frm r.From dst r.To _ hfrom hto]
    exact lookup_RegisterRelation_first s r h1
  · intro h2
    apply lookup_registerAll_some
    rw [lookup_congr _ dst r.To frm r.From _ hto hfrom]
    exact lookup_RegisterRelation_reverse s r h2

/-- Witness of C22: after `users` HAS_MANY `images`, a `BELONGS_TO` relation from
`images` to `users` and a second `HAS_MANY` relation, both with another
foreign key, are registered; lookup still returns the first relation and its
computed reverse. -/
theorem lookup_first_registered_wins_witness :
    (registerAll (bareDispatcher.RegisterRelation (NewHasManyRelation userProto imageProto))
        [(NewBelongsToRelation imageProto userProto).WithFK "owner_id",
         (NewHasManyRelation userProto imageProto).WithFK "owner_id"]).lookupRelationBetween
        storedUser storedImage (NewHasManyRelation userProto imageProto).Typ =
      some (NewHasManyRelation userProto imageProto) ∧
    (registerAll (bareDispatcher.RegisterRelation (NewHasManyRelation userProto imageProto))
        [(NewBelongsToRelation imageProto userProto).WithFK "owner_id",
         (NewHasManyRelation userProto imageProto).WithFK "owner_id"]).lookupRelationBetween
        storedImage storedUser (reversedType (NewHasManyRelation userProto imageProto).Typ) =
      some (reverseOf (NewHasManyRelation userProto imageProto)) :=
  ⟨(lookup_first_registered_wins bareDispatcher (NewHasManyRelation userProto imageProto)
      [(NewBelongsToRelation imageProto userProto).WithFK "owner_id",
       (NewHasManyRelation userProto imageProto).WithFK "owner_id"] storedUser storedImage
      rfl rfl).2.1 rfl,
   (lookup_first_registered_wins bareDispatcher (NewHasManyRelation userProto imageProto)
      [(NewBelongsToRelation imageProto userProto).WithFK "owner_id",
       (NewHasManyRelation userProto imageProto).WithFK "owner_id"] storedUser storedImage
      rfl rfl).2.2 rfl⟩

/-- C23: the three constructors set `From`, `To` and the type as named, with no dynamic
resolver, and the foreign key `collection_pk` of the entity the key refers to:
`From` for `HAS_ONE` and `HAS_MANY`, `To` for `BELONGS_TO`.  The reverse of
`NewHasManyRelation(a, b)` is `NewBelongsToRelation(b, a)`, and `WithFK`
changes the foreign key name and nothing else. -/
theorem default_foreign_key (a b : Item) (r : Relation) (fk : String) :
    NewHasOneRelation a b =
      { From := a, To := b, ForeignKey := a.CollectionName ++ "_" ++ a.PKName, Typ := .HAS_ONE,
        GetForeignKeyFunc := none } ∧
    NewHasManyRelation a b =
      { From := a, To := b, ForeignKey := a.CollectionName ++ "_" ++ a.PKName, Typ := .HAS_MANY,
        GetForeignKeyFunc := none } ∧
    NewBelongsToRelation a b =
      { From := a, To := b, ForeignKey := b.CollectionName ++ "_" ++ b.PKName,
        Typ := .BELONGS_TO, GetForeignKeyFunc := none } ∧
    (NewHasManyRelation a b).Reversed = some (NewBelongsToRelation b a) ∧
    r.WithFK fk = { From := r.From, To := r.To, ForeignKey := fk, Typ := r.Typ,
                    GetForeignKeyFunc := r.GetForeignKeyFunc } :=
  ⟨rfl, rfl, rfl, rfl, rfl⟩

/-- C25: when lookup finds no `HAS_MANY` relation between the two collections,
`LoadSubitems` returns an error with the results and the dispatcher (backend
state, cache and event record) exactly as they were; when it finds no
`BELONGS_TO` relation, `LoadParentItem` does the same with its target. -/
theorem Load_related_unregistered {β : Type} (s : DispatchedStorage β) (forItem other : Item)
    (results : List Item) (cap : Nat) :
    (s.lookupRelationBetween forItem other .HAS_MANY = none →
      s.LoadSubitems forItem other results cap =
        (some (.noRelation 1 forItem.CollectionName other.CollectionName), results, s)) ∧
    (s.lookupRelationBetween forItem other .BELONGS_TO = none →
      s.LoadParentItem forItem other =
        (some (.noRelation 2 forItem.CollectionName other.CollectionName), other, s)) := by
  refine ⟨fun h => ?_, fun h => ?_⟩
  · simp only [DispatchedStorage.LoadSubitems, h]
  · simp only [DispatchedStorage.LoadParentItem, h]

/-- Witness of C25: the example dispatcher knows no `HAS_MANY` relation from `images`
to `users` and no `BELONGS_TO` relation from `users` to `images`. -/
theorem Load_related_unregistered_witness :
    (exampleDispatcher plainCfg).LoadSubitems storedImage userProto [] 0 =
      (some (.noRelation 1 storedImage.CollectionName userProto.CollectionName), [],
        exampleDispatcher plainCfg) ∧
    (exampleDispatcher plainCfg).LoadParentItem storedUser imageProto =
      (some (.noRelation 2 storedUser.CollectionName imageProto.CollectionName), imageProto,
        exampleDispatcher plainCfg) :=
  ⟨(Load_related_unregistered (exampleDispatcher plainCfg) storedImage userProto [] 0).1 rfl,
   (Load_related_unregistered (exampleDispatcher plainCfg) storedUser imageProto [] 0).2 rfl⟩

/-- C30: after `SetField(name, v)`, also on a model with a nil field map, `Field(name)`
is `v`, `Field` of every other name is what it was, and the id is what it was;
`Fill(id, nil)` sets the id and keeps the field map, `Fill(id, fields)` with a
map that is not nil sets the id and makes `fields` the field map. -/
theorem SetField_then_Field (m : Model) (name other : String) (v : Value) (id : Nat)
    (fs : List (String × Value)) :
    (m.SetField name v).Field name = v ∧
    (m.SetField name v).Field other = (if other = name then v else m.Field other) ∧
    (m.SetField name v).Id = m.Id ∧
    (m.Fill id none).Id = id ∧ (m.Fill id none).Fields = m.Fields ∧
    (m.Fill id none).Field other = m.Field other ∧
    (m.Fill id (some fs)).Id = id ∧ (m.Fill id (some fs)).Fields = some fs := by
  have hset : ∀ o, (m.SetField name v).Field o = (if o = name then v else m.Field o) := by
    intro o
    obtain ⟨i, f⟩ := m
    cases f with
    | none =>
      by_cases ho : o = name
      · subst ho
        simp [Model.SetField, Model.Field, mapGet_mapSet_same]
      · have hne : name ≠ o := fun h => ho h.symm
        simp [Model.SetField, Model.Field, mapSet, mapGet, ho, hne]
    | some f =>
      by_cases ho : o = name
      · subst ho
        simp [Model.SetField, Model.Field, mapGet_mapSet_same]
      · simp [Model.SetField, Model.Field, mapGet_mapSet_ne _ _ _ _ ho, ho]
  refine ⟨by rw [hset]; simp, hset other, ?_, rfl, rfl, rfl, rfl, rfl⟩
  obtain ⟨i, f⟩ := m
  cases f <;> rfl

/-- C24 (failing input): for an image whose `users_id` field holds the `int` value -1,
`loadFkValue` does not fail: it returns 2^64 - 1, and `Save` then reports that
user 18446744073709551615 cannot be loaded. -/
theorem loadFkValue_negative_int_wraps :
    negFkImage.Field "users_id" = .int (-1) ∧
    loadFkValue negFkImage (NewBelongsToRelation imageProto userProto) =
      .ok 18446744073709551615 ∧
    ((exampleDispatcher plainCfg).Save 2 negFkImage).map (fun r => r.1) =
      some (.returned (some (.relatedMissing "users" 18446744073709551615 "images" "users_id"))) := by
  refine ⟨rfl, rfl, ?_⟩
  decide

/-- C27 (failing input): on a backend with transactions, the integrity check of `save`
loads the parent on the root storage and the cascade of `delete` selects the
children on the root storage, while the writes and deletes go to the
transaction.  A `users.created` handler that saves an image of the new user
through its transaction therefore fails the `Save` of the user (the parent
written inside the transaction is not seen by the check), which succeeds on
the same backend without transactions. -/
theorem checks_and_cascade_on_root_storage :
    ((exampleDispatcher txCfg).Delete 3 storedUser).map (fun r => (r.1, r.2.2.log)) =
      some (.returned none,
        [.txBegin, .pulled "users.delete" 1,
         .storageSelect .root "images" "`images`.`users_id`=?" [.uint64 1],
         .pulled "images.delete" 1, .cacheRemove "images" 1, .storageDelete .tx "images" 1,
         .pulled "images.deleted" 0,
         .pulled "images.delete" 2, .cacheRemove "images" 2, .storageDelete .tx "images" 2,
         .pulled "images.deleted" 0,
         .cacheRemove "users" 1, .storageDelete .tx "users" 1, .pulled "users.deleted" 0,
         .txCommit]) ∧
    ((welcomeDispatcher txCfg).Save 4 freshUser).map (fun r => (r.1, r.2.2.log, r.2.2.db)) =
      some (.returned (some (.relatedMissing "users" 4 "images" "users_id")),
        [.txBegin, .pulled "users.save" 0, .pulled "users.create" 0,
         .storageSave .tx "users" 0, .pulled "users.created" 4, .fired "users.created" 0,
         .storageLoad .root "users" 4, .cacheClear, .txRollback],
        { exampleDb with lastId := 4 }) ∧
    ((welcomeDispatcher plainCfg).Save 4 freshUser).map (fun r => (r.1, r.2.2.db.rows.length)) =
      some (.returned none, 7) := by
  decide

/-- C29 (failing input): the clone of the stored image 1 has id 0 but carries the field
map of the image: its `filename` is `kitty1.jpg`, not nil. -/
theorem Clone_keeps_fields :
    storedImage.toModel.Clone.Id = 0 ∧
    storedImage.toModel.Clone.Field "filename" = .str "kitty1.jpg" ∧
    storedImage.toModel.Clone.Fields = storedImage.Fields ∧
    storedImage.Fields ≠ none := by
  decide

/-- C26: on the in-memory backend (a faithful one), with `r` the `HAS_MANY` relation
lookup finds from the parent to the child collection and its computed reverse
the `BELONGS_TO` relation lookup finds back, `LoadSubitems(parent, C)` returns
nil and appends exactly the stored rows of `C` whose foreign key is the id of
the parent, each as a clone of the prototype filled with the row.  For every
such child `LoadParentItem(child, P)` is the `Load` of `P` under the id of the
parent, which returns nil and an entity with that id when the parent is
stored. -/
theorem LoadSubitems_then_LoadParentItem (cfg : MemCfg) (s : DispatchedStorage MemDb)
    (r : Relation) (parent childProto parentProto : Item) (results : List Item)
    (hstorage : s.storage = memStorage cfg)
    (hrel : s.lookupRelationBetween parent childProto .HAS_MANY = some r)
    (hrev : s.lookupRelationBetween childProto parentProto .BELONGS_TO = some (reverseOf r))
    (hgetter : childProto.fieldGetter = true) (hid : parent.id < 2 ^ 64)
    (hcols : ∀ row ∈ s.db.rows, (row.fields.map Prod.fst).Nodup) :
    s.LoadSubitems parent childProto results 0 =
      (none,
        results ++ (childRows s.db childProto.CollectionName r.ForeignKey parent.id).map
          (rowItem childProto),
        s.emit (.storageSelect .root childProto.CollectionName (fkCondition r)
          [Value.uint64 parent.id])) ∧
    ∀ row ∈ childRows s.db childProto.CollectionName r.ForeignKey parent.id,
      (s.LoadSubitems parent childProto results 0).2.2.LoadParentItem (rowItem childProto row)
          parentProto =
        (s.LoadSubitems parent childProto results 0).2.2.Load parentProto parent.id ∧
      ((∃ prow ∈ s.db.rows, prow.collection = parentProto.CollectionName ∧ prow.id = parent.id) →
        ((s.LoadSubitems parent childProto results 0).2.2.Load parentProto parent.id).1 = none ∧
        ((s.LoadSubitems parent childProto results 0).2.2.Load parentProto parent.id).2.1.id =
          parent.id) := by
  have hto : r.To.CollectionName = childProto.CollectionName := by
    have := List.find?_some hrel
    simpa using this
  have hfilter : (s.db.rows.filter
      (rowMatches childProto.CollectionName (fkCondition r) [Value.uint64 parent.id])) =
      childRows s.db childProto.CollectionName r.ForeignKey parent.id := by
    unfold childRows
    apply List.filter_congr
    intro row hrow
    rw [← hto]
    exact rowMatches_fk r parent.id hid row (hcols row hrow)
  have hsub : s.LoadSubitems parent childProto results 0 =
      (none,
        results ++ (childRows s.db childProto.CollectionName r.ForeignKey parent.id).map
          (rowItem childProto),
        s.emit (.storageSelect .root childProto.CollectionName (fkCondition r)
          [Value.uint64 parent.id])) := by
    simp only [DispatchedStorage.LoadSubitems, hrel, DispatchedStorage.Select, hstorage]
    simp only [memStorage, MemDb.view, Int.toNat_zero, List.drop_zero, ↓reduceIte, hfilter]
    rfl
  refine ⟨hsub, ?_⟩
  intro row hrow
  rw [hsub]
  refine ⟨?_, fun hp => Load_stored cfg _ parentProto parent.id hstorage hp⟩
  have hfk : row.fkIs r.ForeignKey parent.id = true := by
    unfold childRows at hrow
    have := (List.mem_filter.mp hrow).2
    simp only [Bool.and_eq_true] at this
    exact this.2
  have hload : loadFkValue (rowItem childProto row) (reverseOf r) = .ok parent.id := by
    unfold Row.fkIs at hfk
    cases hg : mapGet row.fields r.ForeignKey with
    | none => rw [hg] at hfk; simp at hfk
    | some v =>
      rw [hg] at hfk
      simp only [decide_eq_true_eq] at hfk
      have hfield : (rowItem childProto row).toModel.Field (reverseOf r).ForeignKey = v := by
        simp [rowItem, Item.Fill, Item.withModel, Model.Fill, Model.Field, reverseOf, hg]
      have hg2 : (rowItem childProto row).fieldGetter = true := hgetter
      simp only [loadFkValue, reverseOf, hg2, ↓reduceIte]
      simp only [reverseOf] at hfield
      rw [hfield, hfk]
  have hrev2 : (s.emit (.storageSelect .root childProto.CollectionName (fkCondition r)
      [Value.uint64 parent.id])).lookupRelationBetween (rowItem childProto row) parentProto
      .BELONGS_TO = some (reverseOf r) := hrev
  simp only [DispatchedStorage.LoadParentItem, hrev2, hload]

/-- Witness of C26: the images of the stored user 1 are loaded through the example
dispatcher, and the parent of each of them. -/
theorem LoadSubitems_then_LoadParentItem_witness :
    (exampleDispatcher plainCfg).LoadSubitems storedUser imageProto [] 0 =
      (none,
        [] ++ (childRows (exampleDispatcher plainCfg).db imageProto.CollectionName
          (NewHasManyRelation userProto imageProto).ForeignKey storedUser.id).map
          (rowItem imageProto),
        (exampleDispatcher plainCfg).emit (.storageSelect .root imageProto.CollectionName
          (fkCondition (NewHasManyRelation userProto imageProto))
          [Value.uint64 storedUser.id])) ∧
    ∀ row ∈ childRows (exampleDispatcher plainCfg).db imageProto.CollectionName
        (NewHasManyRelation userProto imageProto).ForeignKey storedUser.id,
      ((exampleDispatcher plainCfg).LoadSubitems storedUser imageProto [] 0).2.2.LoadParentItem
          (rowItem imageProto row) userProto =
        ((exampleDispatcher plainCfg).LoadSubitems storedUser imageProto [] 0).2.2.Load
          userProto storedUser.id ∧
      ((∃ prow ∈ (exampleDispatcher plainCfg).db.rows,
          prow.collection = userProto.CollectionName ∧ prow.id = storedUser.id) →
        (((exampleDispatcher plainCfg).LoadSubitems storedUser imageProto [] 0).2.2.Load
          userProto storedUser.id).1 = none ∧
        (((exampleDispatcher plainCfg).LoadSubitems storedUser imageProto [] 0).2.2.Load
          userProto storedUser.id).2.1.id = storedUser.id) :=
  LoadSubitems_then_LoadParentItem plainCfg (exampleDispatcher plainCfg)
    (NewHasManyRelation userProto imageProto) storedUser imageProto userProto [] rfl rfl rfl rfl
    (by decide) (by decide)

/-- C28: a `Save` or `Delete` a handler calls on the transaction it is handed is the
`save` or `delete` of the dispatcher under the same wrapper, after which the
handler goes on.  So, on a backend whose begin, writes and commit succeed and
whose write keeps the fields, when the only handler on the `created` /
`updated` trigger of `item` saves the entity `mk i` (another collection, no
parents, no handlers of its own), the other handlers of `item` return nil at
once and the cache has room for two more items: the public `Save(item)`
returns nil; its record holds, on the handle of its unit of work, the whole
save pipeline of `mk i`; the cache holds `mk i` as written; and a `Load` under
the id it was written with returns nil and the fields the handler saved. -/
theorem handler_save_runs_pipeline {β : Type} (s : DispatchedStorage β) (fuel : Nat)
    (item p : Item) (mk : Item → Item) (hfuel : 3 ≤ fuel)
    (hcap : s.cache.maxSize ≠ 0)
    (hroom : ∀ y : Item, ((s.cache.Add y).itemsCount : Int) ≠ s.cache.maxSize)
    (hbegin : (s.storage.Begin s.db).1 = none)
    (hcommit : ∀ d, (s.storage.Commit d).1 = none)
    (hwrite : ∀ h y d, (s.storage.Save h y d).1 = none ∧
      (s.storage.Save h y d).2.1.fields = y.fields)
    (hcheck : (s.begun.checkRelated item).1 = none)
    (hother : ∀ name, name ≠ (if item.id = 0 then CREATED else UPDATED) →
      ∀ h ∈ s.triggers (fullNameOf item name), DirectOk h)
    (hpost : s.triggers (fullNameOf item (if item.id = 0 then CREATED else UPDATED)) =
      [savingHandler mk])
    (hx : ∀ i nm, s.triggers (fullNameOf (mk i) nm) = [])
    (hxrel : ∀ i, s.getRelationsOfType (mk i) .BELONGS_TO = [])
    (hst : ∀ i, (mk i).storable = true)
    (hcoll : ∀ i, (mk i).CollectionName ≠ item.CollectionName)
    (hp : ∀ i, p.CollectionName = (mk i).CollectionName) :
    (∀ (t : Handle) (n : Nat) (x : Item) (k : Option Error → Model → HProg)
        (s0 : DispatchedStorage β),
      run t (n + 1) (.prog (.save x k)) s0 =
        (s0.save n x t).bind (fun r => run t n (.prog (k r.1 r.2.1)) r.2.2) ∧
      run t (n + 1) (.prog (.delete x k)) s0 =
        (s0.delete n x t).bind (fun r => run t n (.prog (k r.1 r.2.1)) r.2.2)) ∧
    ∃ m' s' i mx pre post,
      s.Save fuel item = some (.returned none, m', s') ∧
      s'.log = s.log ++ pre ++ plainSaveEvents (workHandle s) (mk i) mx.id ++ post ∧
      s'.cache.entry (mk i).CollectionName mx.id = some (some ((mk i).withModel mx)) ∧
      mx.fields = (mk i).fields ∧
      s'.Load p mx.id = (none, p.Fill mx.id (mk i).Fields, s') := by
  refine ⟨fun t n x k s0 => ⟨?_, ?_⟩, ?_⟩
  · simp only [run, progBody, DispatchedStorage.save]
    cases run t n (.save x) s0 with
    | none => rfl
    | some r => rfl
  · simp only [run, progBody, DispatchedStorage.delete]
    cases run t n (.delete x) s0 with
    | none => rfl
    | some r => rfl
  obtain ⟨n, rfl⟩ : ∃ n, fuel = n + 3 := ⟨fuel - 3, by omega⟩
  have hw1 : ∀ h y d, (s.storage.Save h y d).1 = none := fun h y d => (hwrite h y d).1
  have hfinal : ∀ (m4 m6 mx : Model) (s' : DispatchedStorage β),
      mx.fields = (mk (item.withModel m4)).fields →
      s'.cache = (s.cache.Add ((mk (item.withModel m4)).withModel mx)).Add (item.withModel m6) →
      s'.cache.entry (mk (item.withModel m4)).CollectionName mx.id =
        some (some ((mk (item.withModel m4)).withModel mx)) ∧
      s'.Load p mx.id = (none, p.Fill mx.id (mk (item.withModel m4)).Fields, s') := by
    intro m4 m6 mx s' hmx hc
    have h2 := Load_after_two_adds s.cache ((mk (item.withModel m4)).withModel mx)
      (item.withModel m6) p hcap (hroom _) (hst _) (hcoll _) (hp _)
    rw [← hc] at h2
    refine ⟨h2.1, ?_⟩
    have hl : s'.cache.Lookup p mx.id = (true, p.Fill mx.id (mk (item.withModel m4)).Fields) := by
      have h3 := h2.2
      have hf : ((mk (item.withModel m4)).withModel mx).Fields = (mk (item.withModel m4)).Fields :=
        hmx
      rw [hf] at h3
      exact h3
    simp only [DispatchedStorage.Load, hl]
  by_cases htx : s.transactSupport = true
  · rcases hb : s.storage.Begin s.db with ⟨eb, db1⟩
    have heb : eb = none := by rw [hb] at hbegin; exact hbegin
    subst heb
    have hcheck1 : (DispatchedStorage.checkRelated
        { s with db := db1, cache := s.cache, log := (s.log ++ [Event.txBegin]) } item).1 =
        none := by
      have : s.begun = { s with db := db1, cache := s.cache, log := (s.log ++ [Event.txBegin]) } := by
        simp [DispatchedStorage.begun, htx, hb, DispatchedStorage.emit]
      rw [← this]
      exact hcheck
    obtain ⟨m4, m6, mx, db4, dbF, pre, post, hsx, hsave⟩ :=
      save_with_savingHandler_at s n item .tx mk db1 s.cache (s.log ++ [Event.txBegin]) hcheck1
        hw1 hother hpost hx hxrel
    rcases hcm : s.storage.Commit dbF with ⟨ec, db3⟩
    have hec : ec = none := by have := hcommit dbF; rw [hcm] at this; exact this
    subst hec
    have hmx : mx.fields = (mk (item.withModel m4)).fields := by
      have := (hwrite .tx (mk (item.withModel m4)) db4).2
      rw [hsx] at this
      exact this
    have hS : s.Save (n + 3) item = some (.returned none, m6,
        { s with db := db3,
                 cache := ((s.cache.Add ((mk (item.withModel m4)).withModel mx)).Add
                   (item.withModel m6)),
                 log := (s.log ++ [Event.txBegin] ++ pre ++
                   plainSaveEvents .tx (mk (item.withModel m4)) mx.id ++ post ++
                   [Event.txCommit]) }) := by
      simp only [DispatchedStorage.Save, DispatchedStorage.performWithTransaction]
      rw [if_pos htx]
      simp only [hb, DispatchedStorage.emit]
      rw [hsave]
      simp only [clearOnError, hcm]
    obtain ⟨he, hl⟩ := hfinal m4 m6 mx
      { s with db := db3,
               cache := ((s.cache.Add ((mk (item.withModel m4)).withModel mx)).Add
                 (item.withModel m6)),
               log := (s.log ++ [Event.txBegin] ++ pre ++
                 plainSaveEvents .tx (mk (item.withModel m4)) mx.id ++ post ++
                 [Event.txCommit]) } hmx rfl
    refine ⟨m6, _, item.withModel m4, mx, [Event.txBegin] ++ pre, post ++ [Event.txCommit], hS,
      ?_, he, hmx, hl⟩
    simp [workHandle, htx, List.append_assoc]
  · have hcheck1 : (DispatchedStorage.checkRelated
        { s with db := s.db, cache := s.cache, log := s.log } item).1 = none := by
      have : s.begun = s := by simp [DispatchedStorage.begun, htx]
      rw [this] at hcheck
      exact hcheck
    obtain ⟨m4, m6, mx, db4, dbF, pre, post, hsx, hsave⟩ :=
      save_with_savingHandler_at s n item .root mk s.db s.cache s.log hcheck1
        hw1 hother hpost hx hxrel
    have hmx : mx.fields = (mk (item.withModel m4)).fields := by
      have := (hwrite .root (mk (item.withModel m4)) db4).2
      rw [hsx] at this
      exact this
    have hsave2 : s.save (n + 3) item .root = some (none, m6,
        { s with db := dbF,
                 cache := ((s.cache.Add ((mk (item.withModel m4)).withModel mx)).Add
                   (item.withModel m6)),
                 log := (s.log ++ pre ++ plainSaveEvents .root (mk (item.withModel m4)) mx.id ++
                   post) }) := hsave
    have hS : s.Save (n + 3) item = some (.returned none, m6,
        { s with db := dbF,
                 cache := ((s.cache.Add ((mk (item.withModel m4)).withModel mx)).Add
                   (item.withModel m6)),
                 log := (s.log ++ pre ++ plainSaveEvents .root (mk (item.withModel m4)) mx.id ++
                   post) }) := by
      simp only [DispatchedStorage.Save, DispatchedStorage.performWithTransaction]
      rw [if_neg htx, hsave2]
      simp only [clearOnError]
    obtain ⟨he, hl⟩ := hfinal m4 m6 mx
      { s with db := dbF,
               cache := ((s.cache.Add ((mk (item.withModel m4)).withModel mx)).Add
                 (item.withModel m6)),
               log := (s.log ++ pre ++ plainSaveEvents .root (mk (item.withModel m4)) mx.id ++
                 post) } hmx rfl
    refine ⟨m6, _, item.withModel m4, mx, pre, post, hS, ?_, he, hmx, hl⟩
    simp [workHandle, htx]

/-- Witness of C28: a new image of user 1 is saved through the example dispatcher over
the backend with transactions; the handler on `images.created` saves user 1
with the counter set. -/
theorem handler_save_runs_pipeline_witness :
    (∀ (t : Handle) (n : Nat) (x : Item) (k : Option Error → Model → HProg)
        (s0 : DispatchedStorage MemDb),
      run t (n + 1) (.prog (.save x k)) s0 =
        (s0.save n x t).bind (fun r => run t n (.prog (k r.1 r.2.1)) r.2.2) ∧
      run t (n + 1) (.prog (.delete x k)) s0 =
        (s0.delete n x t).bind (fun r => run t n (.prog (k r.1 r.2.1)) r.2.2)) ∧
    ∃ (m' : Model) (s' : DispatchedStorage MemDb) (_ : Item) (mx : Model)
        (pre post : List Event),
      (counterDispatcher txCfg).Save 3 newImage = some (.returned none, m', s') ∧
      s'.log = (counterDispatcher txCfg).log ++ pre ++
        plainSaveEvents (workHandle (counterDispatcher txCfg)) bumpedUser mx.id ++ post ∧
      s'.cache.entry bumpedUser.CollectionName mx.id = some (some (bumpedUser.withModel mx)) ∧
      mx.fields = bumpedUser.fields ∧
      s'.Load userProto mx.id = (none, userProto.Fill mx.id bumpedUser.Fields, s') :=
  handler_save_runs_pipeline (counterDispatcher txCfg) 3 newImage userProto (fun _ => bumpedUser)
    (by decide) (by decide) (fun y => fresh_cache_room y) rfl (fun _ => rfl)
    (fun h y d => memStorage_save_keeps txCfg rfl h y d) (by decide)
    (fun name hne h hh => by
      rw [counterDispatcher_images txCfg name hne] at hh
      cases hh)
    rfl (fun _ nm => counterDispatcher_users txCfg nm) (fun _ => rfl) (fun _ => rfl)
    (fun _ => (by decide : bumpedUser.CollectionName ≠ newImage.CollectionName)) (fun _ => rfl)

/-- C32: for a cache created with a capacity above 0, after every sequence of `Add`,
`Remove`, `Clear` (and `Lookup`) calls the item count is between 0 and the
capacity, and the number of keys held, tombstones included, is at most the
item count, hence at most the capacity; the capacity itself never changes. -/
theorem cache_count_bounds (maxSize : Int) (hpos : 0 < maxSize) (ops : List CacheOp) :
    0 ≤ (((NewItemsCache maxSize).applyAll ops).itemsCount : Int) ∧
    (((NewItemsCache maxSize).applyAll ops).itemsCount : Int) ≤ maxSize ∧
    ((NewItemsCache maxSize).applyAll ops).entryCount ≤
      ((NewItemsCache maxSize).applyAll ops).itemsCount ∧
    (((NewItemsCache maxSize).applyAll ops).entryCount : Int) ≤ maxSize ∧
    ((NewItemsCache maxSize).applyAll ops).maxSize = maxSize := by
  obtain ⟨h1, h2, h3⟩ := applyAll_counts maxSize hpos ops (NewItemsCache maxSize) rfl
    (by show ((0 : Nat) : Int) ≤ maxSize; omega) (by simp [NewItemsCache, ItemsCache.entryCount])
  refine ⟨by omega, h1, h2, ?_, h3⟩
  have : (((NewItemsCache maxSize).applyAll ops).entryCount : Int) ≤
      (((NewItemsCache maxSize).applyAll ops).itemsCount : Int) := by exact_mod_cast h2
  omega

/-- Witness of C32: a cache of capacity 1 after two additions, a removal and another
addition. -/
theorem cache_count_bounds_witness :
    0 ≤ (((NewItemsCache 1).applyAll
      [.add storedImage, .add storedUser, .remove storedUser, .add storedImage]).itemsCount : Int) ∧
    (((NewItemsCache 1).applyAll
      [.add storedImage, .add storedUser, .remove storedUser, .add storedImage]).itemsCount : Int) ≤
      1 ∧
    ((NewItemsCache 1).applyAll
      [.add storedImage, .add storedUser, .remove storedUser, .add storedImage]).entryCount ≤
      ((NewItemsCache 1).applyAll
        [.add storedImage, .add storedUser, .remove storedUser, .add storedImage]).itemsCount ∧
    (((NewItemsCache 1).applyAll
      [.add storedImage, .add storedUser, .remove storedUser, .add storedImage]).entryCount : Int) ≤
      1 ∧
    ((NewItemsCache 1).applyAll
      [.add storedImage, .add storedUser, .remove storedUser, .add storedImage]).maxSize = 1 :=
  cache_count_bounds 1 (by decide)
    [.add storedImage, .add storedUser, .remove storedUser, .add storedImage]

/-- C33: for trigger names without a dot (the eight standard names have none), two
`collection.trigger` keys are equal only when the collections and the trigger
names are equal, whatever the collection names contain.  So after any
sequence of registrations under such names, the list pulled for the pair
`(a, e)` is the list held before followed by exactly the handlers registered
for that pair, in registration order, and `pullTrigger` runs that list. -/
theorem handler_isolation {β : Type} (s : DispatchedStorage β)
    (regs : List (Item × String × Handler)) (a b : Item) (e e1 : String)
    (rec : Call → DispatchedStorage β → Res β) (he : '.' ∉ e.data) (he1 : '.' ∉ e1.data)
    (hregs : ∀ r ∈ regs, '.' ∉ r.2.1.data) :
    (fullNameOf a e = fullNameOf b e1 ↔ a.CollectionName = b.CollectionName ∧ e = e1) ∧
    (registerHandlers s regs).triggers (fullNameOf a e) =
      s.triggers (fullNameOf a e) ++ handlersFor regs a.CollectionName e ∧
    pullTrigger rec a e (registerHandlers s regs) =
      pullLoop rec a (fullNameOf a e) 0
        (s.triggers (fullNameOf a e) ++ handlersFor regs a.CollectionName e) a.toModel
        ((registerHandlers s regs).emit (.pulled (fullNameOf a e) a.id)) ∧
    (∀ name ∈ [DELETE, DELETED, SAVE, SAVED, UPDATE, UPDATED, CREATE, CREATED],
      '.' ∉ name.data) := by
  have ht := registerHandlers_triggers a e he regs s hregs
  refine ⟨fullNameOf_pair_inj a b e e1 he he1, ht, ?_, by decide⟩
  rw [pullTrigger_eq, ht]

/-- Witness of C33: after the four example registrations on a fresh dispatcher, `save`
of `users` pulls its two handlers and not the one of the collection
`users.save`. -/
theorem handler_isolation_witness :
    (fullNameOf userProto SAVE = fullNameOf dottedProto SAVE ↔
      userProto.CollectionName = dottedProto.CollectionName ∧ SAVE = SAVE) ∧
    (registerHandlers bareDispatcher exampleRegistrations).triggers (fullNameOf userProto SAVE) =
      bareDispatcher.triggers (fullNameOf userProto SAVE) ++
        handlersFor exampleRegistrations userProto.CollectionName SAVE ∧
    pullTrigger (run .root 2) userProto SAVE (registerHandlers bareDispatcher exampleRegistrations) =
      pullLoop (run .root 2) userProto (fullNameOf userProto SAVE) 0
        (bareDispatcher.triggers (fullNameOf userProto SAVE) ++
          handlersFor exampleRegistrations userProto.CollectionName SAVE) userProto.toModel
        ((registerHandlers bareDispatcher exampleRegistrations).emit
          (.pulled (fullNameOf userProto SAVE) userProto.id)) ∧
    (∀ name ∈ [DELETE, DELETED, SAVE, SAVED, UPDATE, UPDATED, CREATE, CREATED],
      '.' ∉ name.data) :=
  handler_isolation bareDispatcher exampleRegistrations userProto dottedProto SAVE SAVE
    (run .root 2) (by decide) (by decide) (by decide)

/-- C35: `registerRelation` appends to the list of its collection and type, whatever the
list holds, so a second relation of the same triple is kept.  The integrity
check of `save` goes through the whole `BELONGS_TO` list of the collection in
registration order: its result is the error of the first relation whose key
cannot be extracted or whose parent cannot be loaded, it is nil exactly when
every relation of the list passes, and `save` returns that error.  A
`deleteRelated` that returns nil has selected the children of every
`HAS_MANY` relation of the list, in registration order. -/
theorem check_every_registered_relation {β : Type} (s : DispatchedStorage β) (item : Item)
    (r : Relation) (typ : RelationType) (fuel : Nat) (t : Handle) :
    (s.registerRelation r).getRelationsOfType item typ =
      (if item.CollectionName = r.From.CollectionName ∧ typ = r.Typ then
        s.getRelationsOfType item typ ++ [r]
      else s.getRelationsOfType item typ) ∧
    (s.checkRelated item).1 =
      (s.getRelationsOfType item .BELONGS_TO).findSome? (relationCheck s.storage s.db item) ∧
    ((s.checkRelated item).1 = none ↔
      ∀ rel ∈ s.getRelationsOfType item .BELONGS_TO,
        relationCheck s.storage s.db item rel = none) ∧
    (∀ err, (s.checkRelated item).1 = some err →
      s.save (fuel + 1) item t = some (some err, item.toModel, (s.checkRelated item).2)) ∧
    (∀ s', deleteRelated (run t fuel) item s = some (none, s') →
      ∃ l, s'.log = s.log ++ l ∧ (childSelects s item).Sublist l) := by
  have hfind : (s.checkRelated item).1 =
      (s.getRelationsOfType item .BELONGS_TO).findSome? (relationCheck s.storage s.db item) :=
    checkRelatedLoop_findSome item _ s
  refine ⟨rfl, hfind, ?_, ?_, ?_⟩
  · rw [hfind, List.findSome?_eq_none_iff]
  · intro err herr
    simp only [DispatchedStorage.save, run, saveBody]
    cases hc : s.checkRelated item with
    | mk e s1 =>
      rw [hc] at herr
      simp only at herr
      subst herr
      rfl
  · intro s' h
    exact deleteRelatedLoop_selects (run t fuel) (run_Frame t fuel) item _ s s' h

/-- Witness of C35: with two `BELONGS_TO` relations from `images` to `users`, lookup
returns the first one, and the `save` of an image whose `users_id` names a
stored user and whose `owner_id` does not fails on the second relation. -/
theorem check_every_registered_relation_witness :
    twoParents.lookupRelationBetween twoKeyImage userProto .BELONGS_TO =
      some (NewBelongsToRelation imageProto userProto) ∧
    relationCheck twoParents.storage twoParents.db twoKeyImage
      (NewBelongsToRelation imageProto userProto) = none ∧
    twoParents.save 1 twoKeyImage .root =
      some (some (.relatedMissing "users" 100500 "images" "owner_id"), twoKeyImage.toModel,
        (twoParents.checkRelated twoKeyImage).2) :=
  ⟨rfl, rfl,
    (check_every_registered_relation twoParents twoKeyImage
      (NewBelongsToRelation imageProto userProto) .BELONGS_TO 0 .root).2.2.2.1 _ rfl⟩

/-- C31: `SqlStorage.Select` puts the capacity of the results into the statement
(`LIMIT skip, c` for a capacity `c` above 0; for capacity 0 `LIMIT skip, -1`
when a skip is given and no `LIMIT` otherwise) and into the loop bound.
Whatever rows the database yields for the statement, when each of them scans,
`Select` returns nil and appends, in the order of the rows, one clone of the
prototype filled from each of the first `c` rows (all rows for capacity 0):
at most `c` elements, and exactly `min(c, matching rows after skip)` (all
matching rows after skip for capacity 0) for a database that honours the
statement. -/
theorem Select_limit_is_capacity {ρ : Type} (env : SqlEnv ρ) (proto : Item)
    (results : List Item) (cap : Nat) (order : Option String) (skip : Int) (condition : String)
    (args : List Value) (got : List ρ)
    (hq : env.query (SqlStorage.selectSql proto cap order skip condition) args = .ok got)
    (hscan : ∀ row ∈ got, ∃ id fields, env.scan proto.Clone row = .ok (id, fields)) :
    SqlStorage.selectSql proto cap order skip condition =
      "SELECT * FROM `" ++ proto.CollectionName ++ "` WHERE " ++
        (if condition = "" then "1" else condition) ++ " " ++
        (order.map (fun o => "ORDER BY " ++ o)).getD "" ++ " " ++
        (if cap = 0 then
          (if skip > 0 then "LIMIT " ++ toString skip ++ ", " ++ toString (-1 : Int) else "")
         else "LIMIT " ++ toString skip ++ ", " ++ toString (cap : Int)) ∧
    ∃ appended,
      SqlStorage.Select env proto results cap order skip condition args =
        (none, results ++ appended) ∧
      List.Forall₂ (FilledFrom env proto) (if cap = 0 then got else got.take cap) appended ∧
      appended.length = (if cap = 0 then got.length else min cap got.length) ∧
      ∀ rows : List ρ,
        got = (if cap = 0 then rows.drop skip.toNat else (rows.drop skip.toNat).take cap) →
        appended.length =
          (if cap = 0 then rows.length - skip.toNat else min cap (rows.length - skip.toNat)) := by
  refine ⟨?_, ?_⟩
  · unfold SqlStorage.selectSql
    cases order with
    | none =>
      by_cases hc : cap = 0
      · by_cases hs : skip > 0 <;> simp [hc, hs]
      · have hpos : (0 : Int) < (cap : Int) := by omega
        simp [hc, hpos]
    | some o =>
      by_cases hc : cap = 0
      · by_cases hs : skip > 0 <;> simp [hc, hs]
      · have hpos : (0 : Int) < (cap : Int) := by omega
        simp [hc, hpos]
  · by_cases hc : cap = 0
    · obtain ⟨app, happ, hall⟩ := loadLoop_unlimited env proto (-1) got 0 results hscan
      have hlen : app.length = got.length := (List.Forall₂.length_eq hall).symm
      refine ⟨app, ?_, by simpa [hc] using hall, by simp [hc, hlen], ?_⟩
      · subst hc
        simp only [SqlStorage.Select, SqlStorage.loadByQuery, hq, ↓reduceIte, decide_True]
        exact happ
      · intro rows hrows
        simp only [hc, ↓reduceIte] at hrows ⊢
        rw [hlen, hrows, List.length_drop]
    · obtain ⟨app, happ, hall⟩ := loadLoop_limited env proto cap got 0 results hscan
      have hlen : app.length = min cap got.length := by
        rw [← List.Forall₂.length_eq hall, List.length_take]
        simp
      have hne : ¬ ((cap : Int) = -1) := by omega
      refine ⟨app, ?_, by simpa [hc] using hall, by simp [hc, hlen], ?_⟩
      · simp only [SqlStorage.Select, SqlStorage.loadByQuery, hq, hc, ↓reduceIte, hne,
          decide_False]
        exact happ
      · intro rows hrows
        simp only [hc, ↓reduceIte] at hrows ⊢
        rw [hlen, hrows, List.length_take, List.length_drop]
        omega

/-- Witness of C31: a select with a results slice of capacity 3 on a database that
yields the five example rows. -/
theorem Select_limit_is_capacity_witness :
    SqlStorage.selectSql imageProto 3 none 0 "" =
      "SELECT * FROM `" ++ imageProto.CollectionName ++ "` WHERE " ++
        (if "" = "" then "1" else "") ++ " " ++
        ((none : Option String).map (fun o => "ORDER BY " ++ o)).getD "" ++ " " ++
        (if 3 = 0 then
          (if (0 : Int) > 0 then "LIMIT " ++ toString (0 : Int) ++ ", " ++ toString (-1 : Int)
           else "")
         else "LIMIT " ++ toString (0 : Int) ++ ", " ++ toString ((3 : Nat) : Int)) ∧
    ∃ appended,
      SqlStorage.Select (tableEnv exampleDb.rows) imageProto [] 3 none 0 "" [] =
        (none, [] ++ appended) ∧
      List.Forall₂ (FilledFrom (tableEnv exampleDb.rows) imageProto)
        (if 3 = 0 then exampleDb.rows else exampleDb.rows.take 3) appended ∧
      appended.length = (if 3 = 0 then exampleDb.rows.length else min 3 exampleDb.rows.length) ∧
      ∀ rows : List Row,
        exampleDb.rows =
          (if 3 = 0 then rows.drop (0 : Int).toNat else (rows.drop (0 : Int).toNat).take 3) →
        appended.length =
          (if 3 = 0 then rows.length - (0 : Int).toNat
           else min 3 (rows.length - (0 : Int).toNat)) :=
  Select_limit_is_capacity (tableEnv exampleDb.rows) imageProto [] 3 none 0 "" [] exampleDb.rows
    rfl (fun row _ => ⟨row.id, row.fields, rfl⟩)

/-- C34: on the in-memory backend, with handlers that return at once and keep the id
of the entity, take a set `P` of entities that holds the deleted entity and
every row selected as a child (through a `HAS_MANY` relation and its foreign
key) of an entity of `P`, and a height function on `P` under which every such
child is lower than its parent (so no entity of `P` is its own descendant).
Then `delete` and the public `Delete` return with a recursion budget of the
height of the entity plus 2, with or without transactions. -/
theorem Delete_cascade_terminates (cfg : MemCfg) (s : DispatchedStorage MemDb) (item : Item)
    (P : String → Nat → Prop) (rank : String → Nat → Nat) (fuel : Nat)
    (hinv : CascadeInv cfg .root s) (hrank : Ranked P rank s.relations s.db.rows)
    (hP : P item.CollectionName item.id)
    (hfuel : rank item.CollectionName item.id + 2 ≤ fuel) :
    (∃ r, s.delete fuel item .root = some r) ∧ ∃ r, s.Delete fuel item = some r := by
  have hroot : ∃ r, s.delete fuel item .root = some r :=
    run_delete_returns cfg .root P rank fuel item s hinv hrank hP hfuel
  refine ⟨hroot, ?_⟩
  by_cases htx : s.transactSupport = true
  · simp only [DispatchedStorage.Delete, DispatchedStorage.performWithTransaction]
    rw [if_pos htx]
    by_cases hb : cfg.beginFails = true
    · simp only [hinv.storage, memStorage, hb, ↓reduceIte]
      exact ⟨_, rfl⟩
    · have hinv2 : CascadeInv cfg .tx
          { s.emit .txBegin with db := { s.db with work := some s.db.rows } } :=
        ⟨hinv.storage, hinv.direct, hinv.keeps, hinv.ids, fun r hr => hr⟩
      obtain ⟨r, hrun⟩ := run_delete_returns cfg .tx P rank fuel item
        { s.emit .txBegin with db := { s.db with work := some s.db.rows } } hinv2 hrank hP hfuel
      have hrun2 : DispatchedStorage.delete
          { s.emit .txBegin with db := { s.db with work := some s.db.rows } } fuel item .tx =
          some r := hrun
      simp only [hinv.storage, memStorage, hb, Bool.false_eq_true, ↓reduceIte] at hrun2 ⊢
      rw [hrun2]
      obtain ⟨e, m, s2⟩ := r
      cases e with
      | some err =>
        simp only [clearOnError]
        split <;> exact ⟨_, rfl⟩
      | none =>
        simp only [clearOnError]
        exact ⟨_, rfl⟩
  · obtain ⟨r, hr⟩ := hroot
    simp only [DispatchedStorage.Delete, DispatchedStorage.performWithTransaction]
    rw [if_neg htx, hr]
    obtain ⟨e, m, s2⟩ := r
    cases e <;> exact ⟨_, rfl⟩

/-- Witness of C34: the stored user 1 of the example data, whose images have height 0,
is deleted with a recursion budget of 3. -/
theorem Delete_cascade_terminates_witness :
    (∃ r, (exampleWithHandlers txCfg).delete 3 storedUser .root = some r) ∧
    ∃ r, (exampleWithHandlers txCfg).Delete 3 storedUser = some r :=
  Delete_cascade_terminates txCfg (exampleWithHandlers txCfg) storedUser (fun _ _ => True)
    exampleRank 3 (exampleWithHandlers_cascadeInv txCfg) (exampleWithHandlers_ranked txCfg)
    trivial (by decide)

end Ldbl
